import Mathlib

/-! Connection pool of `lib/gdo/pool/gdo_pool.go`.

A shallow embedding of the package `gdopool`: the package-level variables become the
record `Pool`, every Go function becomes a function from the state before the call to
an outcome `Res` (the call returned, the goroutine panicked, or it waits for the mutex
for ever), and the outside world (the registry of descriptors, `gutil.UUID`, `sql.Open`)
is the record `Env`.

Printing (`debugPrint`, `gutil.Dump`) is output only and is left out of the state.
-/

namespace GdoPool

/-! ## Data model -/

/-- Modelled from the spec: the descriptor of one resource class, `gdodriver.Driver`, with
the fields `createDataSource`, `Init`, `Fetch` and `Return` read. The Go field `Type` is
`DriverType` here; the four pool numbers are Go `int`s. -/
structure Driver where
  DriverType : String
  Host : String
  Port : String
  User : String
  Pass : String
  Charset : String
  DbName : String
  PoolInitSize : Int
  PoolMinIdle : Int
  PoolMaxIdle : Int
  PoolMaxActive : Int
deriving DecidableEq

/-- Modelled from the spec: the handle `gdobase.DataSource`, with the three fields
`createDataSource` fills: the class name, the identifier and the connection (`none` is
the nil `*sql.DB`, `some dsn` a database opened on `dsn`). -/
structure DataSource where
  Name : String
  ID : String
  Conn : Option String
deriving DecidableEq

/-- Modelled from the spec: `base.Stack`, the idle collection, a LIFO collection with
push, pop and size; the top is the head of the list. -/
abbrev Stack := List DataSource

/-- Modelled from the spec: `base.NewStack`, the empty stack. -/
def Stack.NewStack : Stack := []

/-- Modelled from the spec: `Stack.Push`. -/
def Stack.Push (st : Stack) (ds : DataSource) : Stack := ds :: st

/-- Modelled from the spec: `Stack.Pop`, the top and the rest (`none` when empty). -/
def Stack.Pop (st : Stack) : Option (DataSource × Stack) :=
  match st with
  | [] => none
  | ds :: rest => some (ds, rest)

/-- Modelled from the spec: `Stack.Len`. -/
def Stack.Len (st : Stack) : Int := (List.length st : Nat)

/-- Modelled from the spec: `base.Hmap`, the active collection, a mapping from handle
identifier to handle with insert, delete and size. -/
abbrev Hmap := List (String × DataSource)

/-- Modelled from the spec: `base.NewHmap`, the empty mapping. -/
def Hmap.NewHmap : Hmap := []

/-- Modelled from the spec: `Hmap.Delete`, remove the key (nothing happens when the key
is absent). -/
def Hmap.Delete (m : Hmap) (k : String) : Hmap := List.filter (fun e => decide (e.1 ≠ k)) m

/-- Modelled from the spec: `Hmap.Set`, bind the key to the value, replacing an older
binding of the same key. -/
def Hmap.Set (m : Hmap) (k : String) (v : DataSource) : Hmap := (k, v) :: Hmap.Delete m k

/-- Modelled from the spec: `Hmap.Len`, the number of keys. -/
def Hmap.Len (m : Hmap) : Int := (List.length m : Nat)

/-- Modelled from the spec: lookup by identifier in a `Hmap`. -/
def Hmap.Get (m : Hmap) (k : String) : Option DataSource := List.lookup k m

/-- Package-level variables of `gdopool`. A Go map is a function from the key to the
pointer stored there (`none` is the nil pointer, also what a nil map gives).
`made` and `closed` are history variables: every handle `createDataSource` has built
(newest first) and every handle `releaseDataSource` has closed. -/
structure Pool where
  _debugStatus : Bool
  _dbPoolInit : Bool
  _dbPoolIdle : String → Option Stack
  _dbPoolActive : String → Option Hmap
  _dbPoolLock : Bool
  made : List DataSource
  closed : List DataSource

/-- Parameters for what the package takes from outside: the registry
`gdodriver.GetDrivers()` keyed by class name (a Go map, so no key occurs twice), the
identifier `gutil.UUID()` gives at its k-th call, and whether `sql.Open("mysql", dsn)`
succeeds on a connection string. -/
structure Env where
  drivers : List (String × Driver)
  keysNodup : (drivers.map Prod.fst).Nodup
  uuid : Nat → String
  sqlOpen : String → Bool

/-- Outcome of a call: it returned `val` leaving state `s`, it panicked, or it waits on
the mutex and never returns. -/
inductive Res (α : Type) where
  | ret (val : α) (s : Pool)
  | panic (msg : String)
  | blocked

/-- Message of the Go runtime on a nil pointer dereference. -/
def nilDeref : String := "runtime error: invalid memory address or nil pointer dereference"

/-- Go zero values of the package variables, before any call. -/
def Pool.zero : Pool :=
  { _debugStatus := false, _dbPoolInit := false, _dbPoolIdle := fun _ => none,
    _dbPoolActive := fun _ => none, _dbPoolLock := false, made := [], closed := [] }

/-- Assignment `m[k] = v` on a Go map. -/
def mapSet {β : Type} (m : String → Option β) (k : String) (v : β) : String → Option β :=
  fun x => if x = k then some v else m x

/-- Modelled from the spec: the registry lookup `gdodriver.GetDriver(name)`, which gives
the descriptor registered under the name and the nil pointer when there is none. -/
def GetDriver (env : Env) (dbName : String) : Option Driver := List.lookup dbName env.drivers

/-- Two's complement wrap of a Go `int` (64 bit). -/
def wrapInt64 (x : Int) : Int := (x + 2 ^ 63) % 2 ^ 64 - 2 ^ 63

/-! ## Functions of the package -/

/-- Connection string built by `createDataSource`. -/
def dsnOf (driver : Driver) : String :=
  driver.User ++ ":" ++ driver.Pass ++ "@tcp(" ++ driver.Host ++ ":" ++ driver.Port ++ ")/" ++
    driver.DbName ++ "?charset=" ++ driver.Charset

/-- `createDataSource`: name from the descriptor's `DbName`, a fresh identifier, and for
type "mysql" an opened connection; a failing `sql.Open` panics. -/
def createDataSource (env : Env) (driver : Driver) (s : Pool) : Res DataSource :=
  let id := env.uuid s.made.length
  if driver.DriverType = "mysql" then
    if env.sqlOpen (dsnOf driver) = true then
      let ds : DataSource := { Name := driver.DbName, ID := id, Conn := some (dsnOf driver) }
      Res.ret ds { s with made := ds :: s.made }
    else Res.panic "gdo> open db error"
  else
    let ds : DataSource := { Name := driver.DbName, ID := id, Conn := none }
    Res.ret ds { s with made := ds :: s.made }

/-- `releaseDataSource`: close the connection of a non-nil handle (`Close` on the nil
`*sql.DB` dereferences nil). -/
def releaseDataSource (ds : Option DataSource) (s : Pool) : Res Unit :=
  match ds with
  | none => Res.ret () s
  | some h =>
    match h.Conn with
    | none => Res.panic nilDeref
    | some _ => Res.ret () { s with closed := h :: s.closed }

/-- `SetDebug`. -/
def SetDebug (status : Bool) (s : Pool) : Res Unit :=
  Res.ret () { s with _debugStatus := status }

/-- Loop `for i := 0; i < n; i++ { _dbPoolIdle[dbName].Push(createDataSource(dbDriver)) }`
of `Init` and `Fetch`, for a count `n` already clamped at zero. -/
def pushLoop (env : Env) (dbDriver : Driver) (dbName : String) : Nat → Pool → Res Unit
  | 0, s => Res.ret () s
  | n + 1, s =>
    match createDataSource env dbDriver s with
    | Res.ret ds s1 =>
      match s1._dbPoolIdle dbName with
      | none => Res.panic nilDeref
      | some st =>
        pushLoop env dbDriver dbName n
          { s1 with _dbPoolIdle := mapSet s1._dbPoolIdle dbName (Stack.Push st ds) }
    | Res.panic msg => Res.panic msg
    | Res.blocked => Res.blocked

/-- Loop `for dbName, dbDriver := range dbDrivers` of `Init`, in the order of the list. -/
def initLoop (env : Env) : List (String × Driver) → Pool → Res Unit
  | [], s => Res.ret () s
  | (dbName, dbDriver) :: rest, s =>
    let s1 : Pool :=
      { s with _dbPoolIdle := mapSet s._dbPoolIdle dbName Stack.NewStack,
               _dbPoolActive := mapSet s._dbPoolActive dbName Hmap.NewHmap }
    match pushLoop env dbDriver dbName dbDriver.PoolInitSize.toNat s1 with
    | Res.ret _ s2 => initLoop env rest s2
    | Res.panic msg => Res.panic msg
    | Res.blocked => Res.blocked

/-- `Init`: nothing on an initialised pool, otherwise fresh maps, one idle stack and one
active map per registered class, and `PoolInitSize` handles pushed on each idle stack.
The returned error is always nil. -/
def Init (env : Env) (s : Pool) : Res (Option String) :=
  if s._dbPoolInit = true then Res.ret none s
  else
    let s0 : Pool := { s with _dbPoolIdle := fun _ => none, _dbPoolActive := fun _ => none }
    match initLoop env env.drivers s0 with
    | Res.ret _ s1 => Res.ret none { s1 with _dbPoolInit := true }
    | Res.panic msg => Res.panic msg
    | Res.blocked => Res.blocked

/-- Block `// add if not enough` of `Fetch`: when the idle stack holds at most
`PoolMinIdle` handles, push `PoolMaxIdle - idleSize` new ones (a Go `int` subtraction). -/
def fetchAdd (env : Env) (d : Driver) (dbName : String) (s : Pool) : Res Unit :=
  match s._dbPoolIdle dbName with
  | none => Res.panic nilDeref
  | some idle =>
    let idleSize := Stack.Len idle
    if d.PoolMinIdle ≥ idleSize then
      let idleSizeAdd := wrapInt64 (d.PoolMaxIdle - idleSize)
      pushLoop env d dbName idleSizeAdd.toNat s
    else Res.ret () s

/-- Block `// fetch from front` of `Fetch` up to its `return`: pop the top of the idle
stack into the active map and unlock, or return the exhaustion error (without
`Unlock`). -/
def fetchFront (dbName : String) (s : Pool) : Res (Option DataSource × Option String) :=
  match s._dbPoolIdle dbName with
  | none => Res.panic nilDeref
  | some idle =>
    if Stack.Len idle ≥ 1 then
      match Stack.Pop idle with
      | none => Res.panic nilDeref
      | some (ds, rest) =>
        match s._dbPoolActive dbName with
        | none => Res.panic nilDeref
        | some act =>
          Res.ret (some ds, none)
            { s with _dbPoolIdle := mapSet s._dbPoolIdle dbName rest,
                     _dbPoolActive := mapSet s._dbPoolActive dbName (Hmap.Set act ds.ID ds),
                     _dbPoolLock := false }
    else Res.ret (none, some "gdopool : no enough ds") s

/-- `Fetch`: the handle and the error it returns. `Lock` on a held mutex never returns;
the capacity return leaves the function without `Unlock`. -/
def Fetch (env : Env) (dbName : String) (s : Pool) : Res (Option DataSource × Option String) :=
  let dbDriver := GetDriver env dbName
  if s._dbPoolLock = true then Res.blocked
  else
    let s1 : Pool := { s with _dbPoolLock := true }
    match s1._dbPoolActive dbName with
    | none => Res.panic nilDeref
    | some act =>
      let activeSize := Hmap.Len act
      match dbDriver with
      | none => Res.panic nilDeref
      | some d =>
        if d.PoolMaxActive ≤ activeSize then
          Res.ret (none, some "gdopool : max active limit") s1
        else
          match fetchAdd env d dbName s1 with
          | Res.ret _ s2 => fetchFront dbName s2
          | Res.panic msg => Res.panic msg
          | Res.blocked => Res.blocked

/-- `Return`: delete the identifier from the active map of the handle's class, then close
the handle when the idle stack is at `PoolMaxIdle` and push it otherwise. The returned
error is always nil. -/
def Return (env : Env) (ds : Option DataSource) (s : Pool) : Res (Option String) :=
  match ds with
  | none => Res.panic nilDeref
  | some h =>
    let dbName := h.Name
    let dbDriver := GetDriver env dbName
    if s._dbPoolLock = true then Res.blocked
    else
      let s1 : Pool := { s with _dbPoolLock := true }
      match s1._dbPoolActive dbName with
      | none => Res.panic nilDeref
      | some act =>
        let s2 : Pool := { s1 with _dbPoolActive := mapSet s1._dbPoolActive dbName (Hmap.Delete act h.ID) }
        match s2._dbPoolIdle dbName with
        | none => Res.panic nilDeref
        | some idle =>
          let idleSize := Stack.Len idle
          match dbDriver with
          | none => Res.panic nilDeref
          | some d =>
            if d.PoolMaxIdle ≤ idleSize then
              match releaseDataSource (some h) s2 with
              | Res.ret _ s3 => Res.ret none { s3 with _dbPoolLock := false }
              | Res.panic msg => Res.panic msg
              | Res.blocked => Res.blocked
            else
              Res.ret none
                { s2 with _dbPoolIdle := mapSet s2._dbPoolIdle dbName (Stack.Push idle h),
                          _dbPoolLock := false }

/-! ## Reachable states -/

/-- States reachable from a first `Init` on the zero state by calls of `Fetch` and
`Return` (any arguments) that return. -/
inductive Reach (env : Env) : Pool → Prop where
  | init {r : Option String} {s : Pool} :
      Init env Pool.zero = Res.ret r s → Reach env s
  | fetch {dbName : String} {s s1 : Pool} {r : Option DataSource × Option String} :
      Reach env s → Fetch env dbName s = Res.ret r s1 → Reach env s1
  | giveBack {ds : Option DataSource} {s s1 : Pool} {r : Option String} :
      Reach env s → Return env ds s = Res.ret r s1 → Reach env s1

/-- The handle is checked out: some active map binds its identifier to it. -/
def IsActive (s : Pool) (h : DataSource) : Prop :=
  ∃ c act, s._dbPoolActive c = some act ∧ (h.ID, h) ∈ act

/-- States reachable when every `Return` gets a handle that is checked out at that
moment (one `Return` per successful `Fetch`). -/
inductive ReachD (env : Env) : Pool → Prop where
  | init {r : Option String} {s : Pool} :
      Init env Pool.zero = Res.ret r s → ReachD env s
  | fetch {dbName : String} {s s1 : Pool} {r : Option DataSource × Option String} :
      ReachD env s → Fetch env dbName s = Res.ret r s1 → ReachD env s1
  | giveBack {h : DataSource} {s s1 : Pool} {r : Option String} :
      ReachD env s → IsActive s h → Return env (some h) s = Res.ret r s1 → ReachD env s1

/-- Every descriptor is registered under its own `DbName`. -/
def NamesAgree (env : Env) : Prop := ∀ c d, (c, d) ∈ env.drivers → d.DbName = c

/-- Handle creation succeeds for the descriptor: `sql.Open` accepts its connection
string when its type is "mysql". -/
def CreationOk (env : Env) (d : Driver) : Prop :=
  d.DriverType = "mysql" → env.sqlOpen (dsnOf d) = true

/-- State a returned call leaves (the zero state for a call that does not return). -/
def Res.state {α : Type} (r : Res α) : Pool :=
  match r with
  | Res.ret _ s => s
  | _ => Pool.zero

/-- Number of handles on the idle stack of a class (0 for a class without a stack). -/
def idleCount (s : Pool) (c : String) : Nat :=
  match s._dbPoolIdle c with
  | some st => st.length
  | none => 0

/-- Number of entries of the active map of a class (0 for a class without a map). -/
def activeCount (s : Pool) (c : String) : Nat :=
  match s._dbPoolActive c with
  | some m => m.length
  | none => 0

/-! ## Concrete registries used as examples -/

/-- A "mysql" descriptor of class "demo" with the four pool numbers given. -/
def demoDriver (initSize minIdle maxIdle maxActive : Int) : Driver :=
  { DriverType := "mysql", Host := "127.0.0.1", Port := "3306", User := "root", Pass := "pw",
    Charset := "utf8", DbName := "demo", PoolInitSize := initSize, PoolMinIdle := minIdle,
    PoolMaxIdle := maxIdle, PoolMaxActive := maxActive }

/-- Identifier of the k-th handle in the examples: the letter i written k + 1 times. -/
def demoUuid (k : Nat) : String := String.mk (List.replicate (k + 1) 'i')

/-- Registry with the single class "demo"; identifiers are `demoUuid` and every `sql.Open`
succeeds. -/
def demoEnv (d : Driver) : Env :=
  { drivers := [("demo", d)], keysNodup := by simp,
    uuid := demoUuid, sqlOpen := fun _ => true }

/-- Scenario A of the specification: initial 2, minimum idle 1, maximum idle 3, maximum
active 2. -/
def envA : Env := demoEnv (demoDriver 2 1 3 2)

/-- Value a returned call gives (`none` for a call that does not return). -/
def Res.val? {α : Type} (r : Res α) : Option α :=
  match r with
  | Res.ret v _ => some v
  | _ => none

/-- Handle a returned `Fetch` gives (`none` for an error return or no return). -/
def Res.handle? (r : Res (Option DataSource × Option String)) : Option DataSource :=
  match r with
  | Res.ret v _ => v.1
  | _ => none

/-- Scenario A after `Init`: two idle handles, none active. -/
def sA0 : Pool := (Init envA Pool.zero).state

/-- Scenario A after the first `Fetch`. -/
def sA1 : Pool := (Fetch envA "demo" sA0).state

/-- Scenario A after the second `Fetch`: two active handles. -/
def sA2 : Pool := (Fetch envA "demo" sA1).state

/-- Scenario A after the third `Fetch`, the one that returns the capacity error. -/
def sA3 : Pool := (Fetch envA "demo" sA2).state

/-- Handle the first `Fetch` of scenario A returns. -/
def hA1 : DataSource :=
  { Name := "demo", ID := demoUuid 1,
    Conn := some "root:pw@tcp(127.0.0.1:3306)/demo?charset=utf8" }

/-- Handle left on the idle stack by the first `Fetch` of scenario A. -/
def hA0 : DataSource := { hA1 with ID := demoUuid 0 }

/-- Handle the second `Fetch` of scenario A returns, built by its top-up. -/
def hA3 : DataSource := { hA1 with ID := demoUuid 3 }

/-- Scenario A after the first `Fetch` and the `Return` of its handle. -/
def sA1r : Pool := (Return envA (some hA1) sA1).state

/-- Scenario A after the first `Fetch` and two `Return` calls on its handle. -/
def sA1rr : Pool := (Return envA (some hA1) sA1r).state

/-- Registry whose class "demo" starts without handles and never tops up: initial 0,
minimum idle 0, maximum idle 0, maximum active 1. -/
def envE : Env := demoEnv (demoDriver 0 0 0 1)

/-- State of `envE` after `Init`. -/
def sE0 : Pool := (Init envE Pool.zero).state

/-- State of `envE` after the `Fetch` that returns the exhaustion error. -/
def sE1 : Pool := (Fetch envE "demo" sE0).state

/-- Registry whose class "demo" starts above its idle ceiling: initial 5, minimum idle 0,
maximum idle 3, maximum active 2. -/
def envB : Env := demoEnv (demoDriver 5 0 3 2)

/-- State of `envB` after `Init`: five idle handles. -/
def sB0 : Pool := (Init envB Pool.zero).state

/-- State of `envB` after one `Fetch`: four idle handles, one active. -/
def sB1 : Pool := (Fetch envB "demo" sB0).state

/-- Handle the `Fetch` of `envB` returns. -/
def hB4 : DataSource := { hA1 with ID := demoUuid 4 }

/-- State of `envB` after the `Return` of the fetched handle. -/
def sB2 : Pool := (Return envB (some hB4) sB1).state

/-! ## Bookkeeping of handles -/

/-- Test that a handle carries the class name `c`. -/
def nameIs (c : String) (h : DataSource) : Bool := decide (h.Name = c)

/-- Handles on the idle stack of a class, top first (none for a class without a stack). -/
def idleOf (s : Pool) (c : String) : List DataSource := (s._dbPoolIdle c).getD []

/-- Handles bound in the active map of a class (none for a class without a map). -/
def activeOf (s : Pool) (c : String) : List DataSource :=
  ((s._dbPoolActive c).getD []).map Prod.snd

/-- Handles of a class the pool accounts for: idle, active, or closed. -/
def heldOf (s : Pool) (c : String) : List DataSource :=
  idleOf s c ++ (activeOf s c ++ s.closed.filter (nameIs c))

/-- Bookkeeping invariant of the pool: the k-th handle built carries the k-th identifier,
the handles built for a class are, each exactly once, idle, active or closed in that
class, and every key of an active map is the identifier of the handle bound to it. -/
def PoolInv (env : Env) (s : Pool) : Prop :=
  s.made.map DataSource.ID = ((List.range s.made.length).map env.uuid).reverse ∧
  (∀ c, List.Perm (s.made.filter (nameIs c)) (heldOf s c)) ∧
  (∀ c act, s._dbPoolActive c = some act → ∀ e ∈ act, e.1 = e.2.ID)

/-- Scenario A after the second `Fetch` and the `Return` of its handle. -/
def sA2r : Pool := (Return envA (some hA3) sA2).state

/-- Scenario A after the first `Fetch`, two `Return` calls on its handle and one more
`Fetch`: the handle is active and still once on the idle stack. -/
def sA1x : Pool := (Fetch envA "demo" sA1rr).state

/-- State `sA1x` after one more `Fetch`, which hands the same handle out again. -/
def sA1y : Pool := (Fetch envA "demo" sA1x).state

/-- State `sA1y` after the `Return` of the handle. -/
def sA1z : Pool := (Return envA (some hA1) sA1y).state

/-! ## Top-up of `Fetch` -/

/-- Range of a Go `int` (64 bit). -/
def InInt64 (x : Int) : Prop := -2 ^ 63 ≤ x ∧ x < 2 ^ 63

instance (x : Int) : Decidable (InInt64 x) := by
  unfold InInt64
  infer_instance

/-- Number of rounds of the loop under `// add if not enough` in `Fetch` for a
descriptor and the idle stack found: `PoolMaxIdle - idleSize` as a Go `int` (none for a
negative number) when `PoolMinIdle >= idleSize`, none otherwise. -/
def topUpCount (d : Driver) (idle : Stack) : Nat :=
  if d.PoolMinIdle ≥ Stack.Len idle then (wrapInt64 (d.PoolMaxIdle - Stack.Len idle)).toNat
  else 0

/-- Registry whose class "demo" has the least Go `int` as `PoolMaxIdle`: initial 1,
minimum idle 1, maximum idle -2^63, maximum active 1. -/
def envO : Env := demoEnv (demoDriver 1 1 (-9223372036854775808) 1)

/-- State of `envO` after `Init`: one idle handle. -/
def sO0 : Pool := (Init envO Pool.zero).state

/-- Registry with the class "demo" (initial 0, minimum idle 1, maximum idle 3, maximum
active 2) in which every `sql.Open` fails. -/
def envF : Env :=
  { drivers := [("demo", demoDriver 0 1 3 2)], keysNodup := by simp,
    uuid := demoUuid, sqlOpen := fun _ => false }

/-- State of `envF` after `Init`: no handle was asked for, none is idle. -/
def sF0 : Pool := (Init envF Pool.zero).state

/-! ## Reference definition of `Return` -/

/-- Reference definition of `Return`, in the words of the specification: remove the
identifier of the handle from the active collection of its class; then push the handle
on top of the idle collection when that holds fewer than `PoolMaxIdle` handles, and
destroy the handle, leaving the idle collection as it is, otherwise. -/
def ReturnRef (d : Driver) (act : Hmap) (idle : Stack) (h : DataSource) (s : Pool) : Pool :=
  if Stack.Len idle < d.PoolMaxIdle then
    { s with _dbPoolActive := mapSet s._dbPoolActive h.Name (Hmap.Delete act h.ID),
             _dbPoolIdle := mapSet s._dbPoolIdle h.Name (h :: idle) }
  else
    { s with _dbPoolActive := mapSet s._dbPoolActive h.Name (Hmap.Delete act h.ID),
             closed := h :: s.closed }

/-- Registry whose class "demo" has a type other than "mysql": initial 2, minimum idle 0,
maximum idle 1, maximum active 1. `createDataSource` opens no connection for it. -/
def envP : Env := demoEnv { demoDriver 2 0 1 1 with DriverType := "pgsql" }

/-- State of `envP` after `Init`: two idle handles without a connection. -/
def sP0 : Pool := (Init envP Pool.zero).state

/-- Handle the `Fetch` of `envP` returns: its connection is nil. -/
def hP1 : DataSource := { Name := "demo", ID := demoUuid 1, Conn := none }

/-- State of `envP` after one `Fetch`: one idle handle, one active. -/
def sP1 : Pool := (Fetch envP "demo" sP0).state

/-- State of `envF` after the `Return` of a handle built elsewhere: that handle is idle. -/
def sF1 : Pool := (Return envF (some hA1) sF0).state

/-! ## Concurrent callers -/

/-- Outcomes of `n` calls `Fetch(dbName)` in the order in which the mutex admits them
(the mutex serialises concurrent callers): the values a call returns, or `none` for a
call that never returns, which leaves the state as it is. -/
def fetchCalls (env : Env) (dbName : String) :
    Nat → Pool → List (Option (Option DataSource × Option String))
  | 0, _ => []
  | n + 1, s =>
    match Fetch env dbName s with
    | Res.ret v s1 => some v :: fetchCalls env dbName n s1
    | _ => none :: fetchCalls env dbName n s

/-! ## Release-once discipline -/

/-- States reachable from a first `Init` under the release-once discipline, together
with the handles the callers hold at that moment: a successful `Fetch` hands its handle
to a caller, and `Return` is called only with a handle a caller holds that is in an
active map, after which the caller holds it no more. -/
inductive ReachOut (env : Env) : Pool → List DataSource → Prop where
  | init {r : Option String} {s : Pool} :
      Init env Pool.zero = Res.ret r s → ReachOut env s []
  | fetchOk {dbName : String} {s s1 : Pool} {out : List DataSource} {h : DataSource} :
      ReachOut env s out → Fetch env dbName s = Res.ret (some h, none) s1 →
      ReachOut env s1 (h :: out)
  | fetchErr {dbName : String} {s s1 : Pool} {out : List DataSource} {e : Option String} :
      ReachOut env s out → Fetch env dbName s = Res.ret (none, e) s1 → ReachOut env s1 out
  | giveBack {h : DataSource} {s s1 : Pool} {out : List DataSource} {r : Option String} :
      ReachOut env s out → h ∈ out → IsActive s h →
      Return env (some h) s = Res.ret r s1 → ReachOut env s1 (out.erase h)

/-- Invariant of the release-once discipline, for the pool state and the handles the
callers hold: identifiers follow the order of creation; keys of the active maps are the
identifiers of the handles bound; no handle is held twice, twice on an idle stack, both
held and idle, or on two idle stacks; every handle held, idle or active was built by the
pool; an active handle is held by a caller or names another class; and an idle handle
that names another class is in no active map. -/
structure OutInv (env : Env) (s : Pool) (out : List DataSource) : Prop where
  ids : s.made.map DataSource.ID = ((List.range s.made.length).map env.uuid).reverse
  keys : ∀ c act, s._dbPoolActive c = some act → ∀ e ∈ act, e.1 = e.2.ID
  outNodup : out.Nodup
  idleNodup : ∀ c, (idleOf s c).Nodup
  idleOut : ∀ c, ∀ v ∈ idleOf s c, v ∉ out
  idleIdle : ∀ c c1, c ≠ c1 → ∀ v ∈ idleOf s c, v ∉ idleOf s c1
  outMade : ∀ v ∈ out, v ∈ s.made
  idleMade : ∀ c, ∀ v ∈ idleOf s c, v ∈ s.made
  activeMade : ∀ c, ∀ v ∈ activeOf s c, v ∈ s.made
  activeOut : ∀ c, ∀ v ∈ activeOf s c, v ∈ out ∨ v.Name ≠ c
  idleStale : ∀ c, ∀ v ∈ idleOf s c, v.Name ≠ c → ∀ c1, v ∉ activeOf s c1

/-! ## A registry keyed by another name than `DbName` -/

/-- Registry that holds the descriptor of database "demo" under the class name "main":
initial 2, minimum idle 0, maximum idle 3, maximum active 2. -/
def envN : Env :=
  { drivers := [("main", demoDriver 2 0 3 2)], keysNodup := by simp,
    uuid := demoUuid, sqlOpen := fun _ => true }

/-- State of `envN` after `Init`. -/
def sN0 : Pool := (Init envN Pool.zero).state

/-- State of `envN` after `Fetch` of the class "main". -/
def sN1 : Pool := (Fetch envN "main" sN0).state

/-! ## Runs a machine can hold -/

/-- A state with fewer than 2^62 handles built since the start. No run of the code
goes beyond: a top-up loop of 2^62 rounds or more does not come to an end. -/
def Feasible (s : Pool) : Prop := s.made.length < 2 ^ 62

/-! ## Basic facts -/

theorem mapSet_same {β : Type} (m : String → Option β) (k : String) (v : β) :
    mapSet m k v k = some v := by
  simp [mapSet]

theorem mapSet_other {β : Type} (m : String → Option β) {k x : String} (v : β) (h : x ≠ k) :
    mapSet m k v x = m x := by
  simp [mapSet, h]

theorem createDataSource_ret {env : Env} {d : Driver} {s s1 : Pool} {ds : DataSource}
    (h : createDataSource env d s = Res.ret ds s1) :
    s1 = { s with made := ds :: s.made } ∧ ds.Name = d.DbName ∧
      ds.ID = env.uuid s.made.length := by
  unfold createDataSource at h
  split_ifs at h <;> simp at h <;> obtain ⟨rfl, rfl⟩ := h <;> simp

theorem createDataSource_ok {env : Env} {d : Driver} (hok : CreationOk env d) (s : Pool) :
    ∃ ds, createDataSource env d s = Res.ret ds { s with made := ds :: s.made } := by
  unfold createDataSource
  by_cases ht : d.DriverType = "mysql"
  · simp [ht, hok ht]
  · simp [ht]

/-- One round of `pushLoop`: the state after the handle `ds` was built and pushed. -/
theorem pushLoop_succ_ret {env : Env} {d : Driver} {c : String} {n : Nat} {s s1 : Pool} {u : Unit}
    (h : pushLoop env d c (n + 1) s = Res.ret u s1) :
    ∃ ds st, createDataSource env d s = Res.ret ds { s with made := ds :: s.made } ∧
      s._dbPoolIdle c = some st ∧
      pushLoop env d c n
        { s with made := ds :: s.made,
                 _dbPoolIdle := mapSet s._dbPoolIdle c (Stack.Push st ds) } = Res.ret u s1 := by
  rw [pushLoop] at h
  cases hc : createDataSource env d s with
  | ret ds s0 =>
    obtain ⟨rfl, -, -⟩ := createDataSource_ret hc
    rw [hc] at h
    simp only at h
    cases hi : s._dbPoolIdle c with
    | none => rw [hi] at h; simp at h
    | some st =>
      rw [hi] at h
      exact ⟨ds, st, rfl, rfl, h⟩
  | panic msg => rw [hc] at h; simp at h
  | blocked => rw [hc] at h; simp at h

/-- Induction over the rounds of `pushLoop`. -/
theorem pushLoop_induct {env : Env} {d : Driver} {c : String} (P : Pool → Prop)
    (step : ∀ s ds st, P s →
      createDataSource env d s = Res.ret ds { s with made := ds :: s.made } →
      s._dbPoolIdle c = some st →
      P { s with made := ds :: s.made,
                 _dbPoolIdle := mapSet s._dbPoolIdle c (Stack.Push st ds) }) :
    ∀ (n : Nat) (s s1 : Pool) (u : Unit), pushLoop env d c n s = Res.ret u s1 → P s → P s1 := by
  intro n
  induction n with
  | zero =>
    intro s s1 u h hP
    simp [pushLoop] at h
    rw [← h]; exact hP
  | succ n ih =>
    intro s s1 u h hP
    obtain ⟨ds, st, hc, hi, hrest⟩ := pushLoop_succ_ret h
    exact ih _ _ _ hrest (step s ds st hP hc hi)

theorem fetchAdd_ret {env : Env} {d : Driver} {c : String} {s s2 : Pool} {u : Unit}
    (h : fetchAdd env d c s = Res.ret u s2) :
    ∃ idle, s._dbPoolIdle c = some idle ∧
      ((d.PoolMinIdle ≥ Stack.Len idle ∧
          pushLoop env d c (wrapInt64 (d.PoolMaxIdle - Stack.Len idle)).toNat s = Res.ret u s2) ∨
       (Stack.Len idle > d.PoolMinIdle ∧ s2 = s)) := by
  unfold fetchAdd at h
  cases hi : s._dbPoolIdle c with
  | none => rw [hi] at h; simp at h
  | some idle =>
    rw [hi] at h
    refine ⟨idle, rfl, ?_⟩
    by_cases hm : d.PoolMinIdle ≥ Stack.Len idle
    · left
      simp only [hm, if_true] at h
      exact ⟨hm, h⟩
    · right
      simp only [hm, if_false] at h
      simp at h
      exact ⟨lt_of_not_ge hm, h.symm⟩

theorem fetchFront_ret {c : String} {s s1 : Pool} {r : Option DataSource × Option String}
    (h : fetchFront c s = Res.ret r s1) :
    (∃ ds rest act, s._dbPoolIdle c = some (ds :: rest) ∧ s._dbPoolActive c = some act ∧
        r = (some ds, none) ∧
        s1 = { s with _dbPoolIdle := mapSet s._dbPoolIdle c rest,
                      _dbPoolActive := mapSet s._dbPoolActive c (Hmap.Set act ds.ID ds),
                      _dbPoolLock := false }) ∨
    (s._dbPoolIdle c = some [] ∧ r = (none, some "gdopool : no enough ds") ∧ s1 = s) := by
  unfold fetchFront at h
  cases hi : s._dbPoolIdle c with
  | none => rw [hi] at h; simp at h
  | some idle =>
    rw [hi] at h
    cases idle with
    | nil =>
      right
      simp [Stack.Len] at h
      exact ⟨rfl, h.1.symm, h.2.symm⟩
    | cons ds rest =>
      left
      cases ha : s._dbPoolActive c with
      | none => rw [ha] at h; simp [Stack.Len, Stack.Pop] at h
      | some act =>
        rw [ha] at h
        simp [Stack.Len, Stack.Pop] at h
        exact ⟨ds, rest, act, rfl, rfl, h.1.symm, h.2.symm⟩

theorem Fetch_ret {env : Env} {c : String} {s s1 : Pool} {r : Option DataSource × Option String}
    (h : Fetch env c s = Res.ret r s1) :
    s._dbPoolLock = false ∧ ∃ d act, GetDriver env c = some d ∧ s._dbPoolActive c = some act ∧
      ((d.PoolMaxActive ≤ Hmap.Len act ∧ r = (none, some "gdopool : max active limit") ∧
          s1 = { s with _dbPoolLock := true }) ∨
       (Hmap.Len act < d.PoolMaxActive ∧
          ∃ s2, fetchAdd env d c { s with _dbPoolLock := true } = Res.ret () s2 ∧
            fetchFront c s2 = Res.ret r s1)) := by
  unfold Fetch at h
  cases hl : s._dbPoolLock with
  | true => rw [hl] at h; simp at h
  | false =>
    rw [hl] at h
    simp only [Bool.false_eq_true, if_false] at h
    refine ⟨rfl, ?_⟩
    cases ha : s._dbPoolActive c with
    | none => rw [ha] at h; simp at h
    | some act =>
      rw [ha] at h
      cases hd : GetDriver env c with
      | none => rw [hd] at h; simp at h
      | some d =>
        rw [hd] at h
        refine ⟨d, act, rfl, rfl, ?_⟩
        by_cases hm : d.PoolMaxActive ≤ Hmap.Len act
        · left
          simp [hm] at h
          exact ⟨hm, h.1.symm, h.2.symm⟩
        · right
          simp only [hm, if_false] at h
          refine ⟨lt_of_not_ge hm, ?_⟩
          cases hf : fetchAdd env d c { s with _dbPoolLock := true } with
          | ret u s2 => rw [hf] at h; exact ⟨s2, rfl, h⟩
          | panic msg => rw [hf] at h; simp at h
          | blocked => rw [hf] at h; simp at h

theorem Return_ret {env : Env} {ds : Option DataSource} {s s1 : Pool} {r : Option String}
    (h : Return env ds s = Res.ret r s1) :
    r = none ∧ s._dbPoolLock = false ∧
    ∃ hd d act idle, ds = some hd ∧ GetDriver env hd.Name = some d ∧
      s._dbPoolActive hd.Name = some act ∧ s._dbPoolIdle hd.Name = some idle ∧
      ((d.PoolMaxIdle ≤ Stack.Len idle ∧ hd.Conn ≠ none ∧
          s1 = { s with _dbPoolActive := mapSet s._dbPoolActive hd.Name (Hmap.Delete act hd.ID),
                        closed := hd :: s.closed, _dbPoolLock := false }) ∨
       (Stack.Len idle < d.PoolMaxIdle ∧
          s1 = { s with _dbPoolActive := mapSet s._dbPoolActive hd.Name (Hmap.Delete act hd.ID),
                        _dbPoolIdle := mapSet s._dbPoolIdle hd.Name (Stack.Push idle hd),
                        _dbPoolLock := false })) := by
  unfold Return at h
  cases ds with
  | none => simp at h
  | some hd =>
    simp only at h
    cases hl : s._dbPoolLock with
    | true => rw [hl] at h; simp at h
    | false =>
      rw [hl] at h
      simp only [Bool.false_eq_true, if_false] at h
      cases ha : s._dbPoolActive hd.Name with
      | none => rw [ha] at h; simp at h
      | some act =>
        rw [ha] at h
        simp only at h
        cases hi : s._dbPoolIdle hd.Name with
        | none => rw [hi] at h; simp at h
        | some idle =>
          rw [hi] at h
          simp only at h
          cases hg : GetDriver env hd.Name with
          | none => rw [hg] at h; simp at h
          | some d =>
            rw [hg] at h
            simp only at h
            by_cases hm : d.PoolMaxIdle ≤ Stack.Len idle
            · simp only [hm, if_true] at h
              cases hc : hd.Conn with
              | none => simp [releaseDataSource, hc] at h
              | some dsn =>
                simp [releaseDataSource, hc] at h
                refine ⟨h.1.symm, rfl, hd, d, act, idle, rfl, hg, ha, hi, Or.inl ⟨hm, ?_, h.2.symm⟩⟩
                simp [hc]
            · simp only [hm, if_false] at h
              simp at h
              exact ⟨h.1.symm, rfl, hd, d, act, idle, rfl, hg, ha, hi,
                Or.inr ⟨lt_of_not_ge hm, h.2.symm⟩⟩

/-- One round of the loop over the registry in `Init`. -/
theorem initLoop_cons_ret {env : Env} {c : String} {d : Driver} {rest : List (String × Driver)}
    {s s1 : Pool} {u : Unit} (h : initLoop env ((c, d) :: rest) s = Res.ret u s1) :
    ∃ s2, pushLoop env d c d.PoolInitSize.toNat
        { s with _dbPoolIdle := mapSet s._dbPoolIdle c Stack.NewStack,
                 _dbPoolActive := mapSet s._dbPoolActive c Hmap.NewHmap } = Res.ret () s2 ∧
      initLoop env rest s2 = Res.ret u s1 := by
  rw [initLoop] at h
  cases hp : pushLoop env d c d.PoolInitSize.toNat
      { s with _dbPoolIdle := mapSet s._dbPoolIdle c Stack.NewStack,
               _dbPoolActive := mapSet s._dbPoolActive c Hmap.NewHmap } with
  | ret u2 s2 => rw [hp] at h; exact ⟨s2, rfl, h⟩
  | panic msg => rw [hp] at h; simp at h
  | blocked => rw [hp] at h; simp at h

/-- Induction over `initLoop`: a property kept by the creation of the two collections
of a class and by every push of a new handle holds after the loop. -/
theorem initLoop_induct {env : Env} (P : Pool → Prop)
    (reset : ∀ s c, P s →
      P { s with _dbPoolIdle := mapSet s._dbPoolIdle c Stack.NewStack,
                 _dbPoolActive := mapSet s._dbPoolActive c Hmap.NewHmap })
    (push : ∀ (d : Driver) (c : String) s ds st, P s →
      createDataSource env d s = Res.ret ds { s with made := ds :: s.made } →
      s._dbPoolIdle c = some st →
      P { s with made := ds :: s.made,
                 _dbPoolIdle := mapSet s._dbPoolIdle c (Stack.Push st ds) }) :
    ∀ (l : List (String × Driver)) (s s1 : Pool) (u : Unit),
      initLoop env l s = Res.ret u s1 → P s → P s1 := by
  intro l
  induction l with
  | nil =>
    intro s s1 u h hP
    simp [initLoop] at h
    rw [← h]; exact hP
  | cons e rest ih =>
    intro s s1 u h hP
    obtain ⟨c, d⟩ := e
    obtain ⟨s2, hp, hrest⟩ := initLoop_cons_ret h
    exact ih _ _ _ hrest (pushLoop_induct P (push d c) _ _ _ _ hp (reset s c hP))

theorem Init_ret {env : Env} {s s1 : Pool} {r : Option String} (h : Init env s = Res.ret r s1) :
    r = none ∧
      ((s._dbPoolInit = true ∧ s1 = s) ∨
       (s._dbPoolInit = false ∧
          ∃ s2, initLoop env env.drivers
              { s with _dbPoolIdle := fun _ => none, _dbPoolActive := fun _ => none } =
                Res.ret () s2 ∧
            s1 = { s2 with _dbPoolInit := true })) := by
  unfold Init at h
  by_cases hi : s._dbPoolInit = true
  · rw [if_pos hi] at h
    simp at h
    exact ⟨h.1.symm, Or.inl ⟨hi, h.2.symm⟩⟩
  · rw [if_neg hi] at h
    dsimp only at h
    have hf : s._dbPoolInit = false := by simpa using hi
    cases hl : initLoop env env.drivers
        { s with _dbPoolIdle := fun _ => none, _dbPoolActive := fun _ => none } with
    | ret u s2 =>
      rw [hl] at h
      simp at h
      exact ⟨h.1.symm, Or.inr ⟨hf, s2, rfl, h.2.symm⟩⟩
    | panic msg => rw [hl] at h; simp at h
    | blocked => rw [hl] at h; simp at h

theorem GetDriver_mem {env : Env} {c : String} {d : Driver} (h : GetDriver env c = some d) :
    (c, d) ∈ env.drivers := by
  unfold GetDriver at h
  generalize env.drivers = l at h
  induction l with
  | nil => simp [List.lookup] at h
  | cons e rest ih =>
    obtain ⟨k, v⟩ := e
    by_cases hk : c = k
    · subst hk
      simp [List.lookup] at h
      simp [h]
    · have hb : (c == k) = false := by simpa using hk
      simp [List.lookup, hb] at h
      exact List.mem_cons_of_mem _ (ih h)

theorem GetDriver_of_mem {env : Env} {c : String} {d : Driver} (h : (c, d) ∈ env.drivers) :
    GetDriver env c = some d := by
  unfold GetDriver
  have hn := env.keysNodup
  generalize env.drivers = l at h hn
  induction l with
  | nil => simp at h
  | cons e rest ih =>
    obtain ⟨k, v⟩ := e
    simp only [List.map_cons, List.nodup_cons] at hn
    rcases List.mem_cons.mp h with heq | hmem
    · obtain ⟨rfl, rfl⟩ := Prod.mk.inj heq
      simp [List.lookup]
    · have hk : c ≠ k := by
        rintro rfl
        exact hn.1 (List.mem_map.mpr ⟨(c, d), hmem, rfl⟩)
      have hb : (c == k) = false := by simpa using hk
      simp only [List.lookup, hb]
      exact ih hmem hn.2

/-- What `pushLoop` leaves alone: everything but `made` and the idle stack of its class. -/
theorem pushLoop_frame {env : Env} {d : Driver} {c : String} {n : Nat} {s s1 : Pool} {u : Unit}
    (h : pushLoop env d c n s = Res.ret u s1) :
    s1._dbPoolActive = s._dbPoolActive ∧ s1._dbPoolLock = s._dbPoolLock ∧
      s1.closed = s.closed ∧ s1._dbPoolInit = s._dbPoolInit ∧
      s1._debugStatus = s._debugStatus ∧ ∀ x, x ≠ c → s1._dbPoolIdle x = s._dbPoolIdle x := by
  refine pushLoop_induct
    (fun t => t._dbPoolActive = s._dbPoolActive ∧ t._dbPoolLock = s._dbPoolLock ∧
      t.closed = s.closed ∧ t._dbPoolInit = s._dbPoolInit ∧
      t._debugStatus = s._debugStatus ∧ ∀ x, x ≠ c → t._dbPoolIdle x = s._dbPoolIdle x)
    ?_ n s s1 u h ⟨rfl, rfl, rfl, rfl, rfl, fun _ _ => rfl⟩
  rintro t ds st ⟨h1, h2, h3, h4, h5, h6⟩ - -
  refine ⟨h1, h2, h3, h4, h5, ?_⟩
  intro x hx
  simp only [mapSet_other _ _ hx]
  exact h6 x hx

/-- Length of the idle stack after `pushLoop`: `n` more handles. -/
theorem pushLoop_len {env : Env} {d : Driver} {c : String} :
    ∀ (n : Nat) (s s1 : Pool) (u : Unit) (st : Stack), pushLoop env d c n s = Res.ret u s1 →
      s._dbPoolIdle c = some st →
      ∃ st1, s1._dbPoolIdle c = some st1 ∧ st1.length = st.length + n := by
  intro n
  induction n with
  | zero =>
    intro s s1 u st h hi
    simp [pushLoop] at h
    subst h
    exact ⟨st, hi, rfl⟩
  | succ n ih =>
    intro s s1 u st h hi
    obtain ⟨ds, st0, -, hi0, hrest⟩ := pushLoop_succ_ret h
    rw [hi] at hi0
    obtain rfl := Option.some.inj hi0
    obtain ⟨st1, h1, h2⟩ := ih _ _ _ (Stack.Push st ds) hrest (mapSet_same _ _ _)
    refine ⟨st1, h1, ?_⟩
    rw [h2]
    simp [Stack.Push]
    omega

/-- Active maps after the loop of `Init`: empty for the classes of the list, untouched
for the others. -/
theorem initLoop_active {env : Env} :
    ∀ (l : List (String × Driver)) (s s1 : Pool) (u : Unit), initLoop env l s = Res.ret u s1 →
      ∀ c, s1._dbPoolActive c =
        if c ∈ l.map Prod.fst then some Hmap.NewHmap else s._dbPoolActive c := by
  intro l
  induction l with
  | nil =>
    intro s s1 u h c
    simp [initLoop] at h
    simp [h]
  | cons e rest ih =>
    intro s s1 u h c
    obtain ⟨k, d⟩ := e
    obtain ⟨s2, hp, hrest⟩ := initLoop_cons_ret h
    rw [ih s2 s1 u hrest c]
    obtain ⟨ha, -⟩ := pushLoop_frame hp
    rw [ha]
    by_cases hr : c ∈ rest.map Prod.fst
    · simp [hr]
    · by_cases hk : c = k
      · simp [hk, mapSet]
      · simp [hr, hk, mapSet]

theorem Hmap.Len_Delete_le (m : Hmap) (k : String) : Hmap.Len (Hmap.Delete m k) ≤ Hmap.Len m := by
  unfold Hmap.Len Hmap.Delete
  exact_mod_cast List.length_filter_le _ m

theorem Hmap.Len_Set_le (m : Hmap) (k : String) (v : DataSource) :
    Hmap.Len (Hmap.Set m k v) ≤ Hmap.Len m + 1 := by
  have h := Hmap.Len_Delete_le m k
  unfold Hmap.Len at h ⊢
  unfold Hmap.Set
  simp only [List.length_cons]
  push_cast
  omega

/-- Effect of a returning `Fetch` on the active maps: none, or one `Set` on the map of
the class, which was below `PoolMaxActive`. -/
theorem Fetch_active {env : Env} {c : String} {s s1 : Pool}
    {r : Option DataSource × Option String} (h : Fetch env c s = Res.ret r s1) :
    ∃ d act, GetDriver env c = some d ∧ s._dbPoolActive c = some act ∧
      (s1._dbPoolActive = s._dbPoolActive ∨
        (Hmap.Len act < d.PoolMaxActive ∧
          ∃ ds, s1._dbPoolActive = mapSet s._dbPoolActive c (Hmap.Set act ds.ID ds))) := by
  obtain ⟨-, d, act, hd, ha, hcase⟩ := Fetch_ret h
  refine ⟨d, act, hd, ha, ?_⟩
  rcases hcase with ⟨-, -, rfl⟩ | ⟨hlt, s2, hadd, hfront⟩
  · left; rfl
  · have hs2 : s2._dbPoolActive = s._dbPoolActive := by
      obtain ⟨idle, -, ⟨-, hp⟩ | ⟨-, rfl⟩⟩ := fetchAdd_ret hadd
      · exact (pushLoop_frame hp).1
      · rfl
    rcases fetchFront_ret hfront with ⟨ds, rest, act2, -, ha2, -, rfl⟩ | ⟨-, -, rfl⟩
    · right
      refine ⟨hlt, ds, ?_⟩
      rw [hs2, ha] at ha2
      obtain rfl := Option.some.inj ha2
      simp only [hs2]
    · left; exact hs2

/-- Invariant behind the active ceiling: every registered class has an active map, and
it holds at most `PoolMaxActive` entries when that number is not negative. -/
theorem reach_active_bound {env : Env} {s : Pool} (hr : Reach env s) :
    ∀ c d, GetDriver env c = some d →
      ∃ act, s._dbPoolActive c = some act ∧ (0 ≤ d.PoolMaxActive → Hmap.Len act ≤ d.PoolMaxActive) := by
  induction hr with
  | @init r s h =>
    intro c d hd
    obtain ⟨-, ⟨hf, -⟩ | ⟨-, s2, hl, rfl⟩⟩ := Init_ret h
    · simp [Pool.zero] at hf
    · have ha := initLoop_active _ _ _ _ hl c
      have hmem : c ∈ env.drivers.map Prod.fst :=
        List.mem_map.mpr ⟨(c, d), GetDriver_mem hd, rfl⟩
      rw [if_pos hmem] at ha
      exact ⟨Hmap.NewHmap, ha, fun h0 => by simpa [Hmap.Len, Hmap.NewHmap] using h0⟩
  | @fetch c0 s s1 r _ h ih =>
    intro c d hd
    obtain ⟨act, ha, hb⟩ := ih c d hd
    obtain ⟨d0, act0, hd0, ha0, hcase⟩ := Fetch_active h
    rcases hcase with heq | ⟨hlt, ds, heq⟩
    · rw [heq]; exact ⟨act, ha, hb⟩
    · rw [heq]
      by_cases hc : c = c0
      · subst hc
        rw [hd] at hd0
        obtain rfl := Option.some.inj hd0
        refine ⟨_, mapSet_same _ _ _, fun _ => ?_⟩
        have := Hmap.Len_Set_le act0 ds.ID ds
        omega
      · rw [mapSet_other _ _ hc]
        exact ⟨act, ha, hb⟩
  | @giveBack ds s s1 r _ h ih =>
    intro c d hd
    obtain ⟨act, ha, hb⟩ := ih c d hd
    obtain ⟨-, -, hd0, d0, act0, idle0, -, -, ha0, -, hcase⟩ := Return_ret h
    have heq : s1._dbPoolActive = mapSet s._dbPoolActive hd0.Name (Hmap.Delete act0 hd0.ID) := by
      rcases hcase with ⟨-, -, rfl⟩ | ⟨-, rfl⟩ <;> rfl
    rw [heq]
    by_cases hc : c = hd0.Name
    · subst hc
      rw [ha] at ha0
      obtain rfl := Option.some.inj ha0
      refine ⟨_, mapSet_same _ _ _, fun h0 => ?_⟩
      have := Hmap.Len_Delete_le act hd0.ID
      have := hb h0
      omega
    · rw [mapSet_other _ _ hc]
      exact ⟨act, ha, hb⟩


/-! ## The example states are reachable -/

theorem reach_sA0 : Reach envA sA0 := @Reach.init envA none sA0 (by rfl)

theorem reach_sA1 : Reach envA sA1 :=
  @Reach.fetch envA "demo" sA0 sA1 (some hA1, none) reach_sA0 (by rfl)

theorem reach_sA2 : Reach envA sA2 :=
  @Reach.fetch envA "demo" sA1 sA2 (some hA3, none) reach_sA1 (by rfl)

/-! ## Totality and sizes of the loops -/

theorem pushLoop_total {env : Env} {d : Driver} {c : String} (hok : CreationOk env d) :
    ∀ (n : Nat) (s : Pool) (st : Stack), s._dbPoolIdle c = some st →
      ∃ s1, pushLoop env d c n s = Res.ret () s1 := by
  intro n
  induction n with
  | zero => intro s st _; exact ⟨s, rfl⟩
  | succ n ih =>
    intro s st hi
    obtain ⟨ds, hc⟩ := createDataSource_ok hok s
    obtain ⟨s1, h1⟩ := ih
      { s with made := ds :: s.made,
               _dbPoolIdle := mapSet s._dbPoolIdle c (Stack.Push st ds) }
      (Stack.Push st ds) (mapSet_same _ _ _)
    refine ⟨s1, ?_⟩
    rw [pushLoop, hc]
    simp only [hi]
    exact h1

theorem initLoop_total {env : Env} :
    ∀ (l : List (String × Driver)) (s : Pool), (∀ c d, (c, d) ∈ l → CreationOk env d) →
      ∃ s1, initLoop env l s = Res.ret () s1 := by
  intro l
  induction l with
  | nil => intro s _; exact ⟨s, rfl⟩
  | cons e rest ih =>
    intro s hok
    obtain ⟨c, d⟩ := e
    obtain ⟨s2, h2⟩ := pushLoop_total (hok c d (List.mem_cons_self _ _)) d.PoolInitSize.toNat
      { s with _dbPoolIdle := mapSet s._dbPoolIdle c Stack.NewStack,
               _dbPoolActive := mapSet s._dbPoolActive c Hmap.NewHmap }
      Stack.NewStack (mapSet_same _ _ _)
    obtain ⟨s1, h1⟩ := ih s2 (fun c1 d1 hm => hok c1 d1 (List.mem_cons_of_mem _ hm))
    refine ⟨s1, ?_⟩
    rw [initLoop]
    simp only [h2]
    exact h1

/-- Idle stacks after the loop of `Init`: untouched for a class outside the list, and
`PoolInitSize` handles (none for a negative number) for a class of the list. -/
theorem initLoop_idle {env : Env} :
    ∀ (l : List (String × Driver)) (s s1 : Pool) (u : Unit), initLoop env l s = Res.ret u s1 →
      (∀ c, c ∉ l.map Prod.fst → s1._dbPoolIdle c = s._dbPoolIdle c) ∧
      ((l.map Prod.fst).Nodup → ∀ c d, (c, d) ∈ l →
        ∃ st, s1._dbPoolIdle c = some st ∧ st.length = d.PoolInitSize.toNat) := by
  intro l
  induction l with
  | nil =>
    intro s s1 u h
    simp [initLoop] at h
    subst h
    exact ⟨fun _ _ => rfl, fun _ c d hm => by simp at hm⟩
  | cons e rest ih =>
    intro s s1 u h
    obtain ⟨k, dk⟩ := e
    obtain ⟨s2, hp, hrest⟩ := initLoop_cons_ret h
    obtain ⟨ih1, ih2⟩ := ih s2 s1 u hrest
    obtain ⟨-, -, -, -, -, hfr⟩ := pushLoop_frame hp
    constructor
    · intro c hc
      simp only [List.map_cons, List.mem_cons, not_or] at hc
      rw [ih1 c hc.2, hfr c hc.1]
      exact mapSet_other _ _ hc.1
    · intro hnd c d hm
      simp only [List.map_cons, List.nodup_cons] at hnd
      rcases List.mem_cons.mp hm with heq | hmem
      · obtain ⟨rfl, rfl⟩ := Prod.mk.inj heq
        obtain ⟨st, h1, h2⟩ := pushLoop_len _ _ _ _ Stack.NewStack hp (mapSet_same _ _ _)
        refine ⟨st, ?_, by simpa [Stack.NewStack] using h2⟩
        rw [ih1 c hnd.1]
        exact h1
      · exact ih2 hnd.2 c d hmem

/-- State after a first `Init`: the flag is set, the mutex and the list of closed handles
are those of the zero state, and every registered class has an empty active map and an
idle stack of `PoolInitSize` handles. -/
theorem Init_zero_ret {env : Env} {r : Option String} {s : Pool}
    (h : Init env Pool.zero = Res.ret r s) :
    s._dbPoolInit = true ∧ s._dbPoolLock = false ∧ s.closed = [] ∧
      ∀ c d, GetDriver env c = some d →
        s._dbPoolActive c = some Hmap.NewHmap ∧
        ∃ st, s._dbPoolIdle c = some st ∧ st.length = d.PoolInitSize.toNat := by
  obtain ⟨-, ⟨hf, -⟩ | ⟨-, s2, hl, rfl⟩⟩ := Init_ret h
  · simp [Pool.zero] at hf
  · have hfr := initLoop_induct
      (fun t => t._dbPoolLock = false ∧ t.closed = [])
      (fun t c ht => ht) (fun d c t ds st ht _ _ => ht) _ _ _ _ hl ⟨rfl, rfl⟩
    refine ⟨rfl, hfr.1, hfr.2, ?_⟩
    intro c d hd
    have hmem := GetDriver_mem hd
    have ha := initLoop_active _ _ _ _ hl c
    rw [if_pos (List.mem_map.mpr ⟨(c, d), hmem, rfl⟩)] at ha
    exact ⟨ha, (initLoop_idle _ _ _ _ hl).2 env.keysNodup c d hmem⟩

theorem wrapInt64_le {x : Int} (h : 0 ≤ x) : wrapInt64 x ≤ x := by
  unfold wrapInt64
  omega

/-- Effect of a returning `Fetch` on the idle stack of its class: the top-up adds
`n` handles, where `n` is zero unless the stack held at most `PoolMinIdle` handles, and
a successful pop takes one away. Other stacks are untouched. -/
theorem Fetch_idle {env : Env} {c : String} {s s1 : Pool}
    {r : Option DataSource × Option String} (h : Fetch env c s = Res.ret r s1) :
    (∀ x, x ≠ c → s1._dbPoolIdle x = s._dbPoolIdle x) ∧
    ∃ d, GetDriver env c = some d ∧
      (s1._dbPoolIdle = s._dbPoolIdle ∨
        ∃ idle idle1 n, s._dbPoolIdle c = some idle ∧ s1._dbPoolIdle c = some idle1 ∧
          (n = 0 ∨ (d.PoolMinIdle ≥ Stack.Len idle ∧
            n = (wrapInt64 (d.PoolMaxIdle - Stack.Len idle)).toNat)) ∧
          (idle1.length = idle.length + n ∨ idle1.length + 1 = idle.length + n)) := by
  obtain ⟨-, d, act, hd, ha, hcase⟩ := Fetch_ret h
  rcases hcase with ⟨-, -, rfl⟩ | ⟨hlt, s2, hadd, hfront⟩
  · exact ⟨fun _ _ => rfl, d, hd, Or.inl rfl⟩
  · obtain ⟨idle, hi, hadd2⟩ := fetchAdd_ret hadd
    have hi0 : s._dbPoolIdle c = some idle := hi
    have h2 : (∀ x, x ≠ c → s2._dbPoolIdle x = s._dbPoolIdle x) ∧
        ∃ idle2 n, s2._dbPoolIdle c = some idle2 ∧
          (n = 0 ∨ (d.PoolMinIdle ≥ Stack.Len idle ∧
            n = (wrapInt64 (d.PoolMaxIdle - Stack.Len idle)).toNat)) ∧
          idle2.length = idle.length + n := by
      rcases hadd2 with ⟨hmin, hp⟩ | ⟨-, rfl⟩
      · obtain ⟨idle2, hi2, hlen⟩ := pushLoop_len _ _ _ _ idle hp hi
        exact ⟨(pushLoop_frame hp).2.2.2.2.2, idle2, _, hi2, Or.inr ⟨hmin, rfl⟩, hlen⟩
      · exact ⟨fun _ _ => rfl, idle, 0, hi, Or.inl rfl, rfl⟩
    obtain ⟨hfr2, idle2, n, hi2, hn, hlen2⟩ := h2
    rcases fetchFront_ret hfront with ⟨ds, rest, act2, hi3, -, -, rfl⟩ | ⟨-, -, rfl⟩
    · refine ⟨?_, d, hd, Or.inr ⟨idle, rest, n, hi0, mapSet_same _ _ _, hn, Or.inr ?_⟩⟩
      · intro x hx
        simp only [mapSet_other _ _ hx]
        exact hfr2 x hx
      · rw [hi2] at hi3
        obtain rfl := Option.some.inj hi3
        simpa using hlen2
    · exact ⟨hfr2, d, hd, Or.inr ⟨idle, idle2, n, hi0, hi2, hn, Or.inl hlen2⟩⟩

/-- Invariant behind the idle ceiling: a registered class whose `PoolMaxIdle` is
neither negative nor below `PoolInitSize` never holds more than `PoolMaxIdle` idle
handles. -/
theorem reach_idle_bound {env : Env} {s : Pool} (hr : Reach env s) :
    ∀ c d, GetDriver env c = some d →
      ∃ st, s._dbPoolIdle c = some st ∧
        (0 ≤ d.PoolMaxIdle → d.PoolInitSize ≤ d.PoolMaxIdle → Stack.Len st ≤ d.PoolMaxIdle) := by
  induction hr with
  | @init r s h =>
    intro c d hd
    obtain ⟨-, -, -, hall⟩ := Init_zero_ret h
    obtain ⟨-, st, hi, hlen⟩ := hall c d hd
    refine ⟨st, hi, fun h0 h1 => ?_⟩
    unfold Stack.Len
    rw [hlen]
    omega
  | @fetch c0 s s1 r _ h ih =>
    intro c d hd
    obtain ⟨st, hi, hb⟩ := ih c d hd
    obtain ⟨hfr, d0, hd0, hcase⟩ := Fetch_idle h
    by_cases hc : c = c0
    · subst hc
      rw [hd] at hd0
      obtain rfl := Option.some.inj hd0
      rcases hcase with heq | ⟨idle, idle1, n, hi0, hi1, hn, hlen⟩
      · rw [heq]; exact ⟨st, hi, hb⟩
      · rw [hi] at hi0
        obtain rfl := Option.some.inj hi0
        refine ⟨idle1, hi1, fun h0 h1 => ?_⟩
        have hb1 := hb h0 h1
        unfold Stack.Len at hb1 hn ⊢
        have hnle : (n : Int) ≤ d.PoolMaxIdle - (st.length : Nat) := by
          rcases hn with rfl | ⟨-, rfl⟩
          · simp; omega
          · have := wrapInt64_le (x := d.PoolMaxIdle - (st.length : Nat)) (by omega)
            omega
        omega
    · rw [hfr c hc]; exact ⟨st, hi, hb⟩
  | @giveBack ds s s1 r _ h ih =>
    intro c d hd
    obtain ⟨st, hi, hb⟩ := ih c d hd
    obtain ⟨-, -, hd0, d0, act0, idle0, -, hg0, -, hi0, hcase⟩ := Return_ret h
    rcases hcase with ⟨-, -, rfl⟩ | ⟨hlt, rfl⟩
    · exact ⟨st, hi, hb⟩
    · by_cases hc : c = hd0.Name
      · subst hc
        rw [hd] at hg0
        obtain rfl := Option.some.inj hg0
        refine ⟨_, mapSet_same _ _ _, fun _ _ => ?_⟩
        unfold Stack.Len at hlt ⊢
        simp only [Stack.Push, List.length_cons]
        push_cast
        omega
      · simp only [mapSet_other _ _ hc]
        exact ⟨st, hi, hb⟩
theorem reach_sB0 : Reach envB sB0 := @Reach.init envB none sB0 (by rfl)

theorem reach_sB1 : Reach envB sB1 :=
  @Reach.fetch envB "demo" sB0 sB1 (some hB4, none) reach_sB0 (by rfl)

theorem reach_sB2 : Reach envB sB2 :=
  @Reach.giveBack envB (some hB4) sB1 sB2 none reach_sB1 (by rfl)

/-! ## Bookkeeping invariant -/

theorem idleOf_mapSet (m : String → Option Stack) (c x : String) (v : Stack) :
    (mapSet m c v x).getD [] = if x = c then v else (m x).getD [] := by
  unfold mapSet
  split_ifs <;> rfl

theorem activeOf_mapSet (m : String → Option Hmap) (c x : String) (v : Hmap) :
    ((mapSet m c v x).getD []).map Prod.snd =
      if x = c then v.map Prod.snd else ((m x).getD []).map Prod.snd := by
  unfold mapSet
  split_ifs <;> rfl

/-- Identifiers of the handles built so far are pairwise distinct when `gutil.UUID`
never repeats. -/
theorem PoolInv.made_nodup {env : Env} {s : Pool} (hinv : PoolInv env s)
    (hinj : Function.Injective env.uuid) : (s.made.map DataSource.ID).Nodup := by
  rw [hinv.1, List.nodup_reverse]
  exact (List.nodup_range _).map hinj

/-- Identifiers of the handles a class accounts for are pairwise distinct. -/
theorem PoolInv.held_nodup {env : Env} {s : Pool} (hinv : PoolInv env s)
    (hinj : Function.Injective env.uuid) (c : String) :
    ((heldOf s c).map DataSource.ID).Nodup := by
  have h1 : ((s.made.filter (nameIs c)).map DataSource.ID).Nodup :=
    (hinv.made_nodup hinj).sublist ((List.filter_sublist _).map _)
  exact ((hinv.2.1 c).map _).nodup_iff.mp h1

/-- Every handle a class accounts for carries the name of the class. -/
theorem PoolInv.held_name {env : Env} {s : Pool} (hinv : PoolInv env s) {c : String}
    {h : DataSource} (hm : h ∈ heldOf s c) : h.Name = c := by
  have := (hinv.2.1 c).mem_iff.mpr hm
  simpa [nameIs] using (List.mem_filter.mp this).2

/-- An identifier on the idle stack of a class is no key of its active map. -/
theorem PoolInv.idle_not_active {env : Env} {s : Pool} (hinv : PoolInv env s)
    (hinj : Function.Injective env.uuid) {c : String} {idle : Stack} {act : Hmap}
    (hi : s._dbPoolIdle c = some idle) (ha : s._dbPoolActive c = some act)
    {h : DataSource} (hm : h ∈ idle) : ∀ e ∈ act, e.1 ≠ h.ID := by
  intro e he heq
  have hnd := hinv.held_nodup hinj c
  unfold heldOf idleOf activeOf at hnd
  rw [hi, ha] at hnd
  simp only [Option.getD_some, List.map_append] at hnd
  have hdis := (List.nodup_append.mp hnd).2.2
  have h1 : h.ID ∈ idle.map DataSource.ID := List.mem_map.mpr ⟨h, hm, rfl⟩
  have h2 : h.ID ∈ (act.map Prod.snd).map DataSource.ID ++
      (s.closed.filter (nameIs c)).map DataSource.ID := by
    apply List.mem_append_left
    refine List.mem_map.mpr ⟨e.2, List.mem_map.mpr ⟨e, he, rfl⟩, ?_⟩
    rw [← hinv.2.2 c act ha e he, heq]
  exact hdis h1 h2

theorem Hmap.Delete_of_fresh {act : Hmap} {k : String} (h : ∀ e ∈ act, e.1 ≠ k) :
    Hmap.Delete act k = act := by
  unfold Hmap.Delete
  rw [List.filter_eq_self]
  intro e he
  simpa using h e he

/-- The invariant does not read the mutex, the flag of `Init` or the debug flag. -/
theorem PoolInv.of_same {env : Env} {s t : Pool} (hinv : PoolInv env s)
    (h1 : t.made = s.made) (h2 : t.closed = s.closed) (h3 : t._dbPoolIdle = s._dbPoolIdle)
    (h4 : t._dbPoolActive = s._dbPoolActive) : PoolInv env t := by
  unfold PoolInv heldOf idleOf activeOf at *
  rw [h1, h2, h3, h4]
  exact hinv

/-- The invariant survives one round of `pushLoop` on a class whose descriptor carries
the name of the class. -/
theorem PoolInv.push {env : Env} {s : Pool} {d : Driver} {c : String} {ds : DataSource}
    {st : Stack} (hinv : PoolInv env s)
    (hc : createDataSource env d s = Res.ret ds { s with made := ds :: s.made })
    (hn : d.DbName = c) (hi : s._dbPoolIdle c = some st) :
    PoolInv env { s with made := ds :: s.made,
                         _dbPoolIdle := mapSet s._dbPoolIdle c (Stack.Push st ds) } := by
  obtain ⟨-, hname, hid⟩ := createDataSource_ret hc
  obtain ⟨h1, h2, h3⟩ := hinv
  refine ⟨?_, ?_, h3⟩
  · simp only [List.map_cons, List.length_cons, List.range_succ, List.map_append,
      List.map_singleton, List.reverse_append, List.reverse_singleton, List.singleton_append]
    rw [h1, hid]
    simp
  · intro x
    have hx := h2 x
    unfold heldOf idleOf activeOf at hx ⊢
    simp only [idleOf_mapSet]
    by_cases hxc : x = c
    · subst hxc
      have hnm : nameIs x ds = true := by simp [nameIs, hname, hn]
      rw [List.filter_cons_of_pos hnm, if_pos rfl]
      rw [hi] at hx
      exact List.Perm.cons ds hx
    · have hnm : ¬ nameIs x ds = true := by
        simp only [nameIs, decide_eq_true_eq, hname, hn]
        exact fun h => hxc h.symm
      rw [List.filter_cons_of_neg hnm, if_neg hxc]
      exact hx
/-- The invariant survives the pop of `Fetch`: the top of the idle stack moves to the
active map. -/
theorem PoolInv.pop {env : Env} {s : Pool} {c : String} {ds : DataSource} {rest : Stack}
    {act : Hmap} {b : Bool} (hinv : PoolInv env s) (hinj : Function.Injective env.uuid)
    (hi : s._dbPoolIdle c = some (ds :: rest)) (ha : s._dbPoolActive c = some act) :
    PoolInv env { s with _dbPoolIdle := mapSet s._dbPoolIdle c rest,
                         _dbPoolActive := mapSet s._dbPoolActive c (Hmap.Set act ds.ID ds),
                         _dbPoolLock := b } := by
  have hfresh := hinv.idle_not_active hinj hi ha (List.mem_cons_self ds rest)
  have hset : Hmap.Set act ds.ID ds = (ds.ID, ds) :: act := by
    unfold Hmap.Set
    rw [Hmap.Delete_of_fresh hfresh]
  obtain ⟨h1, h2, h3⟩ := hinv
  refine ⟨h1, ?_, ?_⟩
  · intro x
    have hx := h2 x
    unfold heldOf idleOf activeOf at hx ⊢
    simp only [idleOf_mapSet, activeOf_mapSet]
    by_cases hxc : x = c
    · subst hxc
      rw [if_pos rfl, if_pos rfl, hset]
      rw [hi, ha] at hx
      simp only [Option.getD_some, List.map_cons, List.cons_append] at hx ⊢
      exact hx.trans List.perm_middle.symm
    · rw [if_neg hxc, if_neg hxc]
      exact hx
  · intro x act1 hact1 e he
    by_cases hxc : x = c
    · subst hxc
      simp only [mapSet_same] at hact1
      obtain rfl := Option.some.inj hact1
      rw [hset] at he
      rcases List.mem_cons.mp he with rfl | hmem
      · rfl
      · exact h3 x act ha e hmem
    · simp only [mapSet_other _ _ hxc] at hact1
      exact h3 x act1 hact1 e he

/-- A binding of a map without repeated keys is the only one of its key: deleting the
key leaves the other values. -/
theorem Hmap.perm_Delete {act : Hmap} {k : String} {v : DataSource}
    (hnd : (act.map Prod.fst).Nodup) (hm : (k, v) ∈ act) :
    List.Perm (act.map Prod.snd) (v :: (Hmap.Delete act k).map Prod.snd) := by
  induction act with
  | nil => simp at hm
  | cons e rest ih =>
    simp only [List.map_cons, List.nodup_cons] at hnd
    rcases List.mem_cons.mp hm with heq | hmem
    · subst heq
      have hfresh : ∀ e ∈ rest, e.1 ≠ k := by
        intro e he heq
        exact hnd.1 (heq ▸ List.mem_map.mpr ⟨e, he, rfl⟩)
      have hd : Hmap.Delete ((k, v) :: rest) k = rest := by
        have := Hmap.Delete_of_fresh hfresh
        unfold Hmap.Delete at this ⊢
        rw [List.filter_cons_of_neg (by simp)]
        exact this
      rw [hd]
      simp
    · have hne : e.1 ≠ k := by
        intro heq
        exact hnd.1 (heq ▸ List.mem_map.mpr ⟨(k, v), hmem, rfl⟩)
      have hd : Hmap.Delete (e :: rest) k = e :: Hmap.Delete rest k := by
        unfold Hmap.Delete
        simp [hne]
      rw [hd]
      simp only [List.map_cons]
      exact ((ih hnd.2 hmem).cons e.2).trans (List.Perm.swap _ _ _)

/-- Keys of an active map are pairwise distinct. -/
theorem PoolInv.keys_nodup {env : Env} {s : Pool} (hinv : PoolInv env s)
    (hinj : Function.Injective env.uuid) {c : String} {act : Hmap}
    (ha : s._dbPoolActive c = some act) : (act.map Prod.fst).Nodup := by
  have hnd := hinv.held_nodup hinj c
  unfold heldOf idleOf activeOf at hnd
  rw [ha] at hnd
  simp only [Option.getD_some, List.map_append] at hnd
  have h1 := (List.nodup_append.mp (List.nodup_append.mp hnd).2.1).1
  have h2 : act.map Prod.fst = (act.map Prod.snd).map DataSource.ID := by
    rw [List.map_map]
    apply List.map_congr_left
    intro e he
    exact hinv.2.2 c act ha e he
  rw [h2]
  exact h1

/-- A checked-out handle sits in the active map of the class it names. -/
theorem PoolInv.active_name {env : Env} {s : Pool} (hinv : PoolInv env s) {c : String}
    {act : Hmap} {h : DataSource} (ha : s._dbPoolActive c = some act)
    (hm : (h.ID, h) ∈ act) : h.Name = c := by
  apply hinv.held_name
  unfold heldOf idleOf activeOf
  rw [ha]
  apply List.mem_append_right
  apply List.mem_append_left
  exact List.mem_map.mpr ⟨(h.ID, h), hm, rfl⟩

/-- The invariant survives `Return` of a checked-out handle, in the branch that pushes
it and (with `close` set) in the branch that closes it. -/
theorem PoolInv.give {env : Env} {s : Pool} {h : DataSource} {idle : Stack} {act : Hmap}
    {b : Bool} (close : Bool) (hinv : PoolInv env s) (hinj : Function.Injective env.uuid)
    (hi : s._dbPoolIdle h.Name = some idle) (ha : s._dbPoolActive h.Name = some act)
    (hm : (h.ID, h) ∈ act) :
    PoolInv env
      { s with _dbPoolActive := mapSet s._dbPoolActive h.Name (Hmap.Delete act h.ID),
               _dbPoolIdle := if close then s._dbPoolIdle
                 else mapSet s._dbPoolIdle h.Name (Stack.Push idle h),
               closed := if close then h :: s.closed else s.closed,
               _dbPoolLock := b } := by
  have hperm := Hmap.perm_Delete (hinv.keys_nodup hinj ha) hm
  obtain ⟨h1, h2, h3⟩ := hinv
  refine ⟨h1, ?_, ?_⟩
  · intro x
    have hx := h2 x
    unfold heldOf idleOf activeOf at hx ⊢
    simp only [activeOf_mapSet]
    by_cases hxc : x = h.Name
    · subst hxc
      rw [if_pos rfl]
      rw [hi, ha] at hx
      simp only [Option.getD_some] at hx
      cases close with
      | true =>
        simp only [if_true, hi, Option.getD_some]
        have hnm : nameIs h.Name h = true := by simp [nameIs]
        rw [List.filter_cons_of_pos hnm]
        refine hx.trans (List.Perm.append_left idle ?_)
        exact (hperm.append_right _).trans (by simpa using List.perm_middle.symm)
      | false =>
        simp only [Bool.false_eq_true, if_false, idleOf_mapSet, if_true, Stack.Push]
        refine hx.trans ?_
        refine ((hperm.append_right _).append_left idle).trans ?_
        simp
    · rw [if_neg hxc]
      cases close with
      | true =>
        simp only [if_true]
        have hnm : ¬ nameIs x h = true := by
          simp only [nameIs, decide_eq_true_eq]
          exact fun hh => hxc hh.symm
        rw [List.filter_cons_of_neg hnm]
        exact hx
      | false =>
        simp only [Bool.false_eq_true, if_false, idleOf_mapSet, if_neg hxc]
        exact hx
  · intro x act1 hact1 e he
    by_cases hxc : x = h.Name
    · subst hxc
      simp only [mapSet_same] at hact1
      obtain rfl := Option.some.inj hact1
      exact h3 _ act ha e (List.mem_of_mem_filter he)
    · simp only [mapSet_other _ _ hxc] at hact1
      exact h3 x act1 hact1 e he
theorem pushLoop_inv {env : Env} {d : Driver} {c : String} {n : Nat} {s s1 : Pool} {u : Unit}
    (h : pushLoop env d c n s = Res.ret u s1) (hn : d.DbName = c) (hinv : PoolInv env s) :
    PoolInv env s1 :=
  pushLoop_induct (PoolInv env) (fun _ _ _ hP hc hi => hP.push hc hn hi) n s s1 u h hinv

theorem initLoop_inv {env : Env} :
    ∀ (l : List (String × Driver)) (s s1 : Pool) (u : Unit), initLoop env l s = Res.ret u s1 →
      (l.map Prod.fst).Nodup →
      (∀ c ∈ l.map Prod.fst, s._dbPoolIdle c = none ∧ s._dbPoolActive c = none) →
      (∀ c d, (c, d) ∈ l → d.DbName = c) → PoolInv env s → PoolInv env s1 := by
  intro l
  induction l with
  | nil =>
    intro s s1 u h _ _ _ hinv
    simp [initLoop] at h
    subst h
    exact hinv
  | cons e rest ih =>
    intro s s1 u h hnd hnone hnames hinv
    obtain ⟨k, dk⟩ := e
    obtain ⟨s2, hp, hrest⟩ := initLoop_cons_ret h
    simp only [List.map_cons, List.nodup_cons] at hnd
    obtain ⟨hk1, hk2⟩ := hnone k (by simp)
    have hreset : PoolInv env
        { s with _dbPoolIdle := mapSet s._dbPoolIdle k Stack.NewStack,
                 _dbPoolActive := mapSet s._dbPoolActive k Hmap.NewHmap } := by
      obtain ⟨h1, h2, h3⟩ := hinv
      refine ⟨h1, ?_, ?_⟩
      · intro x
        have hx := h2 x
        unfold heldOf idleOf activeOf at hx ⊢
        simp only [idleOf_mapSet, activeOf_mapSet]
        by_cases hxk : x = k
        · subst hxk
          rw [hk1, hk2] at hx
          simpa [Stack.NewStack, Hmap.NewHmap] using hx
        · rw [if_neg hxk, if_neg hxk]
          exact hx
      · intro x act1 hact1 e he
        by_cases hxk : x = k
        · subst hxk
          simp only [mapSet_same] at hact1
          obtain rfl := Option.some.inj hact1
          simp [Hmap.NewHmap] at he
        · simp only [mapSet_other _ _ hxk] at hact1
          exact h3 x act1 hact1 e he
    have hinv2 := pushLoop_inv hp (hnames k dk (List.mem_cons_self _ _)) hreset
    obtain ⟨hfa, -, -, -, -, hfi⟩ := pushLoop_frame hp
    refine ih s2 s1 u hrest hnd.2 ?_ (fun c d hm => hnames c d (List.mem_cons_of_mem _ hm)) hinv2
    intro c hc
    have hck : c ≠ k := fun heq => hnd.1 (heq ▸ hc)
    obtain ⟨hc1, hc2⟩ := hnone c (List.mem_cons_of_mem _ hc)
    constructor
    · rw [hfi c hck]
      simp only [mapSet_other _ _ hck]
      exact hc1
    · rw [hfa]
      simp only [mapSet_other _ _ hck]
      exact hc2

theorem Init_zero_inv {env : Env} {r : Option String} {s : Pool}
    (h : Init env Pool.zero = Res.ret r s) (hnames : NamesAgree env) : PoolInv env s := by
  obtain ⟨-, ⟨hf, -⟩ | ⟨-, s2, hl, rfl⟩⟩ := Init_ret h
  · simp [Pool.zero] at hf
  · have h0 : PoolInv env
        { Pool.zero with _dbPoolIdle := fun _ => none, _dbPoolActive := fun _ => none } := by
      refine ⟨by simp [Pool.zero], ?_, ?_⟩
      · intro c
        simp [heldOf, idleOf, activeOf, Pool.zero]
      · intro c act hact
        simp at hact
    have h2 := initLoop_inv _ _ _ _ hl env.keysNodup (fun _ _ => ⟨rfl, rfl⟩) hnames h0
    exact h2.of_same rfl rfl rfl rfl

theorem Fetch_inv {env : Env} {c : String} {s s1 : Pool}
    {r : Option DataSource × Option String} (h : Fetch env c s = Res.ret r s1)
    (hnames : NamesAgree env) (hinj : Function.Injective env.uuid) (hinv : PoolInv env s) :
    PoolInv env s1 := by
  obtain ⟨-, d, act, hd, ha, hcase⟩ := Fetch_ret h
  rcases hcase with ⟨-, -, rfl⟩ | ⟨-, s2, hadd, hfront⟩
  · exact hinv.of_same rfl rfl rfl rfl
  · have hlock : PoolInv env { s with _dbPoolLock := true } := hinv.of_same rfl rfl rfl rfl
    have hinv2 : PoolInv env s2 := by
      obtain ⟨idle, -, ⟨-, hp⟩ | ⟨-, rfl⟩⟩ := fetchAdd_ret hadd
      · exact pushLoop_inv hp (hnames c d (GetDriver_mem hd)) hlock
      · exact hlock
    rcases fetchFront_ret hfront with ⟨ds, rest, act2, hi2, ha2, -, rfl⟩ | ⟨-, -, rfl⟩
    · exact hinv2.pop hinj hi2 ha2
    · exact hinv2

theorem Return_inv {env : Env} {h : DataSource} {s s1 : Pool} {r : Option String}
    (hret : Return env (some h) s = Res.ret r s1) (hact : IsActive s h)
    (hinj : Function.Injective env.uuid) (hinv : PoolInv env s) : PoolInv env s1 := by
  obtain ⟨-, -, h0, d, act, idle, hsome, -, ha, hi, hcase⟩ := Return_ret hret
  obtain rfl := Option.some.inj hsome
  obtain ⟨c, act1, ha1, hm⟩ := hact
  obtain rfl := hinv.active_name ha1 hm
  rw [ha] at ha1
  obtain rfl := Option.some.inj ha1
  rcases hcase with ⟨-, -, rfl⟩ | ⟨-, rfl⟩
  · exact (hinv.give true hinj hi ha hm).of_same rfl rfl rfl rfl
  · exact (hinv.give false hinj hi ha hm).of_same rfl rfl rfl rfl

/-- Bookkeeping invariant of every state reached under the discipline of one `Return`
per checked-out handle, for a registry keyed by `DbName` and identifiers that never
repeat. -/
theorem reachD_inv {env : Env} {s : Pool} (hr : ReachD env s) (hnames : NamesAgree env)
    (hinj : Function.Injective env.uuid) : PoolInv env s := by
  induction hr with
  | @init r s h => exact Init_zero_inv h hnames
  | @fetch c s s1 r _ h ih => exact Fetch_inv h hnames hinj ih
  | @giveBack h s s1 r _ hact hret ih => exact Return_inv hret hact hinj ih
theorem pushLoop_made_len {env : Env} {d : Driver} {c : String} :
    ∀ (n : Nat) (s s1 : Pool) (u : Unit), pushLoop env d c n s = Res.ret u s1 →
      s1.made.length = s.made.length + n := by
  intro n
  induction n with
  | zero =>
    intro s s1 u h
    simp [pushLoop] at h
    subst h
    rfl
  | succ n ih =>
    intro s s1 u h
    obtain ⟨ds, st, -, -, hrest⟩ := pushLoop_succ_ret h
    rw [ih _ _ _ hrest]
    simp only [List.length_cons]
    omega

theorem Hmap.Delete_Set {act : Hmap} {k : String} (v : DataSource)
    (h : ∀ e ∈ act, e.1 ≠ k) : Hmap.Delete (Hmap.Set act k v) k = act := by
  unfold Hmap.Set
  rw [Hmap.Delete_of_fresh h]
  have := Hmap.Delete_of_fresh h
  unfold Hmap.Delete at this ⊢
  rw [List.filter_cons_of_neg (by simp)]
  exact this

theorem mapSet_mapSet_self {β : Type} (m : String → Option β) (c : String) (v w : β)
    (h : m c = some w) : mapSet (mapSet m c v) c w = m := by
  funext x
  by_cases hx : x = c
  · subst hx; simp [mapSet, h]
  · simp [mapSet, hx]

/-- A `Fetch` that hands out a handle without building one pops the top of the idle
stack it found and binds it in the active map it found. -/
theorem Fetch_plain {env : Env} {c : String} {s s1 : Pool} {h : DataSource}
    (hf : Fetch env c s = Res.ret (some h, none) s1) (hmade : s1.made = s.made) :
    s._dbPoolLock = false ∧ ∃ rest act, s._dbPoolIdle c = some (h :: rest) ∧
      s._dbPoolActive c = some act ∧
      s1 = { s with _dbPoolIdle := mapSet s._dbPoolIdle c rest,
                    _dbPoolActive := mapSet s._dbPoolActive c (Hmap.Set act h.ID h) } := by
  obtain ⟨hl, d, act, hd, ha, hcase⟩ := Fetch_ret hf
  refine ⟨hl, ?_⟩
  rcases hcase with ⟨-, hr, -⟩ | ⟨-, s2, hadd, hfront⟩
  · simp at hr
  · rcases fetchFront_ret hfront with ⟨ds, rest, act2, hi2, ha2, hr, rfl⟩ | ⟨-, hr, -⟩
    · obtain rfl : h = ds := by simpa using hr
      have hs2 : s2 = { s with _dbPoolLock := true } := by
        obtain ⟨idle, -, ⟨-, hp⟩ | ⟨-, rfl⟩⟩ := fetchAdd_ret hadd
        · have hlen := pushLoop_made_len _ _ _ _ hp
          have h0 : (wrapInt64 (d.PoolMaxIdle - Stack.Len idle)).toNat = 0 := by
            have : s2.made.length = s.made.length := congrArg List.length hmade
            simp only at hlen
            omega
          rw [h0] at hp
          simp [pushLoop] at hp
          exact hp.symm
        · rfl
      subst hs2
      refine ⟨rest, act2, hi2, ha2, ?_⟩
      simp only [← hl]
    · simp at hr
/-! ## Facts about the example registries -/

theorem demoUuid_injective : Function.Injective demoUuid := by
  intro a b h
  unfold demoUuid at h
  have h1 := congrArg String.length h
  simpa [String.length] using h1

theorem namesAgree_envA : NamesAgree envA := by
  intro c d hm
  simp only [envA, demoEnv, List.mem_singleton] at hm
  obtain ⟨rfl, rfl⟩ := Prod.mk.inj hm
  rfl

theorem reach_sA1r : Reach envA sA1r :=
  @Reach.giveBack envA (some hA1) sA1 sA1r none reach_sA1 (by rfl)

theorem reach_sA1rr : Reach envA sA1rr :=
  @Reach.giveBack envA (some hA1) sA1r sA1rr none reach_sA1r (by rfl)

theorem reachD_sA0 : ReachD envA sA0 := @ReachD.init envA none sA0 (by rfl)

theorem reachD_sA1 : ReachD envA sA1 :=
  @ReachD.fetch envA "demo" sA0 sA1 (some hA1, none) reachD_sA0 (by rfl)

theorem reach_sA1x : Reach envA sA1x :=
  @Reach.fetch envA "demo" sA1rr sA1x (some hA1, none) reach_sA1rr (by rfl)

/-! ## Runs of the top-up and of `Fetch` -/

theorem mapSet_self {β : Type} (m : String → Option β) (c : String) (v : β)
    (h : m c = some v) : mapSet m c v = m := by
  funext x
  by_cases hx : x = c
  · subst hx; simp [mapSet, h]
  · simp [mapSet, hx]

theorem mapSet_mapSet {β : Type} (m : String → Option β) (c : String) (v w : β) :
    mapSet (mapSet m c v) c w = mapSet m c w := by
  funext x
  by_cases hx : x = c
  · subst hx; simp [mapSet]
  · simp [mapSet, hx]

/-- State after a returning `pushLoop`: the `n` handles built are in front of `made`
and on top of the idle stack, newest first, each named after `DbName`. -/
theorem pushLoop_ret_eq {env : Env} {d : Driver} {c : String} :
    ∀ (n : Nat) (s s1 : Pool) (u : Unit) (st : Stack), pushLoop env d c n s = Res.ret u s1 →
      s._dbPoolIdle c = some st →
      ∃ news : List DataSource, news.length = n ∧ (∀ h ∈ news, h.Name = d.DbName) ∧
        s1 = { s with made := news ++ s.made,
                      _dbPoolIdle := mapSet s._dbPoolIdle c (news ++ st) } := by
  intro n
  induction n with
  | zero =>
    intro s s1 u st h hi
    simp [pushLoop] at h
    subst h
    refine ⟨[], rfl, by simp, ?_⟩
    simp only [List.nil_append, mapSet_self _ _ _ hi]
  | succ n ih =>
    intro s s1 u st h hi
    obtain ⟨ds, st0, hc, hi0, hrest⟩ := pushLoop_succ_ret h
    rw [hi] at hi0
    obtain rfl := Option.some.inj hi0
    obtain ⟨-, hname, -⟩ := createDataSource_ret hc
    obtain ⟨news, hlen, hnames, rfl⟩ := ih _ _ _ (Stack.Push st ds) hrest (mapSet_same _ _ _)
    refine ⟨news ++ [ds], by simp [hlen], ?_, ?_⟩
    · intro h hm
      rcases List.mem_append.mp hm with h1 | h1
      · exact hnames h h1
      · rw [List.mem_singleton.mp h1]; exact hname
    · simp only [mapSet_mapSet, Stack.Push, List.append_assoc, List.singleton_append]

/-- State after a returning top-up of `Fetch`: `topUpCount` handles built and pushed. -/
theorem fetchAdd_ret_eq {env : Env} {d : Driver} {c : String} {s s2 : Pool} {u : Unit}
    {idle : Stack} (h : fetchAdd env d c s = Res.ret u s2) (hi : s._dbPoolIdle c = some idle) :
    ∃ news : List DataSource, news.length = topUpCount d idle ∧
      (∀ h ∈ news, h.Name = d.DbName) ∧
      s2 = { s with made := news ++ s.made,
                    _dbPoolIdle := mapSet s._dbPoolIdle c (news ++ idle) } := by
  obtain ⟨idle0, hi0, hcase⟩ := fetchAdd_ret h
  rw [hi] at hi0
  obtain rfl := Option.some.inj hi0
  rcases hcase with ⟨hmin, hp⟩ | ⟨hgt, rfl⟩
  · obtain ⟨news, hlen, hnames, heq⟩ := pushLoop_ret_eq _ _ _ _ idle hp hi
    refine ⟨news, ?_, hnames, heq⟩
    rw [hlen, topUpCount, if_pos hmin]
  · refine ⟨[], ?_, by simp, ?_⟩
    · rw [topUpCount, if_neg (not_le.mpr hgt)]
      rfl
    · simp only [List.nil_append, mapSet_self _ _ _ hi]

theorem fetchAdd_total {env : Env} {d : Driver} {c : String} {idle : Stack}
    (hok : CreationOk env d) (s : Pool) (hi : s._dbPoolIdle c = some idle) :
    ∃ s2, fetchAdd env d c s = Res.ret () s2 := by
  unfold fetchAdd
  simp only [hi]
  split_ifs
  · exact pushLoop_total hok _ s idle hi
  · exact ⟨s, rfl⟩

/-- Below the active ceiling `Fetch` is its top-up followed by its pop. -/
theorem Fetch_eq_front {env : Env} {c : String} {s s2 : Pool} {d : Driver} {act : Hmap}
    (hl : s._dbPoolLock = false) (hd : GetDriver env c = some d)
    (ha : s._dbPoolActive c = some act) (hlt : Hmap.Len act < d.PoolMaxActive)
    (hadd : fetchAdd env d c { s with _dbPoolLock := true } = Res.ret () s2) :
    Fetch env c s = fetchFront c s2 := by
  unfold Fetch
  simp only [hl, hd, ha, not_le.mpr hlt, Bool.false_eq_true, if_false, hadd]

theorem wrapInt64_eq {x : Int} (h1 : -2 ^ 63 ≤ x) (h2 : x < 2 ^ 63) : wrapInt64 x = x := by
  unfold wrapInt64
  omega
/-- Run of `Fetch` below the active ceiling when handle creation succeeds: the top-up
builds `topUpCount` handles, pushes them on the idle stack, and the pop follows. -/
theorem Fetch_run {env : Env} {c : String} {s : Pool} {d : Driver} {act : Hmap} {idle : Stack}
    (hl : s._dbPoolLock = false) (hd : GetDriver env c = some d)
    (ha : s._dbPoolActive c = some act) (hi : s._dbPoolIdle c = some idle)
    (hlt : Hmap.Len act < d.PoolMaxActive) (hok : CreationOk env d) :
    ∃ news : List DataSource, news.length = topUpCount d idle ∧
      (∀ h ∈ news, h.Name = d.DbName) ∧
      fetchAdd env d c { s with _dbPoolLock := true } =
        Res.ret () { s with _dbPoolLock := true, made := news ++ s.made,
                            _dbPoolIdle := mapSet s._dbPoolIdle c (news ++ idle) } ∧
      (news ++ idle = [] →
        Fetch env c s = Res.ret (none, some "gdopool : no enough ds")
          { s with _dbPoolLock := true, made := news ++ s.made,
                   _dbPoolIdle := mapSet s._dbPoolIdle c (news ++ idle) }) ∧
      (∀ top rest, news ++ idle = top :: rest →
        Fetch env c s = Res.ret (some top, none)
          { s with made := news ++ s.made, _dbPoolIdle := mapSet s._dbPoolIdle c rest,
                   _dbPoolActive := mapSet s._dbPoolActive c (Hmap.Set act top.ID top) }) := by
  obtain ⟨s2, hadd⟩ := fetchAdd_total hok { s with _dbPoolLock := true } hi
  obtain ⟨news, hlen, hnames, hs2⟩ := fetchAdd_ret_eq hadd hi
  have hF := Fetch_eq_front hl hd ha hlt hadd
  subst hs2
  refine ⟨news, hlen, hnames, hadd, ?_, ?_⟩
  · intro hnil
    rw [hF]
    unfold fetchFront
    simp [mapSet_same, hnil, Stack.Len]
  · intro top rest hcons
    rw [hF]
    unfold fetchFront
    have hge : (1 : Int) ≤ ((rest.length + 1 : Nat) : Int) := by omega
    simp only [mapSet_same, hcons, ha, Stack.Len, Stack.Pop, List.length_cons, ge_iff_le, hge,
      if_true, mapSet_mapSet, ← hl]
/-! ## Lookup in the active map -/

theorem Hmap.Get_Set_same (m : Hmap) (k : String) (v : DataSource) :
    Hmap.Get (Hmap.Set m k v) k = some v := by
  simp [Hmap.Get, Hmap.Set, List.lookup]

theorem Hmap.Get_Delete_other (m : Hmap) {k x : String} (h : x ≠ k) :
    Hmap.Get (Hmap.Delete m k) x = Hmap.Get m x := by
  unfold Hmap.Get Hmap.Delete
  induction m with
  | nil => rfl
  | cons e rest ih =>
    obtain ⟨k1, v1⟩ := e
    by_cases hk : k1 = k
    · subst hk
      have hb : (x == k1) = false := by simpa using h
      rw [List.filter_cons_of_neg (by simp)]
      simp only [List.lookup, hb]
      exact ih
    · rw [List.filter_cons_of_pos (by simpa using hk)]
      by_cases hx : x = k1
      · subst hx
        simp [List.lookup]
      · have hb : (x == k1) = false := by simpa using hx
        simp only [List.lookup, hb]
        exact ih

theorem Hmap.Get_Set_other (m : Hmap) {k x : String} (v : DataSource) (h : x ≠ k) :
    Hmap.Get (Hmap.Set m k v) x = Hmap.Get m x := by
  have hb : (x == k) = false := by simpa using h
  have := Hmap.Get_Delete_other m h
  unfold Hmap.Get Hmap.Set at *
  simp only [List.lookup, hb]
  exact this

theorem Hmap.Len_Set_fresh {m : Hmap} {k : String} (v : DataSource)
    (h : ∀ e ∈ m, e.1 ≠ k) : Hmap.Len (Hmap.Set m k v) = Hmap.Len m + 1 := by
  unfold Hmap.Set
  rw [Hmap.Delete_of_fresh h]
  simp [Hmap.Len]
theorem Hmap.Get_Delete_same (m : Hmap) (k : String) :
    Hmap.Get (Hmap.Delete m k) k = none := by
  unfold Hmap.Get Hmap.Delete
  induction m with
  | nil => rfl
  | cons e rest ih =>
    obtain ⟨k1, v1⟩ := e
    by_cases hk : k1 = k
    · subst hk
      rw [List.filter_cons_of_neg (by simp)]
      exact ih
    · rw [List.filter_cons_of_pos (by simpa using hk)]
      have hb : (k == k1) = false := by simpa using fun h => hk h.symm
      simp only [List.lookup, hb]
      exact ih

/-- Deleting a key of a map without repeated keys takes exactly one entry away. -/
theorem Hmap.Len_Delete_key {m : Hmap} {k : String} (hnd : (m.map Prod.fst).Nodup)
    (hk : k ∈ m.map Prod.fst) : Hmap.Len (Hmap.Delete m k) = Hmap.Len m - 1 := by
  obtain ⟨e, he, rfl⟩ := List.mem_map.mp hk
  have hperm := Hmap.perm_Delete hnd (show (e.1, e.2) ∈ m from he)
  have hlen := hperm.length_eq
  simp only [List.length_map, List.length_cons] at hlen
  unfold Hmap.Len
  omega
theorem reach_sF1 : Reach envF sF1 :=
  @Reach.giveBack envF (some hA1) sF0 sF1 none (@Reach.init envF none sF0 (by rfl)) (by rfl)

/-! ## Invariant of the release-once discipline -/

theorem idleOf_of_eq {s t : Pool} {c : String} {v : Stack}
    (h : t._dbPoolIdle = mapSet s._dbPoolIdle c v) (x : String) :
    idleOf t x = if x = c then v else idleOf s x := by
  unfold idleOf
  rw [h]
  exact idleOf_mapSet _ _ _ _

theorem activeOf_of_eq {s t : Pool} {c : String} {v : Hmap}
    (h : t._dbPoolActive = mapSet s._dbPoolActive c v) (x : String) :
    activeOf t x = if x = c then v.map Prod.snd else activeOf s x := by
  unfold activeOf
  rw [h]
  exact activeOf_mapSet _ _ _ _

theorem idleOf_same {s t : Pool} (h : t._dbPoolIdle = s._dbPoolIdle) (x : String) :
    idleOf t x = idleOf s x := by
  unfold idleOf
  rw [h]

theorem activeOf_same {s t : Pool} (h : t._dbPoolActive = s._dbPoolActive) (x : String) :
    activeOf t x = activeOf s x := by
  unfold activeOf
  rw [h]

theorem idleOf_some {s : Pool} {c : String} {st : Stack} (h : s._dbPoolIdle c = some st) :
    idleOf s c = st := by
  unfold idleOf
  rw [h]
  rfl

theorem activeOf_some {s : Pool} {c : String} {act : Hmap}
    (h : s._dbPoolActive c = some act) : activeOf s c = act.map Prod.snd := by
  unfold activeOf
  rw [h]
  rfl

/-- The identifier the next handle gets is carried by no handle built so far. -/
theorem fresh_id {env : Env} {s : Pool}
    (hids : s.made.map DataSource.ID = ((List.range s.made.length).map env.uuid).reverse)
    (hinj : Function.Injective env.uuid) :
    ∀ v ∈ s.made, v.ID ≠ env.uuid s.made.length := by
  intro v hv heq
  have h1 : v.ID ∈ s.made.map DataSource.ID := List.mem_map.mpr ⟨v, hv, rfl⟩
  rw [hids, List.mem_reverse, List.mem_map] at h1
  obtain ⟨k, hk, hk2⟩ := h1
  have := hinj (hk2.trans heq)
  rw [List.mem_range] at hk
  omega

/-- The invariant reads `made` and the two maps only. -/
theorem OutInv.same {env : Env} {s t : Pool} {out : List DataSource} (hinv : OutInv env s out)
    (h1 : t.made = s.made) (h2 : t._dbPoolIdle = s._dbPoolIdle)
    (h3 : t._dbPoolActive = s._dbPoolActive) : OutInv env t out := by
  constructor
  · rw [h1]; exact hinv.ids
  · rw [h3]; exact hinv.keys
  · exact hinv.outNodup
  · intro c; rw [idleOf_same h2]; exact hinv.idleNodup c
  · intro c; rw [idleOf_same h2]; exact hinv.idleOut c
  · intro c c1 hc; rw [idleOf_same h2, idleOf_same h2]; exact hinv.idleIdle c c1 hc
  · rw [h1]; exact hinv.outMade
  · intro c; rw [idleOf_same h2, h1]; exact hinv.idleMade c
  · intro c; rw [activeOf_same h3, h1]; exact hinv.activeMade c
  · intro c; rw [activeOf_same h3]; exact hinv.activeOut c
  · intro c v hv hn c1
    rw [idleOf_same h2] at hv
    rw [activeOf_same h3]
    exact hinv.idleStale c v hv hn c1

/-- The invariant survives the creation of the two empty collections of a class. -/
theorem OutInv.reset {env : Env} {s t : Pool} {out : List DataSource} {k : String}
    (hinv : OutInv env s out) (h1 : t.made = s.made)
    (h2 : t._dbPoolIdle = mapSet s._dbPoolIdle k Stack.NewStack)
    (h3 : t._dbPoolActive = mapSet s._dbPoolActive k Hmap.NewHmap) : OutInv env t out := by
  have hI : ∀ x, ∀ v ∈ idleOf t x, v ∈ idleOf s x := by
    intro x v hv
    rw [idleOf_of_eq h2] at hv
    split_ifs at hv
    · simp [Stack.NewStack] at hv
    · exact hv
  have hA : ∀ x, ∀ v ∈ activeOf t x, v ∈ activeOf s x := by
    intro x v hv
    rw [activeOf_of_eq h3] at hv
    split_ifs at hv
    · simp [Hmap.NewHmap] at hv
    · exact hv
  constructor
  · rw [h1]; exact hinv.ids
  · intro c act hact e he
    rw [h3] at hact
    by_cases hc : c = k
    · subst hc
      rw [mapSet_same] at hact
      obtain rfl := Option.some.inj hact
      simp [Hmap.NewHmap] at he
    · rw [mapSet_other _ _ hc] at hact
      exact hinv.keys c act hact e he
  · exact hinv.outNodup
  · intro c
    rw [idleOf_of_eq h2]
    split_ifs
    · simp [Stack.NewStack]
    · exact hinv.idleNodup c
  · intro c v hv; exact hinv.idleOut c v (hI c v hv)
  · intro c c1 hc v hv hv1; exact hinv.idleIdle c c1 hc v (hI c v hv) (hI c1 v hv1)
  · rw [h1]; exact hinv.outMade
  · intro c v hv; rw [h1]; exact hinv.idleMade c v (hI c v hv)
  · intro c v hv; rw [h1]; exact hinv.activeMade c v (hA c v hv)
  · intro c v hv; exact hinv.activeOut c v (hA c v hv)
  · intro c v hv hn c1 hv1; exact hinv.idleStale c v (hI c v hv) hn c1 (hA c1 v hv1)

/-- The invariant survives one round of `pushLoop`: a new handle on an idle stack. -/
theorem OutInv.pushed {env : Env} {s t : Pool} {out : List DataSource} {c : String}
    {ds : DataSource} {st : Stack} (hinv : OutInv env s out)
    (hinj : Function.Injective env.uuid) (hid : ds.ID = env.uuid s.made.length)
    (hi : s._dbPoolIdle c = some st) (h1 : t.made = ds :: s.made)
    (h2 : t._dbPoolIdle = mapSet s._dbPoolIdle c (Stack.Push st ds))
    (h3 : t._dbPoolActive = s._dbPoolActive) : OutInv env t out := by
  have hfresh : ds ∉ s.made := fun hm => fresh_id hinv.ids hinj ds hm hid
  have hst : idleOf s c = st := idleOf_some hi
  have hI : ∀ x, ∀ v ∈ idleOf t x, (v = ds ∧ x = c) ∨ v ∈ idleOf s x := by
    intro x v hv
    rw [idleOf_of_eq h2] at hv
    split_ifs at hv with hx
    · rcases List.mem_cons.mp hv with h | h
      · exact Or.inl ⟨h, hx⟩
      · right; rw [hx, hst]; exact h
    · exact Or.inr hv
  constructor
  · rw [h1]
    simp only [List.map_cons, List.length_cons, List.range_succ, List.map_append,
      List.map_singleton, List.reverse_append, List.reverse_singleton, List.singleton_append]
    rw [hinv.ids, hid]
    simp
  · rw [h3]; exact hinv.keys
  · exact hinv.outNodup
  · intro x
    rw [idleOf_of_eq h2]
    split_ifs with hx
    · refine List.nodup_cons.mpr ⟨fun hm => hfresh (hinv.idleMade c ds (hst ▸ hm)), ?_⟩
      rw [← hst]; exact hinv.idleNodup c
    · exact hinv.idleNodup x
  · intro x v hv
    rcases hI x v hv with ⟨rfl, -⟩ | h
    · exact fun hm => hfresh (hinv.outMade _ hm)
    · exact hinv.idleOut x v h
  · intro x x1 hx v hv hv1
    rcases hI x v hv with ⟨rfl, rfl⟩ | h
    · rcases hI x1 v hv1 with ⟨-, h1x⟩ | h1x
      · exact hx h1x.symm
      · exact hfresh (hinv.idleMade x1 _ h1x)
    · rcases hI x1 v hv1 with ⟨rfl, -⟩ | h1x
      · exact hfresh (hinv.idleMade x _ h)
      · exact hinv.idleIdle x x1 hx v h h1x
  · intro v hv; rw [h1]; exact List.mem_cons_of_mem _ (hinv.outMade v hv)
  · intro x v hv
    rw [h1]
    rcases hI x v hv with ⟨rfl, -⟩ | h
    · exact List.mem_cons_self _ _
    · exact List.mem_cons_of_mem _ (hinv.idleMade x v h)
  · intro x v hv
    rw [activeOf_same h3] at hv
    rw [h1]
    exact List.mem_cons_of_mem _ (hinv.activeMade x v hv)
  · intro x; rw [activeOf_same h3]; exact hinv.activeOut x
  · intro x v hv hn x1 hv1
    rw [activeOf_same h3] at hv1
    rcases hI x v hv with ⟨rfl, -⟩ | h
    · exact hfresh (hinv.activeMade x1 _ hv1)
    · exact hinv.idleStale x v h hn x1 hv1
/-- The invariant survives the pop of `Fetch`; the caller now holds the handle. -/
theorem OutInv.popped {env : Env} {s t : Pool} {out : List DataSource} {c : String}
    {ds : DataSource} {rest : Stack} {act : Hmap} (hinv : OutInv env s out)
    (hi : s._dbPoolIdle c = some (ds :: rest)) (ha : s._dbPoolActive c = some act)
    (h1 : t.made = s.made) (h2 : t._dbPoolIdle = mapSet s._dbPoolIdle c rest)
    (h3 : t._dbPoolActive = mapSet s._dbPoolActive c (Hmap.Set act ds.ID ds)) :
    OutInv env t (ds :: out) := by
  have hidle : idleOf s c = ds :: rest := idleOf_some hi
  have hact : activeOf s c = act.map Prod.snd := activeOf_some ha
  have hnd : ds ∉ rest ∧ rest.Nodup := List.nodup_cons.mp (hidle ▸ hinv.idleNodup c)
  have hds : ds ∈ idleOf s c := hidle ▸ List.mem_cons_self _ _
  have hI : ∀ x, ∀ v ∈ idleOf t x, v ∈ idleOf s x ∧ v ≠ ds := by
    intro x v hv
    rw [idleOf_of_eq h2] at hv
    split_ifs at hv with hx
    · subst hx
      refine ⟨hidle ▸ List.mem_cons_of_mem _ hv, ?_⟩
      rintro rfl
      exact hnd.1 hv
    · refine ⟨hv, ?_⟩
      rintro rfl
      exact hinv.idleIdle c x (fun h => hx h.symm) v hds hv
  have hA : ∀ x, ∀ v ∈ activeOf t x, v = ds ∨ v ∈ activeOf s x := by
    intro x v hv
    rw [activeOf_of_eq h3] at hv
    split_ifs at hv with hx
    · subst hx
      unfold Hmap.Set Hmap.Delete at hv
      simp only [List.map_cons, List.mem_cons, List.mem_map] at hv
      rcases hv with h | ⟨e, he, rfl⟩
      · exact Or.inl h
      · right
        rw [hact]
        exact List.mem_map.mpr ⟨e, List.mem_of_mem_filter he, rfl⟩
    · exact Or.inr hv
  constructor
  · rw [h1]; exact hinv.ids
  · intro x act1 hact1 e he
    rw [h3] at hact1
    by_cases hx : x = c
    · subst hx
      rw [mapSet_same] at hact1
      obtain rfl := Option.some.inj hact1
      unfold Hmap.Set Hmap.Delete at he
      rcases List.mem_cons.mp he with rfl | hmem
      · rfl
      · exact hinv.keys x act ha e (List.mem_of_mem_filter hmem)
    · rw [mapSet_other _ _ hx] at hact1
      exact hinv.keys x act1 hact1 e he
  · exact List.nodup_cons.mpr ⟨hinv.idleOut c ds hds, hinv.outNodup⟩
  · intro x
    rw [idleOf_of_eq h2]
    split_ifs
    · exact hnd.2
    · exact hinv.idleNodup x
  · intro x v hv hm
    obtain ⟨h, hne⟩ := hI x v hv
    rcases List.mem_cons.mp hm with heq | hmem
    · exact hne heq
    · exact hinv.idleOut x v h hmem
  · intro x x1 hx v hv hv1
    exact hinv.idleIdle x x1 hx v (hI x v hv).1 (hI x1 v hv1).1
  · intro v hv
    rw [h1]
    rcases List.mem_cons.mp hv with rfl | hmem
    · exact hinv.idleMade c _ hds
    · exact hinv.outMade v hmem
  · intro x v hv; rw [h1]; exact hinv.idleMade x v (hI x v hv).1
  · intro x v hv
    rw [h1]
    rcases hA x v hv with rfl | h
    · exact hinv.idleMade c _ hds
    · exact hinv.activeMade x v h
  · intro x v hv
    rcases hA x v hv with rfl | h
    · exact Or.inl (List.mem_cons_self _ _)
    · rcases hinv.activeOut x v h with h4 | h4
      · exact Or.inl (List.mem_cons_of_mem _ h4)
      · exact Or.inr h4
  · intro x v hv hn x1 hv1
    obtain ⟨h, hne⟩ := hI x v hv
    rcases hA x1 v hv1 with heq | h5
    · exact hne heq
    · exact hinv.idleStale x v h hn x1 h5

/-- The invariant survives `Return` of a handle a caller holds, whether the handle is
pushed on the idle stack or closed; the caller holds it no more. -/
theorem OutInv.given {env : Env} {s t : Pool} {out : List DataSource} {h : DataSource}
    {act : Hmap} (hinv : OutInv env s out) (hm : h ∈ out)
    (ha : s._dbPoolActive h.Name = some act) (h1 : t.made = s.made)
    (h3 : t._dbPoolActive = mapSet s._dbPoolActive h.Name (Hmap.Delete act h.ID))
    (h2 : (∃ idle, s._dbPoolIdle h.Name = some idle ∧
        t._dbPoolIdle = mapSet s._dbPoolIdle h.Name (Stack.Push idle h)) ∨
      t._dbPoolIdle = s._dbPoolIdle) :
    OutInv env t (out.erase h) := by
  have hact : activeOf s h.Name = act.map Prod.snd := activeOf_some ha
  have hnotidle : ∀ x, h ∉ idleOf s x := fun x hx => hinv.idleOut x h hx hm
  have herase : ∀ v, v ∈ out.erase h ↔ v ≠ h ∧ v ∈ out :=
    fun v => hinv.outNodup.mem_erase_iff
  have hA : ∀ x, ∀ v ∈ activeOf t x, v ∈ activeOf s x ∧ (x = h.Name → v ≠ h) := by
    intro x v hv
    rw [activeOf_of_eq h3] at hv
    split_ifs at hv with hx
    · subst hx
      unfold Hmap.Delete at hv
      obtain ⟨e, he, rfl⟩ := List.mem_map.mp hv
      have he1 := List.mem_filter.mp he
      refine ⟨hact ▸ List.mem_map.mpr ⟨e, he1.1, rfl⟩, fun _ heq => ?_⟩
      have hk := hinv.keys h.Name act ha e he1.1
      have hne : e.1 ≠ h.ID := by simpa using he1.2
      exact hne (hk.trans (congrArg DataSource.ID heq))
    · exact ⟨hv, fun h5 => absurd h5 hx⟩
  have hI : ∀ x, ∀ v ∈ idleOf t x, (v = h ∧ x = h.Name) ∨ v ∈ idleOf s x := by
    intro x v hv
    rcases h2 with ⟨idle, hi, h2⟩ | h2
    · rw [idleOf_of_eq h2] at hv
      split_ifs at hv with hx
      · rcases List.mem_cons.mp hv with h5 | h5
        · exact Or.inl ⟨h5, hx⟩
        · right; rw [hx, idleOf_some hi]; exact h5
      · exact Or.inr hv
    · rw [idleOf_same h2] at hv
      exact Or.inr hv
  constructor
  · rw [h1]; exact hinv.ids
  · intro x act1 hact1 e he
    rw [h3] at hact1
    by_cases hx : x = h.Name
    · subst hx
      rw [mapSet_same] at hact1
      obtain rfl := Option.some.inj hact1
      exact hinv.keys _ act ha e (List.mem_of_mem_filter he)
    · rw [mapSet_other _ _ hx] at hact1
      exact hinv.keys x act1 hact1 e he
  · exact hinv.outNodup.erase h
  · intro x
    rcases h2 with ⟨idle, hi, h2⟩ | h2
    · rw [idleOf_of_eq h2]
      split_ifs with hx
      · refine List.nodup_cons.mpr ⟨fun h5 => hnotidle h.Name ((idleOf_some hi) ▸ h5), ?_⟩
        rw [← idleOf_some hi]
        exact hinv.idleNodup h.Name
      · exact hinv.idleNodup x
    · rw [idleOf_same h2]
      exact hinv.idleNodup x
  · intro x v hv hv1
    obtain ⟨hne, hin⟩ := (herase v).mp hv1
    rcases hI x v hv with ⟨heq, -⟩ | h5
    · exact hne heq
    · exact hinv.idleOut x v h5 hin
  · intro x x1 hx v hv hv1
    rcases hI x v hv with ⟨rfl, rfl⟩ | h5
    · rcases hI x1 v hv1 with ⟨-, h6⟩ | h6
      · exact hx h6.symm
      · exact hnotidle x1 h6
    · rcases hI x1 v hv1 with ⟨rfl, -⟩ | h6
      · exact hnotidle x h5
      · exact hinv.idleIdle x x1 hx v h5 h6
  · intro v hv; rw [h1]; exact hinv.outMade v ((herase v).mp hv).2
  · intro x v hv
    rw [h1]
    rcases hI x v hv with ⟨rfl, -⟩ | h5
    · exact hinv.outMade _ hm
    · exact hinv.idleMade x v h5
  · intro x v hv; rw [h1]; exact hinv.activeMade x v (hA x v hv).1
  · intro x v hv
    obtain ⟨h5, h6⟩ := hA x v hv
    rcases hinv.activeOut x v h5 with h7 | h7
    · by_cases hvh : v = h
      · right
        intro hn
        exact h6 (hn.symm.trans (congrArg DataSource.Name hvh)) hvh
      · exact Or.inl ((herase v).mpr ⟨hvh, h7⟩)
    · exact Or.inr h7
  · intro x v hv hn x1 hv1
    rcases hI x v hv with ⟨rfl, rfl⟩ | h5
    · exact hn rfl
    · exact hinv.idleStale x v h5 hn x1 (hA x1 v hv1).1
theorem pushLoop_outInv {env : Env} {d : Driver} {c : String} {n : Nat} {s s1 : Pool} {u : Unit}
    {out : List DataSource} (h : pushLoop env d c n s = Res.ret u s1)
    (hinj : Function.Injective env.uuid) (hinv : OutInv env s out) : OutInv env s1 out :=
  pushLoop_induct (fun t => OutInv env t out)
    (fun _ _ _ hP hc hi => hP.pushed hinj (createDataSource_ret hc).2.2 hi rfl rfl rfl)
    n s s1 u h hinv

theorem Init_zero_outInv {env : Env} {r : Option String} {s : Pool}
    (h : Init env Pool.zero = Res.ret r s) (hinj : Function.Injective env.uuid) :
    OutInv env s [] := by
  obtain ⟨-, ⟨hf, -⟩ | ⟨-, s2, hl, rfl⟩⟩ := Init_ret h
  · simp [Pool.zero] at hf
  · have h0 : OutInv env
        { Pool.zero with _dbPoolIdle := fun _ => none, _dbPoolActive := fun _ => none } [] := by
      constructor <;> simp [Pool.zero, idleOf, activeOf]
    have h2 := initLoop_induct (fun t => OutInv env t [])
      (fun t c hP => hP.reset rfl rfl rfl)
      (fun d c t ds st hP hc hi => hP.pushed hinj (createDataSource_ret hc).2.2 hi rfl rfl rfl)
      _ _ _ _ hl h0
    exact h2.same rfl rfl rfl

/-- State after the top-up of a returning `Fetch` keeps the invariant. -/
theorem fetchAdd_outInv {env : Env} {d : Driver} {c : String} {s s2 : Pool} {u : Unit}
    {out : List DataSource} (h : fetchAdd env d c s = Res.ret u s2)
    (hinj : Function.Injective env.uuid) (hinv : OutInv env s out) : OutInv env s2 out := by
  obtain ⟨idle, -, ⟨-, hp⟩ | ⟨-, rfl⟩⟩ := fetchAdd_ret h
  · exact pushLoop_outInv hp hinj hinv
  · exact hinv

theorem Fetch_outInv_ok {env : Env} {c : String} {s s1 : Pool} {h : DataSource}
    {out : List DataSource} (hf : Fetch env c s = Res.ret (some h, none) s1)
    (hinj : Function.Injective env.uuid) (hinv : OutInv env s out) :
    OutInv env s1 (h :: out) := by
  obtain ⟨-, d, act, hd, ha, hcase⟩ := Fetch_ret hf
  rcases hcase with ⟨-, hr, -⟩ | ⟨-, s2, hadd, hfront⟩
  · simp at hr
  · have hinv2 : OutInv env s2 out :=
      fetchAdd_outInv hadd hinj (hinv.same rfl rfl rfl)
    rcases fetchFront_ret hfront with ⟨ds, rest, act2, hi2, ha2, hr, rfl⟩ | ⟨-, hr, -⟩
    · obtain rfl : h = ds := by simpa using hr
      exact hinv2.popped hi2 ha2 rfl rfl rfl
    · simp at hr

theorem Fetch_outInv_err {env : Env} {c : String} {s s1 : Pool} {e : Option String}
    {out : List DataSource} (hf : Fetch env c s = Res.ret (none, e) s1)
    (hinj : Function.Injective env.uuid) (hinv : OutInv env s out) : OutInv env s1 out := by
  obtain ⟨-, d, act, hd, ha, hcase⟩ := Fetch_ret hf
  rcases hcase with ⟨-, -, rfl⟩ | ⟨-, s2, hadd, hfront⟩
  · exact hinv.same rfl rfl rfl
  · have hinv2 : OutInv env s2 out :=
      fetchAdd_outInv hadd hinj (hinv.same rfl rfl rfl)
    rcases fetchFront_ret hfront with ⟨ds, rest, act2, hi2, ha2, hr, -⟩ | ⟨-, -, rfl⟩
    · simp at hr
    · exact hinv2

theorem Return_outInv {env : Env} {h : DataSource} {s s1 : Pool} {r : Option String}
    {out : List DataSource} (hret : Return env (some h) s = Res.ret r s1) (hm : h ∈ out)
    (hinv : OutInv env s out) : OutInv env s1 (out.erase h) := by
  obtain ⟨-, -, h0, d, act, idle, hsome, -, ha, hi, hcase⟩ := Return_ret hret
  obtain rfl := Option.some.inj hsome
  rcases hcase with ⟨-, -, rfl⟩ | ⟨-, rfl⟩
  · exact hinv.given hm ha rfl rfl (Or.inr rfl)
  · exact hinv.given hm ha rfl rfl (Or.inl ⟨idle, hi, rfl⟩)

/-- Invariant of every state reached under the release-once discipline, for
identifiers that never repeat. -/
theorem reachOut_inv {env : Env} {s : Pool} {out : List DataSource}
    (hr : ReachOut env s out) (hinj : Function.Injective env.uuid) : OutInv env s out := by
  induction hr with
  | @init r s h => exact Init_zero_outInv h hinj
  | @fetchOk c s s1 out h _ hf ih => exact Fetch_outInv_ok hf hinj ih
  | @fetchErr c s s1 out e _ hf ih => exact Fetch_outInv_err hf hinj ih
  | @giveBack h s s1 out r _ hm _ hret ih => exact Return_outInv hret hm ih

theorem reachOut_sA0 : ReachOut envA sA0 [] := @ReachOut.init envA none sA0 (by rfl)

theorem reachOut_sA1 : ReachOut envA sA1 [hA1] :=
  @ReachOut.fetchOk envA "demo" sA0 sA1 [] hA1 reachOut_sA0 (by rfl)

/-! ## Names of idle handles -/

/-- Run of `Return` on a free mutex for a handle of a registered class: it returns nil
and leaves the state of the reference definition, the connection not being nil when the
handle is to be closed. -/
theorem Return_run {env : Env} {s : Pool} {h : DataSource} {d : Driver} {act : Hmap}
    {idle : Stack} (hl : s._dbPoolLock = false) (hd : GetDriver env h.Name = some d)
    (ha : s._dbPoolActive h.Name = some act) (hi : s._dbPoolIdle h.Name = some idle)
    (hconn : d.PoolMaxIdle ≤ Stack.Len idle → h.Conn ≠ none) :
    Return env (some h) s = Res.ret none (ReturnRef d act idle h s) := by
  by_cases hlt : Stack.Len idle < d.PoolMaxIdle
  · have hn : ¬ d.PoolMaxIdle ≤ Stack.Len idle := not_le.mpr hlt
    unfold Return ReturnRef
    simp only [hl, hd, ha, hi, hn, hlt, Bool.false_eq_true, if_false, if_true, Stack.Push]
  · have hle : d.PoolMaxIdle ≤ Stack.Len idle := not_lt.mp hlt
    obtain ⟨dsn, hdsn⟩ := Option.ne_none_iff_exists.mp (hconn hle)
    unfold Return ReturnRef
    simp only [hl, hd, ha, hi, hle, hlt, Bool.false_eq_true, if_false, if_true,
      releaseDataSource, ← hdsn]

/-- A returning `Fetch` keeps every idle handle under the class it names, and the handle
it returns names the class asked for, when descriptors are registered under `DbName`. -/
theorem Fetch_names {env : Env} {c : String} {s s1 : Pool}
    {r : Option DataSource × Option String} (hf : Fetch env c s = Res.ret r s1)
    (hn : NamesAgree env) (hnames : ∀ x, ∀ v ∈ idleOf s x, v.Name = x) :
    (∀ x, ∀ v ∈ idleOf s1 x, v.Name = x) ∧ ∀ h, r.1 = some h → h.Name = c := by
  obtain ⟨-, d, act, hd, ha, hcase⟩ := Fetch_ret hf
  rcases hcase with ⟨-, rfl, rfl⟩ | ⟨-, s2, hadd, hfront⟩
  · exact ⟨fun x v hv => hnames x v hv, fun h hh => by simp at hh⟩
  · obtain ⟨idle, hi, -⟩ := fetchAdd_ret hadd
    obtain ⟨news, -, hnews, hs2⟩ := fetchAdd_ret_eq hadd hi
    have hdb : d.DbName = c := hn c d (GetDriver_mem hd)
    have hidle : idleOf s c = idle := idleOf_some hi
    have h2 : ∀ x, ∀ v ∈ idleOf s2 x, v.Name = x := by
      intro x v hv
      rw [hs2] at hv
      unfold idleOf at hv
      simp only [idleOf_mapSet] at hv
      split_ifs at hv with hx
      · subst hx
        rcases List.mem_append.mp hv with h3 | h3
        · exact (hnews v h3).trans hdb
        · exact hnames x v (hidle ▸ h3)
      · exact hnames x v hv
    rcases fetchFront_ret hfront with ⟨ds, rest, act2, hi2, -, rfl, rfl⟩ | ⟨-, rfl, rfl⟩
    · have htop : idleOf s2 c = ds :: rest := idleOf_some hi2
      constructor
      · intro x v hv
        unfold idleOf at hv
        simp only [idleOf_mapSet] at hv
        split_ifs at hv with hx
        · subst hx
          exact h2 x v (htop ▸ List.mem_cons_of_mem _ hv)
        · exact h2 x v hv
      · intro h hh
        obtain rfl : ds = h := by simpa using hh
        exact h2 c ds (htop ▸ List.mem_cons_self _ _)
    · exact ⟨h2, fun h hh => by simp at hh⟩

/-- Idle handles lie under the class they name in every reachable state, when
descriptors are registered under `DbName`. -/
theorem reach_idle_names {env : Env} {s : Pool} (hr : Reach env s) (hn : NamesAgree env) :
    ∀ x, ∀ v ∈ idleOf s x, v.Name = x := by
  induction hr with
  | @init r s h =>
    intro x v hv
    exact (Init_zero_inv h hn).held_name (List.mem_append_left _ hv)
  | @fetch c s s1 r _ hf ih => exact (Fetch_names hf hn ih).1
  | @giveBack ds s s1 r _ hret ih =>
    obtain ⟨-, -, h0, d, act, idle, -, -, -, hi, hcase⟩ := Return_ret hret
    intro x v hv
    rcases hcase with ⟨-, -, rfl⟩ | ⟨-, rfl⟩
    · exact ih x v hv
    · unfold idleOf at hv
      simp only [idleOf_mapSet] at hv
      split_ifs at hv with hx
      · rcases List.mem_cons.mp hv with rfl | h3
        · exact hx.symm
        · subst hx
          exact ih _ v ((idleOf_some hi).symm ▸ h3)
      · exact ih x v hv

theorem namesAgree_demo (d : Driver) (h : d.DbName = "demo") : NamesAgree (demoEnv d) := by
  intro c d1 hm
  simp only [demoEnv, List.mem_singleton] at hm
  obtain ⟨rfl, rfl⟩ := Prod.mk.inj hm
  exact h

/-- Capacity return of `Fetch` on a free mutex: when the active map of a registered class
holds at least `PoolMaxActive` entries, `Fetch` returns no handle and the error
"gdopool : max active limit"; no handle is created or closed and every idle stack and
active map is what it was (the state differs from the one before the call in the mutex
only, which stays held). -/
theorem Fetch_capacity_free (env : Env) (s : Pool) (c : String) (d : Driver) (act : Hmap)
    (hl : s._dbPoolLock = false) (hd : GetDriver env c = some d)
    (ha : s._dbPoolActive c = some act) (hfull : d.PoolMaxActive ≤ Hmap.Len act) :
    Fetch env c s = Res.ret (none, some "gdopool : max active limit") { s with _dbPoolLock := true } ∧
      (Fetch env c s).state.made = s.made ∧ (Fetch env c s).state.closed = s.closed ∧
      (Fetch env c s).state._dbPoolIdle = s._dbPoolIdle ∧
      (Fetch env c s).state._dbPoolActive = s._dbPoolActive := by
  have h : Fetch env c s =
      Res.ret (none, some "gdopool : max active limit") { s with _dbPoolLock := true } := by
    unfold Fetch
    simp [hl, hd, ha, hfull]
  rw [h]
  exact ⟨rfl, rfl, rfl, rfl, rfl⟩

/-- Exhaustion return of `Fetch` on a free mutex: for a registered class below its active
ceiling (handle creation succeeding, `PoolMaxIdle` a Go `int`), the top-up of `Fetch`
returns, and `Fetch` returns the error "gdopool : no enough ds" exactly when the idle
stack is empty after the top-up, which is exactly when it was empty before the call and
`PoolMinIdle < 0` or `PoolMaxIdle <= 0`; otherwise `Fetch` returns a handle and the nil
error. -/
theorem Fetch_exhaustion_free (env : Env) (s : Pool) (c : String) (d : Driver) (act : Hmap)
    (idle : Stack) (hl : s._dbPoolLock = false) (hd : GetDriver env c = some d)
    (ha : s._dbPoolActive c = some act) (hi : s._dbPoolIdle c = some idle)
    (hlt : Hmap.Len act < d.PoolMaxActive) (hok : CreationOk env d)
    (hrange : InInt64 d.PoolMaxIdle) :
    ∃ s2 idle2, fetchAdd env d c { s with _dbPoolLock := true } = Res.ret () s2 ∧
      s2._dbPoolIdle c = some idle2 ∧
      (idle2 = [] ↔ (idle = [] ∧ (d.PoolMinIdle < 0 ∨ d.PoolMaxIdle ≤ 0))) ∧
      ((Fetch env c s).val? = some (none, some "gdopool : no enough ds") ↔ idle2 = []) ∧
      (idle2 ≠ [] → ∃ h s1, Fetch env c s = Res.ret (some h, none) s1) := by
  obtain ⟨s2, hadd⟩ := fetchAdd_total hok { s with _dbPoolLock := true } hi
  obtain ⟨news, hlen, -, hs2⟩ := fetchAdd_ret_eq hadd hi
  have hi2 : s2._dbPoolIdle c = some (news ++ idle) := by
    rw [hs2]; exact mapSet_same _ _ _
  have ha2 : s2._dbPoolActive c = some act := by
    rw [hs2]; exact ha
  have hF := Fetch_eq_front hl hd ha hlt hadd
  refine ⟨s2, news ++ idle, hadd, hi2, ?_, ?_, ?_⟩
  · rw [List.append_eq_nil, ← List.length_eq_zero, hlen]
    constructor
    · rintro ⟨hn, rfl⟩
      refine ⟨rfl, ?_⟩
      unfold topUpCount Stack.Len at hn
      simp only [List.length_nil, Nat.cast_zero, sub_zero] at hn
      rw [wrapInt64_eq hrange.1 hrange.2] at hn
      split_ifs at hn with hmin
      · right; omega
      · left; omega
    · rintro ⟨rfl, hcase⟩
      refine ⟨?_, rfl⟩
      unfold topUpCount Stack.Len
      simp only [List.length_nil, Nat.cast_zero, sub_zero]
      rw [wrapInt64_eq hrange.1 hrange.2]
      split_ifs with hmin
      · rcases hcase with h1 | h1 <;> omega
      · rfl
  · rw [hF]
    unfold fetchFront
    cases hcons : news ++ idle with
    | nil => simp [hi2, hcons, Stack.Len, Res.val?]
    | cons top rest => simp [hi2, ha2, hcons, Stack.Len, Stack.Pop, Res.val?]
  · intro hne
    rw [hF]
    unfold fetchFront
    cases hcons : news ++ idle with
    | nil => exact absurd hcons hne
    | cons top rest =>
      have hge : (1 : Int) ≤ ((rest.length + 1 : Nat) : Int) := by omega
      simp only [hi2, ha2, hcons, Stack.Len, Stack.Pop, List.length_cons, ge_iff_le, hge,
        if_true]
      exact ⟨top, _, rfl⟩

/-! ## States left by an error return -/

theorem reach_sA3 : Reach envA sA3 :=
  @Reach.fetch envA "demo" sA2 sA3 (none, some "gdopool : max active limit") reach_sA2
    (by rfl)

theorem reach_sE0 : Reach envE sE0 := @Reach.init envE none sE0 (by rfl)

theorem reach_sE1 : Reach envE sE1 :=
  @Reach.fetch envE "demo" sE0 sE1 (none, some "gdopool : no enough ds") reach_sE0 (by rfl)

/-! ## Bound on idle handles -/

/-- The loop of `Init` only adds to `made`, and adds at least `PoolInitSize` handles for
every class of the list. -/
theorem initLoop_made_ge {env : Env} :
    ∀ (l : List (String × Driver)) (s s1 : Pool) (u : Unit), initLoop env l s = Res.ret u s1 →
      s.made.length ≤ s1.made.length ∧
      ∀ c d, (c, d) ∈ l → d.PoolInitSize.toNat ≤ s1.made.length := by
  intro l
  induction l with
  | nil =>
    intro s s1 u h
    simp [initLoop] at h
    subst h
    exact ⟨le_refl _, fun c d hm => by simp at hm⟩
  | cons e rest ih =>
    intro s s1 u h
    obtain ⟨k, dk⟩ := e
    obtain ⟨s2, hp, hrest⟩ := initLoop_cons_ret h
    obtain ⟨ih1, ih2⟩ := ih s2 s1 u hrest
    have hlen := pushLoop_made_len _ _ _ _ hp
    simp only at hlen
    refine ⟨by omega, ?_⟩
    intro c d hm
    rcases List.mem_cons.mp hm with heq | hmem
    · obtain ⟨rfl, rfl⟩ := Prod.mk.inj heq
      omega
    · exact ih2 c d hmem

/-- Invariant behind the bound on live handles: a registered class has an idle stack,
`made` holds at least the `PoolInitSize` handles of the class, and while fewer than 2^62
handles have been built the idle stack holds at most the largest of `PoolInitSize`,
`PoolMaxIdle` and 0. -/
theorem reach_live_idle {env : Env} {s : Pool} (hr : Reach env s) :
    ∀ c d, GetDriver env c = some d → InInt64 d.PoolMaxIdle →
      ∃ st, s._dbPoolIdle c = some st ∧ d.PoolInitSize.toNat ≤ s.made.length ∧
        (Feasible s → Stack.Len st ≤ max d.PoolInitSize (max d.PoolMaxIdle 0)) := by
  induction hr with
  | @init r s h =>
    intro c d hd _
    obtain ⟨-, -, -, hall⟩ := Init_zero_ret h
    obtain ⟨-, st, hi, hlen⟩ := hall c d hd
    refine ⟨st, hi, ?_, fun _ => ?_⟩
    · obtain ⟨-, ⟨hf, -⟩ | ⟨-, s2, hl, rfl⟩⟩ := Init_ret h
      · simp [Pool.zero] at hf
      · exact (initLoop_made_ge _ _ _ _ hl).2 c d (GetDriver_mem hd)
    · unfold Stack.Len
      rw [hlen]
      omega
  | @fetch c0 s s1 r _ h ih =>
    intro c d hd hrange
    obtain ⟨st, hi, hinit, hb⟩ := ih c d hd hrange
    obtain ⟨-, d0, act, hd0, ha, hcase⟩ := Fetch_ret h
    rcases hcase with ⟨-, -, rfl⟩ | ⟨-, s2, hadd, hfront⟩
    · exact ⟨st, hi, hinit, hb⟩
    · obtain ⟨idle, hi0, -⟩ := fetchAdd_ret hadd
      obtain ⟨news, hlen, -, hs2⟩ := fetchAdd_ret_eq hadd hi0
      have hmade1 : s1.made = news ++ s.made := by
        rcases fetchFront_ret hfront with ⟨ds, rest, act2, -, -, -, rfl⟩ | ⟨-, -, rfl⟩ <;>
          rw [hs2]
      have hmlen : s1.made.length = news.length + s.made.length := by
        rw [hmade1, List.length_append]
      by_cases hc : c = c0
      · subst hc
        rw [hd] at hd0
        obtain rfl := Option.some.inj hd0
        have hst : idle = st := Option.some.inj (hi0.symm.trans hi)
        subst hst
        have hidle1 : ∃ st1, s1._dbPoolIdle c = some st1 ∧
            st1.length ≤ news.length + idle.length := by
          rcases fetchFront_ret hfront with ⟨ds, rest, act2, hi2, -, -, rfl⟩ | ⟨hi2, -, rfl⟩
          · refine ⟨rest, mapSet_same _ _ _, ?_⟩
            rw [hs2] at hi2
            have h3 : news ++ idle = ds :: rest :=
              Option.some.inj ((mapSet_same _ _ _).symm.trans hi2)
            have h4 := congrArg List.length h3
            simp only [List.length_append, List.length_cons] at h4
            omega
          · refine ⟨[], hi2, by simp⟩
        obtain ⟨st1, hi1, hle1⟩ := hidle1
        refine ⟨st1, hi1, by omega, fun hfeas => ?_⟩
        unfold Feasible at hfeas hb
        have hb1 := hb (by omega)
        have hr1 := hrange.1
        have hr2 := hrange.2
        unfold Stack.Len at hb1 ⊢
        unfold topUpCount Stack.Len wrapInt64 at hlen
        split_ifs at hlen with hmin
        · omega
        · omega
      · have hsame : s1._dbPoolIdle c = s._dbPoolIdle c := by
          rcases fetchFront_ret hfront with ⟨ds, rest, act2, -, -, -, rfl⟩ | ⟨-, -, rfl⟩
          · simp only [mapSet_other _ _ hc]
            rw [hs2]
            exact mapSet_other _ _ hc
          · rw [hs2]
            exact mapSet_other _ _ hc
        refine ⟨st, hsame.trans hi, by omega, fun hfeas => hb ?_⟩
        unfold Feasible at hfeas ⊢
        omega
  | @giveBack ds s s1 r _ h ih =>
    intro c d hd hrange
    obtain ⟨st, hi, hinit, hb⟩ := ih c d hd hrange
    obtain ⟨-, -, hd0, d0, act0, idle0, -, hg0, -, hi0, hcase⟩ := Return_ret h
    rcases hcase with ⟨-, -, rfl⟩ | ⟨hlt, rfl⟩
    · exact ⟨st, hi, hinit, hb⟩
    · by_cases hc : c = hd0.Name
      · subst hc
        rw [hd] at hg0
        obtain rfl := Option.some.inj hg0
        refine ⟨_, mapSet_same _ _ _, hinit, fun _ => ?_⟩
        unfold Stack.Len at hlt ⊢
        simp only [Stack.Push, List.length_cons]
        push_cast
        omega
      · simp only [mapSet_other _ _ hc]
        exact ⟨st, hi, hinit, hb⟩

/-! ## Claims -/

/-- C1 (active ceiling): in every state reachable from a first `Init` by `Fetch` and
`Return` calls, a registered class whose `PoolMaxActive` is not negative has an active
map with at most `PoolMaxActive` entries. -/
theorem C1_active_ceiling (env : Env) (s : Pool) (c : String) (d : Driver)
    (hr : Reach env s) (hd : GetDriver env c = some d) (h0 : 0 ≤ d.PoolMaxActive) :
    ∃ act, s._dbPoolActive c = some act ∧ Hmap.Len act ≤ d.PoolMaxActive ∧
      (activeCount s c : Int) ≤ d.PoolMaxActive := by
  obtain ⟨act, ha, hb⟩ := reach_active_bound hr c d hd
  refine ⟨act, ha, hb h0, ?_⟩
  have := hb h0
  simpa [activeCount, ha, Hmap.Len] using this

/-- Witness of C1: scenario A after two `Fetch` calls, two active handles against a
ceiling of two. -/
theorem C1_active_ceiling_witness :
    Reach envA sA2 ∧ GetDriver envA "demo" = some (demoDriver 2 1 3 2) ∧
      (0 : Int) ≤ (demoDriver 2 1 3 2).PoolMaxActive ∧
      ∃ act, sA2._dbPoolActive "demo" = some act ∧
        Hmap.Len act ≤ (demoDriver 2 1 3 2).PoolMaxActive ∧
        (activeCount sA2 "demo" : Int) ≤ (demoDriver 2 1 3 2).PoolMaxActive :=
  ⟨reach_sA2, by rfl, by decide,
    C1_active_ceiling envA sA2 "demo" (demoDriver 2 1 3 2) reach_sA2 (by rfl) (by decide)⟩

/-- C2 (capacity error), evaluated where it fails: in scenario A the third `Fetch` finds
two active handles against a ceiling of two and returns the capacity error, but changes
the state: it leaves the mutex held. In the state it leaves, still at the ceiling, the
next `Fetch` returns neither the capacity error nor anything else: it waits for the
mutex for ever. -/
theorem C2_capacity_fetch_blocks :
    Reach envA sA3 ∧ GetDriver envA "demo" = some (demoDriver 2 1 3 2) ∧
      sA3._dbPoolActive "demo" = some [(hA3.ID, hA3), (hA1.ID, hA1)] ∧
      (demoDriver 2 1 3 2).PoolMaxActive ≤ Hmap.Len [(hA3.ID, hA3), (hA1.ID, hA1)] ∧
      Fetch envA "demo" sA3 = Res.blocked ∧
      (¬ ∃ s1, Fetch envA "demo" sA3 =
        Res.ret (none, some "gdopool : max active limit") s1) ∧
      Fetch envA "demo" sA2 = Res.ret (none, some "gdopool : max active limit") sA3 ∧
      sA2._dbPoolLock = false ∧ sA3._dbPoolLock = true := by
  have hb : Fetch envA "demo" sA3 = Res.blocked := by rfl
  refine ⟨reach_sA3, by rfl, by rfl, by decide, hb, ?_, by rfl, by rfl, by rfl⟩
  rintro ⟨s1, h⟩
  rw [hb] at h
  cases h

/-- C3 (mutex after a return), evaluated where it fails: the third `Fetch` of scenario A
finds the mutex free, returns the capacity error and leaves the mutex held, so the next
`Fetch` and every `Return` of a handle wait for ever; a `Fetch` that returns the
exhaustion error leaves the mutex held as well. -/
theorem C3_error_return_keeps_lock :
    sA2._dbPoolLock = false ∧
      Fetch envA "demo" sA2 = Res.ret (none, some "gdopool : max active limit") sA3 ∧
      sA3._dbPoolLock = true ∧
      Fetch envA "demo" sA3 = Res.blocked ∧
      (∀ h : DataSource, Return envA (some h) sA3 = Res.blocked) ∧
      sE0._dbPoolLock = false ∧
      Fetch envE "demo" sE0 = Res.ret (none, some "gdopool : no enough ds") sE1 ∧
      sE1._dbPoolLock = true := by
  refine ⟨by rfl, by rfl, by rfl, by rfl, ?_, by rfl, by rfl, by rfl⟩
  intro h
  have hl : sA3._dbPoolLock = true := by rfl
  simp [Return, hl]

/-- C4 fails on the code: after `Init` of scenario A, `Fetch` of the unregistered name
"other" dereferences nil and panics; it returns no error value. -/
theorem C4_unknown_class_counterexample :
    sA0._dbPoolInit = true ∧ GetDriver envA "other" = none ∧
      Fetch envA "other" sA0 = Res.panic nilDeref ∧
      ¬ ∃ (e : String) (s1 : Pool), Fetch envA "other" sA0 = Res.ret (none, some e) s1 := by
  have h : Fetch envA "other" sA0 = Res.panic nilDeref := by rfl
  refine ⟨by rfl, by rfl, h, ?_⟩
  rintro ⟨e, s1, he⟩
  rw [h] at he
  cases he

/-- C4 as amended: `Fetch` has no error for an unknown class. For a name without a
registered descriptor the call never returns: on a free mutex it panics on the nil
dereference, on a held mutex it waits. -/
theorem C4_unknown_class_no_return (env : Env) (s : Pool) (name : String)
    (hd : GetDriver env name = none) :
    (s._dbPoolLock = false → Fetch env name s = Res.panic nilDeref) ∧
      (s._dbPoolLock = true → Fetch env name s = Res.blocked) ∧
      ∀ r s1, Fetch env name s ≠ Res.ret r s1 := by
  refine ⟨?_, ?_, ?_⟩
  · intro hl
    unfold Fetch
    cases ha : s._dbPoolActive name <;> simp [hl, hd, ha]
  · intro hl
    unfold Fetch
    simp [hl]
  · intro r s1 h
    obtain ⟨-, d, -, hd1, -⟩ := Fetch_ret h
    rw [hd] at hd1
    cases hd1

/-- Witness of C4 as amended: the name "other" in scenario A. -/
theorem C4_unknown_class_no_return_witness :
    GetDriver envA "other" = none ∧
      ((sA0._dbPoolLock = false → Fetch envA "other" sA0 = Res.panic nilDeref) ∧
        (sA0._dbPoolLock = true → Fetch envA "other" sA0 = Res.blocked) ∧
        ∀ r s1, Fetch envA "other" sA0 ≠ Res.ret r s1) :=
  ⟨by rfl, C4_unknown_class_no_return envA sA0 "other" (by rfl)⟩

/-- C5 fails on the code: in scenario A the handle of the first `Fetch` is returned, so
its identifier is no key of the active map any more, and a second `Return` of it returns
the nil error all the same. -/
theorem C5_invalid_release_counterexample :
    GetDriver envA "demo" = some (demoDriver 2 1 3 2) ∧
      sA1r._dbPoolActive "demo" = some [] ∧
      (Return envA (some hA1) sA1r).val? = some none := by
  refine ⟨by rfl, by rfl, by rfl⟩

/-- C5 as amended: `Return` has no check of the active map and no error. On a free mutex,
for a handle of a registered class whose identifier is no key of the active map, it
leaves the active map as it was and returns nil after pushing the handle on the idle
stack (fewer than `PoolMaxIdle` idle handles) or after closing it (otherwise, the
connection not being nil); whenever `Return` returns, the error is nil. -/
theorem C5_return_never_errors (env : Env) (s : Pool) (h : DataSource) (d : Driver)
    (act : Hmap) (idle : Stack)
    (hl : s._dbPoolLock = false) (hd : GetDriver env h.Name = some d)
    (ha : s._dbPoolActive h.Name = some act) (hi : s._dbPoolIdle h.Name = some idle)
    (hkey : ∀ e ∈ act, e.1 ≠ h.ID) :
    (Stack.Len idle < d.PoolMaxIdle →
        Return env (some h) s = Res.ret none
          { s with _dbPoolIdle := mapSet s._dbPoolIdle h.Name (Stack.Push idle h) }) ∧
      (d.PoolMaxIdle ≤ Stack.Len idle → h.Conn ≠ none →
        Return env (some h) s = Res.ret none { s with closed := h :: s.closed }) ∧
      ∀ r s1, Return env (some h) s = Res.ret r s1 → r = none := by
  have hdel : Hmap.Delete act h.ID = act := by
    unfold Hmap.Delete
    rw [List.filter_eq_self]
    intro e he
    simpa using hkey e he
  have hact : mapSet s._dbPoolActive h.Name act = s._dbPoolActive := by
    funext x
    by_cases hx : x = h.Name
    · subst hx; simp [mapSet, ha]
    · simp [mapSet, hx]
  refine ⟨?_, ?_, ?_⟩
  · intro hlt
    have hn : ¬ d.PoolMaxIdle ≤ Stack.Len idle := not_le.mpr hlt
    unfold Return
    simp only [hl, hd, ha, hi, hdel, hact, hn, Bool.false_eq_true, if_false]
  · intro hle hc
    obtain ⟨dsn, hdsn⟩ := Option.ne_none_iff_exists.mp hc
    unfold Return
    simp only [hl, hd, ha, hi, hdel, hact, hle, Bool.false_eq_true, if_false, if_true,
      releaseDataSource, ← hdsn]
  · intro r s1 hret
    exact (Return_ret hret).1

/-- Witness of C5 as amended: the second `Return` of the first handle of scenario A. -/
theorem C5_return_never_errors_witness :
    sA1r._dbPoolLock = false ∧ GetDriver envA hA1.Name = some (demoDriver 2 1 3 2) ∧
      sA1r._dbPoolActive hA1.Name = some [] ∧
      sA1r._dbPoolIdle hA1.Name = some [hA1, hA0] ∧
      (∀ e ∈ ([] : Hmap), e.1 ≠ hA1.ID) ∧
      ((Stack.Len [hA1, hA0] < (demoDriver 2 1 3 2).PoolMaxIdle →
          Return envA (some hA1) sA1r = Res.ret none
            { sA1r with _dbPoolIdle := mapSet sA1r._dbPoolIdle hA1.Name [hA1, hA1, hA0] }) ∧
        ((demoDriver 2 1 3 2).PoolMaxIdle ≤ Stack.Len [hA1, hA0] →
          hA1.Conn ≠ none →
          Return envA (some hA1) sA1r = Res.ret none { sA1r with closed := hA1 :: sA1r.closed }) ∧
        ∀ r s1, Return envA (some hA1) sA1r = Res.ret r s1 → r = none) :=
  ⟨by rfl, by rfl, by rfl, by rfl, by simp,
    C5_return_never_errors envA sA1r hA1 (demoDriver 2 1 3 2) [] [hA1, hA0]
      (by rfl) (by rfl) (by rfl) (by rfl) (by simp)⟩

/-- C6 fails on the code: in scenario A the handle of the first `Fetch` is given to
`Return` twice; both calls return nil, and the handle, built and never closed, then
lies twice on the idle stack. -/
theorem C6_exclusive_membership_counterexample :
    Reach envA sA1rr ∧ (Fetch envA "demo" sA0).handle? = some hA1 ∧
      Return envA (some hA1) sA1 = Res.ret none sA1r ∧
      Return envA (some hA1) sA1r = Res.ret none sA1rr ∧
      hA1 ∈ sA1rr.made ∧ hA1 ∉ sA1rr.closed ∧
      (idleOf sA1rr "demo").count hA1 = 2 := by
  refine ⟨reach_sA1rr, by rfl, by rfl, by rfl, by decide, by decide, by decide⟩

/-- C6 as amended: when every `Return` gets a handle that is checked out at that moment,
the registry is keyed by `DbName` and identifiers never repeat, then in every state
reached from a first `Init` every handle built and not closed is exactly once on the idle
stack of its class and not in the active map, or exactly once in the active map and not
on the idle stack; it is in no collection of another class. -/
theorem C6_exclusive_membership (env : Env) (s : Pool) (h : DataSource)
    (hnames : NamesAgree env) (hinj : Function.Injective env.uuid) (hr : ReachD env s)
    (hmade : h ∈ s.made) (hlive : h ∉ s.closed) :
    (((idleOf s h.Name).count h = 1 ∧ (activeOf s h.Name).count h = 0) ∨
        ((idleOf s h.Name).count h = 0 ∧ (activeOf s h.Name).count h = 1)) ∧
      ∀ c, c ≠ h.Name → h ∉ idleOf s c ∧ h ∉ activeOf s c := by
  have hinv := reachD_inv hr hnames hinj
  constructor
  · have hnd : (heldOf s h.Name).Nodup := List.Nodup.of_map _ (hinv.held_nodup hinj h.Name)
    have hmem : h ∈ heldOf s h.Name := by
      apply (hinv.2.1 h.Name).mem_iff.mp
      exact List.mem_filter.mpr ⟨hmade, by simp [nameIs]⟩
    have hone := List.count_eq_one_of_mem hnd hmem
    have hzero : (s.closed.filter (nameIs h.Name)).count h = 0 :=
      List.count_eq_zero_of_not_mem (fun hm => hlive (List.mem_of_mem_filter hm))
    unfold heldOf at hone
    rw [List.count_append, List.count_append, hzero] at hone
    omega
  · intro c hc
    constructor
    · intro hm
      exact hc (hinv.held_name (List.mem_append_left _ hm)).symm
    · intro hm
      exact hc (hinv.held_name
        (List.mem_append_right _ (List.mem_append_left _ hm))).symm

/-- Witness of C6 as amended: the handle checked out by the first `Fetch` of scenario A. -/
theorem C6_exclusive_membership_witness :
    NamesAgree envA ∧ Function.Injective envA.uuid ∧ ReachD envA sA1 ∧
      hA1 ∈ sA1.made ∧ hA1 ∉ sA1.closed ∧
      ((((idleOf sA1 hA1.Name).count hA1 = 1 ∧ (activeOf sA1 hA1.Name).count hA1 = 0) ∨
          ((idleOf sA1 hA1.Name).count hA1 = 0 ∧ (activeOf sA1 hA1.Name).count hA1 = 1)) ∧
        ∀ c, c ≠ hA1.Name → hA1 ∉ idleOf sA1 c ∧ hA1 ∉ activeOf sA1 c) :=
  ⟨namesAgree_envA, demoUuid_injective, reachD_sA1, by decide, by decide,
    C6_exclusive_membership envA sA1 hA1 namesAgree_envA demoUuid_injective reachD_sA1
      (by decide) (by decide)⟩

/-- C7 fails on the code: with `PoolInitSize` 5 above `PoolMaxIdle` 3, `Init`, one
`Fetch` and the `Return` of the fetched handle leave four idle handles right after the
`Return` (the handle is closed, the stack is not trimmed). -/
theorem C7_idle_ceiling_counterexample :
    Reach envB sB1 ∧ Return envB (some hB4) sB1 = Res.ret none sB2 ∧
      GetDriver envB "demo" = some (demoDriver 5 0 3 2) ∧
      idleCount sB2 "demo" = 4 ∧
      ¬ ((idleCount sB2 "demo" : Int) ≤ (demoDriver 5 0 3 2).PoolMaxIdle) := by
  refine ⟨reach_sB1, by rfl, by rfl, by rfl, by decide⟩

/-- C7 as amended: for a registered class whose `PoolMaxIdle` is not negative and not
below `PoolInitSize`, the idle stack holds at most `PoolMaxIdle` handles in every state
reachable from a first `Init` by `Fetch` and `Return` calls, and so right after any
`Return`. -/
theorem C7_idle_ceiling (env : Env) (s : Pool) (c : String) (d : Driver)
    (hr : Reach env s) (hd : GetDriver env c = some d)
    (h0 : 0 ≤ d.PoolMaxIdle) (h1 : d.PoolInitSize ≤ d.PoolMaxIdle) :
    (∃ st, s._dbPoolIdle c = some st ∧ Stack.Len st ≤ d.PoolMaxIdle) ∧
      ∀ ds r s1, Return env ds s = Res.ret r s1 →
        ∃ st1, s1._dbPoolIdle c = some st1 ∧ Stack.Len st1 ≤ d.PoolMaxIdle ∧
          (idleCount s1 c : Int) ≤ d.PoolMaxIdle := by
  constructor
  · obtain ⟨st, hi, hb⟩ := reach_idle_bound hr c d hd
    exact ⟨st, hi, hb h0 h1⟩
  · intro ds r s1 hret
    obtain ⟨st, hi, hb⟩ := reach_idle_bound (Reach.giveBack hr hret) c d hd
    refine ⟨st, hi, hb h0 h1, ?_⟩
    have := hb h0 h1
    simpa [idleCount, hi, Stack.Len] using this

/-- Witness of C7 as amended: scenario A (initial 2, maximum idle 3) after the first
`Fetch`, and the `Return` that follows. -/
theorem C7_idle_ceiling_witness :
    Reach envA sA1 ∧ GetDriver envA "demo" = some (demoDriver 2 1 3 2) ∧
      (0 : Int) ≤ (demoDriver 2 1 3 2).PoolMaxIdle ∧
      (demoDriver 2 1 3 2).PoolInitSize ≤ (demoDriver 2 1 3 2).PoolMaxIdle ∧
      ((∃ st, sA1._dbPoolIdle "demo" = some st ∧ Stack.Len st ≤ (demoDriver 2 1 3 2).PoolMaxIdle) ∧
        ∀ ds r s1, Return envA ds sA1 = Res.ret r s1 →
          ∃ st1, s1._dbPoolIdle "demo" = some st1 ∧
            Stack.Len st1 ≤ (demoDriver 2 1 3 2).PoolMaxIdle ∧
            (idleCount s1 "demo" : Int) ≤ (demoDriver 2 1 3 2).PoolMaxIdle) :=
  ⟨reach_sA1, by rfl, by decide, by decide,
    C7_idle_ceiling envA sA1 "demo" (demoDriver 2 1 3 2) reach_sA1 (by rfl) (by decide)
      (by decide)⟩

/-- C8 (idempotence of `Init`): an `Init` that returns leaves the flag set, and an `Init`
on the state it leaves returns nil and leaves exactly that state, so no handle is
created and no idle stack or active map changes. -/
theorem C8_init_idempotent (env : Env) (s s1 : Pool) (r : Option String)
    (h : Init env s = Res.ret r s1) :
    r = none ∧ s1._dbPoolInit = true ∧ Init env s1 = Res.ret none s1 ∧
      (∀ c, idleCount (Init env s1).state c = idleCount s1 c ∧
        activeCount (Init env s1).state c = activeCount s1 c) ∧
      (Init env s1).state.made = s1.made := by
  obtain ⟨hr, hcase⟩ := Init_ret h
  have hflag : s1._dbPoolInit = true := by
    rcases hcase with ⟨hf, rfl⟩ | ⟨-, s2, -, rfl⟩
    · exact hf
    · rfl
  have h2 : Init env s1 = Res.ret none s1 := by
    unfold Init
    simp [hflag]
  refine ⟨hr, hflag, h2, ?_, ?_⟩
  · intro c
    rw [h2]
    exact ⟨rfl, rfl⟩
  · rw [h2]
    rfl

/-- Witness of C8: the first `Init` of scenario A. -/
theorem C8_init_idempotent_witness :
    Init envA Pool.zero = Res.ret none sA0 ∧
      (none = (none : Option String) ∧ sA0._dbPoolInit = true ∧
        Init envA sA0 = Res.ret none sA0 ∧
        (∀ c, idleCount (Init envA sA0).state c = idleCount sA0 c ∧
          activeCount (Init envA sA0).state c = activeCount sA0 c) ∧
        (Init envA sA0).state.made = sA0.made) :=
  ⟨by rfl, C8_init_idempotent envA Pool.zero sA0 none (by rfl)⟩

/-- C9 (first `Init`): on a pool whose flag is not set, when handle creation succeeds for
every registered descriptor, `Init` returns nil and sets the flag, and every registered
class has an empty active map and an idle stack of exactly `PoolInitSize` handles (of no
handle when that number is negative). -/
theorem C9_init_populates (env : Env) (s : Pool) (hs : s._dbPoolInit = false)
    (hok : ∀ c d, (c, d) ∈ env.drivers → CreationOk env d) :
    ∃ s1, Init env s = Res.ret none s1 ∧ s1._dbPoolInit = true ∧
      ∀ c d, GetDriver env c = some d →
        s1._dbPoolActive c = some [] ∧
        ∃ st, s1._dbPoolIdle c = some st ∧ st.length = d.PoolInitSize.toNat ∧
          (0 ≤ d.PoolInitSize → Stack.Len st = d.PoolInitSize) := by
  obtain ⟨s2, hl⟩ := initLoop_total env.drivers
    { s with _dbPoolIdle := fun _ => none, _dbPoolActive := fun _ => none } hok
  refine ⟨{ s2 with _dbPoolInit := true }, ?_, rfl, ?_⟩
  · unfold Init
    rw [if_neg (by simp [hs])]
    dsimp only
    rw [hl]
  · intro c d hd
    have hmem := GetDriver_mem hd
    have ha := initLoop_active _ _ _ _ hl c
    rw [if_pos (List.mem_map.mpr ⟨(c, d), hmem, rfl⟩)] at ha
    obtain ⟨st, hi, hlen⟩ := (initLoop_idle _ _ _ _ hl).2 env.keysNodup c d hmem
    refine ⟨ha, st, hi, hlen, fun h0 => ?_⟩
    unfold Stack.Len
    rw [hlen]
    omega

/-- Witness of C9: scenario A, where `Init` leaves two idle handles and none active. -/
theorem C9_init_populates_witness :
    Pool.zero._dbPoolInit = false ∧
      (∀ c d, (c, d) ∈ envA.drivers → CreationOk envA d) ∧
      ∃ s1, Init envA Pool.zero = Res.ret none s1 ∧ s1._dbPoolInit = true ∧
        ∀ c d, GetDriver envA c = some d →
          s1._dbPoolActive c = some [] ∧
          ∃ st, s1._dbPoolIdle c = some st ∧ st.length = d.PoolInitSize.toNat ∧
            (0 ≤ d.PoolInitSize → Stack.Len st = d.PoolInitSize) :=
  ⟨by rfl, fun _ _ _ _ => rfl,
    C9_init_populates envA Pool.zero (by rfl) (fun _ _ _ _ => rfl)⟩

/-- C10 fails on the code: in scenario A the second `Fetch` finds one idle handle, tops
the stack up to three and pops one; after the `Return` of the fetched handle three
handles are idle, not one. With `PoolInitSize` above `PoolMaxIdle` the returned handle
is closed and the idle stack stays one short. After a handle was returned twice, a
`Fetch` hands out a handle that is active already, and the `Return` that follows leaves
the active map one entry short. -/
theorem C10_round_trip_counterexample :
    Reach envA sA1 ∧ Fetch envA "demo" sA1 = Res.ret (some hA3, none) sA2 ∧
      Return envA (some hA3) sA2 = Res.ret none sA2r ∧
      idleCount sA1 "demo" = 1 ∧ idleCount sA2r "demo" = 3 ∧
      Reach envB sB0 ∧ Fetch envB "demo" sB0 = Res.ret (some hB4, none) sB1 ∧
      Return envB (some hB4) sB1 = Res.ret none sB2 ∧
      idleCount sB0 "demo" = 5 ∧ idleCount sB2 "demo" = 4 ∧
      Reach envA sA1x ∧ Fetch envA "demo" sA1x = Res.ret (some hA1, none) sA1y ∧
      Return envA (some hA1) sA1y = Res.ret none sA1z ∧
      activeCount sA1x "demo" = 1 ∧ activeCount sA1z "demo" = 0 := by
  refine ⟨reach_sA1, by rfl, by rfl, by rfl, by rfl, reach_sB0, by rfl, by rfl, by rfl, by rfl,
    reach_sA1x, by rfl, by rfl, by rfl, by rfl⟩

/-- C10 as amended: in a state reached under the discipline of one `Return` per
checked-out handle (registry keyed by `DbName`, identifiers never repeating), when
`Fetch` hands out a handle without building one and the idle stack held at most
`PoolMaxIdle` handles, the `Return` of that handle right afterwards returns nil and
restores the state before the `Fetch`, so the idle and active sizes are what they were. -/
theorem C10_round_trip (env : Env) (s s1 : Pool) (c : String) (d : Driver) (h : DataSource)
    (hnames : NamesAgree env) (hinj : Function.Injective env.uuid) (hr : ReachD env s)
    (hd : GetDriver env c = some d)
    (hf : Fetch env c s = Res.ret (some h, none) s1) (hmade : s1.made = s.made)
    (hceil : (idleCount s c : Int) ≤ d.PoolMaxIdle) :
    Return env (some h) s1 = Res.ret none s ∧
      idleCount (Return env (some h) s1).state c = idleCount s c ∧
      activeCount (Return env (some h) s1).state c = activeCount s c := by
  have hinv := reachD_inv hr hnames hinj
  obtain ⟨hl, rest, act, hi, ha, rfl⟩ := Fetch_plain hf hmade
  have hname : h.Name = c := by
    apply hinv.held_name
    unfold heldOf idleOf
    rw [hi]
    exact List.mem_append_left _ (List.mem_cons_self _ _)
  have hfresh := hinv.idle_not_active hinj hi ha (List.mem_cons_self h rest)
  have hnot : ¬ d.PoolMaxIdle ≤ Stack.Len rest := by
    simp only [idleCount, hi, List.length_cons] at hceil
    unfold Stack.Len
    push_cast at hceil
    omega
  have hret : Return env (some h)
      { s with _dbPoolIdle := mapSet s._dbPoolIdle c rest,
               _dbPoolActive := mapSet s._dbPoolActive c (Hmap.Set act h.ID h) } =
      Res.ret none s := by
    unfold Return
    simp only [hname, hl, hd, mapSet_same, Hmap.Delete_Set h hfresh, hnot,
      Bool.false_eq_true, if_false, Stack.Push]
    rw [mapSet_mapSet_self _ _ _ _ hi, mapSet_mapSet_self _ _ _ _ ha, ← hl]
  rw [hret]
  exact ⟨rfl, rfl, rfl⟩

/-- Witness of C10 as amended: the first `Fetch` of scenario A, which finds two idle
handles above the minimum of one. -/
theorem C10_round_trip_witness :
    NamesAgree envA ∧ Function.Injective envA.uuid ∧ ReachD envA sA0 ∧
      GetDriver envA "demo" = some (demoDriver 2 1 3 2) ∧
      Fetch envA "demo" sA0 = Res.ret (some hA1, none) sA1 ∧ sA1.made = sA0.made ∧
      (idleCount sA0 "demo" : Int) ≤ (demoDriver 2 1 3 2).PoolMaxIdle ∧
      (Return envA (some hA1) sA1 = Res.ret none sA0 ∧
        idleCount (Return envA (some hA1) sA1).state "demo" = idleCount sA0 "demo" ∧
        activeCount (Return envA (some hA1) sA1).state "demo" = activeCount sA0 "demo") :=
  ⟨namesAgree_envA, demoUuid_injective, reachD_sA0, by rfl, by rfl, by rfl, by decide,
    C10_round_trip envA sA0 sA1 "demo" (demoDriver 2 1 3 2) hA1 namesAgree_envA
      demoUuid_injective reachD_sA0 (by rfl) (by rfl) (by rfl) (by decide)⟩

/-- C11 (exhaustion error), evaluated where it fails: in the registry with initial 0,
minimum idle 0, maximum idle 0 and maximum active 1, the first `Fetch` returns the
exhaustion error and leaves the mutex held. In the state it leaves no handle is active,
the idle stack is empty and `PoolMaxIdle <= 0`, yet the next `Fetch` does not return the
exhaustion error: it waits for the mutex for ever. -/
theorem C11_exhaustion_fetch_blocks :
    Reach envE sE1 ∧ GetDriver envE "demo" = some (demoDriver 0 0 0 1) ∧
      sE1._dbPoolActive "demo" = some [] ∧
      Hmap.Len [] < (demoDriver 0 0 0 1).PoolMaxActive ∧
      sE1._dbPoolIdle "demo" = some [] ∧ (demoDriver 0 0 0 1).PoolMaxIdle ≤ 0 ∧
      CreationOk envE (demoDriver 0 0 0 1) ∧
      Fetch envE "demo" sE1 = Res.blocked ∧
      (¬ ∃ s1, Fetch envE "demo" sE1 = Res.ret (none, some "gdopool : no enough ds") s1) ∧
      Fetch envE "demo" sE0 = Res.ret (none, some "gdopool : no enough ds") sE1 ∧
      sE0._dbPoolLock = false ∧ sE1._dbPoolLock = true := by
  have hb : Fetch envE "demo" sE1 = Res.blocked := by rfl
  refine ⟨reach_sE1, by rfl, by rfl, by decide, by rfl, by decide, fun _ => rfl, hb, ?_,
    by rfl, by rfl, by rfl⟩
  rintro ⟨s1, h⟩
  rw [hb] at h
  cases h

/-- C12 fails on the code. With `PoolMaxIdle` the least Go `int` and one idle handle,
`PoolMaxIdle - idleSize` wraps to 2^63 - 1, and `Fetch` builds that many handles where
the claim says none. With a failing `sql.Open`, `Fetch` panics in `createDataSource`
where the claim says it builds three handles. -/
theorem C12_top_up_counterexample :
    sO0._dbPoolLock = false ∧ sO0._dbPoolIdle "demo" = some [hA0] ∧
      sO0._dbPoolActive "demo" = some [] ∧
      Stack.Len [hA0] ≤ (demoDriver 1 1 (-9223372036854775808) 1).PoolMinIdle ∧
      max 0 ((demoDriver 1 1 (-9223372036854775808) 1).PoolMaxIdle - Stack.Len [hA0]) = 0 ∧
      (∃ h s1, Fetch envO "demo" sO0 = Res.ret (some h, none) s1 ∧
        s1.made.length = sO0.made.length + 9223372036854775807) ∧
      sF0._dbPoolLock = false ∧ sF0._dbPoolIdle "demo" = some [] ∧
      sF0._dbPoolActive "demo" = some [] ∧
      max 0 ((demoDriver 0 1 3 2).PoolMaxIdle - Stack.Len []) = 3 ∧
      Fetch envF "demo" sF0 = Res.panic "gdo> open db error" := by
  refine ⟨by rfl, by rfl, by rfl, by decide, by decide, ?_, by rfl, by rfl, by rfl, by decide,
    by rfl⟩
  obtain ⟨news, hlen, -, -, -, hcons⟩ :=
    @Fetch_run envO "demo" sO0 (demoDriver 1 1 (-9223372036854775808) 1) [] [hA0]
      (by rfl) (by rfl) (by rfl) (by rfl) (by decide) (fun _ => rfl)
  have hcount : topUpCount (demoDriver 1 1 (-9223372036854775808) 1) [hA0] =
      9223372036854775807 := by decide
  have hne : news ++ [hA0] ≠ [] := by simp
  obtain ⟨top, rest, htr⟩ := List.exists_cons_of_ne_nil hne
  refine ⟨top, _, hcons top rest htr, ?_⟩
  simp only [List.length_append, hlen, hcount]
  omega

/-- C12 as amended (top-up rule): on a free mutex, for a registered class below its
active ceiling, when handle creation succeeds and the Go `int` subtraction
`PoolMaxIdle - idleSize` does not overflow, `Fetch` returns and has built exactly
`max 0 (PoolMaxIdle - idleSize)` handles when `idleSize <= PoolMinIdle` and none when
`idleSize > PoolMinIdle`; the new handles are on top of the idle stack before the pop;
and after a `Fetch` that topped up from `idleSize < PoolMaxIdle` a handle is returned
and `PoolMaxIdle - 1` handles are idle. -/
theorem C12_top_up (env : Env) (s : Pool) (c : String) (d : Driver) (act : Hmap)
    (idle : Stack) (hl : s._dbPoolLock = false) (hd : GetDriver env c = some d)
    (ha : s._dbPoolActive c = some act) (hi : s._dbPoolIdle c = some idle)
    (hlt : Hmap.Len act < d.PoolMaxActive) (hok : CreationOk env d)
    (hrange : InInt64 d.PoolMaxIdle) (hno : -2 ^ 63 ≤ d.PoolMaxIdle - Stack.Len idle) :
    ∃ (news : List DataSource) (s2 : Pool) (r : Option DataSource × Option String) (s1 : Pool),
      fetchAdd env d c { s with _dbPoolLock := true } = Res.ret () s2 ∧
      s2.made = news ++ s.made ∧ s2._dbPoolIdle c = some (news ++ idle) ∧
      Fetch env c s = Res.ret r s1 ∧ s1.made = news ++ s.made ∧
      (Stack.Len idle ≤ d.PoolMinIdle →
        (news.length : Int) = max 0 (d.PoolMaxIdle - Stack.Len idle)) ∧
      (d.PoolMinIdle < Stack.Len idle → news = []) ∧
      (Stack.Len idle ≤ d.PoolMinIdle → Stack.Len idle < d.PoolMaxIdle →
        (∃ h, r = (some h, none)) ∧ (idleCount s1 c : Int) = d.PoolMaxIdle - 1) := by
  obtain ⟨news, hlen, -, hadd, hnil, hcons⟩ := Fetch_run hl hd ha hi hlt hok
  have hx2 : d.PoolMaxIdle - Stack.Len idle < 2 ^ 63 := by
    have := hrange.2
    unfold Stack.Len
    omega
  have hcount1 : Stack.Len idle ≤ d.PoolMinIdle →
      (news.length : Int) = max 0 (d.PoolMaxIdle - Stack.Len idle) := by
    intro hmin
    rw [hlen, topUpCount, if_pos hmin, wrapInt64_eq hno hx2]
    omega
  have hcount2 : d.PoolMinIdle < Stack.Len idle → news = [] := by
    intro hgt
    rw [← List.length_eq_zero, hlen, topUpCount, if_neg (not_le.mpr hgt)]
  cases hcase : news ++ idle with
  | nil =>
    refine ⟨news, _, _, _, hadd, rfl, mapSet_same _ _ _, hnil hcase, rfl, hcount1, hcount2, ?_⟩
    intro hmin hlt2
    have h1 := hcount1 hmin
    have h2 := congrArg List.length hcase
    simp only [List.length_append, List.length_nil] at h2
    unfold Stack.Len at h1 hlt2
    omega
  | cons top rest =>
    refine ⟨news, _, _, _, hadd, rfl, mapSet_same _ _ _, hcons top rest hcase, rfl, hcount1,
      hcount2, ?_⟩
    intro hmin hlt2
    refine ⟨⟨top, rfl⟩, ?_⟩
    have h1 := hcount1 hmin
    have h2 := congrArg List.length hcase
    simp only [List.length_append, List.length_cons] at h2
    simp only [idleCount, mapSet_same]
    unfold Stack.Len at h1 hlt2
    omega

/-- Witness of C12 as amended: the second `Fetch` of scenario A, which finds one idle
handle, builds two and leaves two idle. -/
theorem C12_top_up_witness :
    sA1._dbPoolLock = false ∧ GetDriver envA "demo" = some (demoDriver 2 1 3 2) ∧
      sA1._dbPoolActive "demo" = some [(hA1.ID, hA1)] ∧ sA1._dbPoolIdle "demo" = some [hA0] ∧
      Hmap.Len [(hA1.ID, hA1)] < (demoDriver 2 1 3 2).PoolMaxActive ∧
      CreationOk envA (demoDriver 2 1 3 2) ∧ InInt64 (demoDriver 2 1 3 2).PoolMaxIdle ∧
      -2 ^ 63 ≤ (demoDriver 2 1 3 2).PoolMaxIdle - Stack.Len [hA0] ∧
      ∃ (news : List DataSource) (s2 : Pool) (r : Option DataSource × Option String)
        (s1 : Pool),
        fetchAdd envA (demoDriver 2 1 3 2) "demo" { sA1 with _dbPoolLock := true } =
          Res.ret () s2 ∧
        s2.made = news ++ sA1.made ∧ s2._dbPoolIdle "demo" = some (news ++ [hA0]) ∧
        Fetch envA "demo" sA1 = Res.ret r s1 ∧ s1.made = news ++ sA1.made ∧
        (Stack.Len [hA0] ≤ (demoDriver 2 1 3 2).PoolMinIdle →
          (news.length : Int) = max 0 ((demoDriver 2 1 3 2).PoolMaxIdle - Stack.Len [hA0])) ∧
        ((demoDriver 2 1 3 2).PoolMinIdle < Stack.Len [hA0] → news = []) ∧
        (Stack.Len [hA0] ≤ (demoDriver 2 1 3 2).PoolMinIdle →
          Stack.Len [hA0] < (demoDriver 2 1 3 2).PoolMaxIdle →
          (∃ h, r = (some h, none)) ∧
            (idleCount s1 "demo" : Int) = (demoDriver 2 1 3 2).PoolMaxIdle - 1) :=
  ⟨by rfl, by rfl, by rfl, by rfl, by decide, fun _ => rfl, by decide, by decide,
    C12_top_up envA sA1 "demo" (demoDriver 2 1 3 2) [(hA1.ID, hA1)] [hA0] (by rfl) (by rfl)
      (by rfl) (by rfl) (by decide) (fun _ => rfl) (by decide) (by decide)⟩

/-- C13 (successful `Fetch`): when `Fetch` returns a handle, that handle is the top of
the idle stack of the class after the top-up, the idle stack afterwards is the rest
below it, the active map afterwards is the old one with the identifier of the handle
bound to the handle (every other key bound as before, one entry more when the
identifier was no key), and no collection of another class changes. -/
theorem C13_fetch_pop (env : Env) (s s1 : Pool) (c : String) (h : DataSource)
    (hf : Fetch env c s = Res.ret (some h, none) s1) :
    ∃ (d : Driver) (act : Hmap) (s2 : Pool) (rest : Stack),
      GetDriver env c = some d ∧ s._dbPoolActive c = some act ∧
      fetchAdd env d c { s with _dbPoolLock := true } = Res.ret () s2 ∧
      s2._dbPoolIdle c = some (h :: rest) ∧ s1._dbPoolIdle c = some rest ∧
      s1._dbPoolActive c = some (Hmap.Set act h.ID h) ∧
      Hmap.Get (Hmap.Set act h.ID h) h.ID = some h ∧
      (∀ k, k ≠ h.ID → Hmap.Get (Hmap.Set act h.ID h) k = Hmap.Get act k) ∧
      ((∀ e ∈ act, e.1 ≠ h.ID) → Hmap.Len (Hmap.Set act h.ID h) = Hmap.Len act + 1) ∧
      ∀ x, x ≠ c → s1._dbPoolIdle x = s._dbPoolIdle x ∧
        s1._dbPoolActive x = s._dbPoolActive x := by
  obtain ⟨-, d, act, hd, ha, hcase⟩ := Fetch_ret hf
  rcases hcase with ⟨-, hr, -⟩ | ⟨-, s2, hadd, hfront⟩
  · simp at hr
  · obtain ⟨idle, hi, -⟩ := fetchAdd_ret hadd
    obtain ⟨news, -, -, hs2⟩ := fetchAdd_ret_eq hadd hi
    rcases fetchFront_ret hfront with ⟨ds, rest, act2, hi2, ha2, hr, rfl⟩ | ⟨-, hr, -⟩
    · obtain rfl : h = ds := by simpa using hr
      have hact : act2 = act := by
        rw [hs2] at ha2
        exact Option.some.inj (ha2.symm.trans ha)
      subst hact
      refine ⟨d, act2, s2, rest, hd, ha, hadd, hi2, mapSet_same _ _ _, mapSet_same _ _ _,
        Hmap.Get_Set_same _ _ _, fun k hk => Hmap.Get_Set_other _ _ hk,
        fun hfresh => Hmap.Len_Set_fresh _ hfresh, ?_⟩
      intro x hx
      simp only [mapSet_other _ _ hx]
      rw [hs2]
      exact ⟨mapSet_other _ _ hx, rfl⟩
    · simp at hr

/-- Witness of C13: the first `Fetch` of scenario A. -/
theorem C13_fetch_pop_witness :
    Fetch envA "demo" sA0 = Res.ret (some hA1, none) sA1 ∧
      ∃ (d : Driver) (act : Hmap) (s2 : Pool) (rest : Stack),
        GetDriver envA "demo" = some d ∧ sA0._dbPoolActive "demo" = some act ∧
        fetchAdd envA d "demo" { sA0 with _dbPoolLock := true } = Res.ret () s2 ∧
        s2._dbPoolIdle "demo" = some (hA1 :: rest) ∧ sA1._dbPoolIdle "demo" = some rest ∧
        sA1._dbPoolActive "demo" = some (Hmap.Set act hA1.ID hA1) ∧
        Hmap.Get (Hmap.Set act hA1.ID hA1) hA1.ID = some hA1 ∧
        (∀ k, k ≠ hA1.ID → Hmap.Get (Hmap.Set act hA1.ID hA1) k = Hmap.Get act k) ∧
        ((∀ e ∈ act, e.1 ≠ hA1.ID) →
          Hmap.Len (Hmap.Set act hA1.ID hA1) = Hmap.Len act + 1) ∧
        ∀ x, x ≠ "demo" → sA1._dbPoolIdle x = sA0._dbPoolIdle x ∧
          sA1._dbPoolActive x = sA0._dbPoolActive x :=
  ⟨by rfl, C13_fetch_pop envA sA0 sA1 "demo" hA1 (by rfl)⟩

/-- C14 fails on the code: for a descriptor whose type is not "mysql",
`createDataSource` leaves the connection nil; the handle `Fetch` returns is a key of the
active map, one handle is idle against a `PoolMaxIdle` of one, and `Return` panics in
`releaseDataSource` on the nil connection instead of returning nil. -/
theorem C14_return_reference_counterexample :
    Fetch envP "demo" sP0 = Res.ret (some hP1, none) sP1 ∧
      sP1._dbPoolActive hP1.Name = some [(hP1.ID, hP1)] ∧
      idleCount sP1 "demo" = 1 ∧ GetDriver envP "demo" = some { demoDriver 2 0 1 1 with DriverType := "pgsql" } ∧
      Return envP (some hP1) sP1 = Res.panic nilDeref := by
  refine ⟨by rfl, by rfl, by rfl, by rfl, by rfl⟩

/-- C14 as amended: `Return` equals the reference definition `ReturnRef`. On a free
mutex, for a handle of a registered class whose identifier is a key of the active map
(a map, no key twice) and whose connection is not nil when it is to be closed, `Return`
returns nil and leaves the state `ReturnRef` gives: the identifier is no key any more
and the active map is one entry shorter; with fewer than `PoolMaxIdle` idle handles the
handle is on top of the idle stack and is not closed; otherwise the handle is closed
and the idle stack is as before; no collection of another class changes. -/
theorem C14_return_reference (env : Env) (s : Pool) (h : DataSource) (d : Driver)
    (act : Hmap) (idle : Stack) (hl : s._dbPoolLock = false)
    (hd : GetDriver env h.Name = some d) (ha : s._dbPoolActive h.Name = some act)
    (hi : s._dbPoolIdle h.Name = some idle) (hnd : (act.map Prod.fst).Nodup)
    (hkey : h.ID ∈ act.map Prod.fst)
    (hconn : d.PoolMaxIdle ≤ Stack.Len idle → h.Conn ≠ none) :
    Return env (some h) s = Res.ret none (ReturnRef d act idle h s) ∧
      (ReturnRef d act idle h s)._dbPoolActive h.Name = some (Hmap.Delete act h.ID) ∧
      Hmap.Get (Hmap.Delete act h.ID) h.ID = none ∧
      Hmap.Len (Hmap.Delete act h.ID) = Hmap.Len act - 1 ∧
      (Stack.Len idle < d.PoolMaxIdle →
        (ReturnRef d act idle h s)._dbPoolIdle h.Name = some (h :: idle) ∧
        (ReturnRef d act idle h s).closed = s.closed) ∧
      (d.PoolMaxIdle ≤ Stack.Len idle →
        (ReturnRef d act idle h s)._dbPoolIdle h.Name = some idle ∧
        (ReturnRef d act idle h s).closed = h :: s.closed) ∧
      ∀ x, x ≠ h.Name →
        (ReturnRef d act idle h s)._dbPoolIdle x = s._dbPoolIdle x ∧
        (ReturnRef d act idle h s)._dbPoolActive x = s._dbPoolActive x := by
  by_cases hlt : Stack.Len idle < d.PoolMaxIdle
  · have hn : ¬ d.PoolMaxIdle ≤ Stack.Len idle := not_le.mpr hlt
    have href : ReturnRef d act idle h s =
        { s with _dbPoolActive := mapSet s._dbPoolActive h.Name (Hmap.Delete act h.ID),
                 _dbPoolIdle := mapSet s._dbPoolIdle h.Name (h :: idle) } := by
      unfold ReturnRef
      rw [if_pos hlt]
    rw [href]
    refine ⟨?_, mapSet_same _ _ _, Hmap.Get_Delete_same _ _, Hmap.Len_Delete_key hnd hkey,
      fun _ => ⟨mapSet_same _ _ _, rfl⟩, fun hle => absurd hle hn, ?_⟩
    · unfold Return
      simp only [hl, hd, ha, hi, hn, Bool.false_eq_true, if_false, Stack.Push]
    · intro x hx
      exact ⟨mapSet_other _ _ hx, mapSet_other _ _ hx⟩
  · have hle : d.PoolMaxIdle ≤ Stack.Len idle := not_lt.mp hlt
    obtain ⟨dsn, hdsn⟩ := Option.ne_none_iff_exists.mp (hconn hle)
    have href : ReturnRef d act idle h s =
        { s with _dbPoolActive := mapSet s._dbPoolActive h.Name (Hmap.Delete act h.ID),
                 closed := h :: s.closed } := by
      unfold ReturnRef
      rw [if_neg hlt]
    rw [href]
    refine ⟨?_, mapSet_same _ _ _, Hmap.Get_Delete_same _ _, Hmap.Len_Delete_key hnd hkey,
      fun h1 => absurd h1 hlt, fun _ => ⟨hi, rfl⟩, ?_⟩
    · unfold Return
      simp only [hl, hd, ha, hi, hle, Bool.false_eq_true, if_false, if_true,
        releaseDataSource, ← hdsn]
    · intro x hx
      exact ⟨rfl, mapSet_other _ _ hx⟩

/-- Witness of C14 as amended: the `Return` of the handle checked out by the first
`Fetch` of scenario A. -/
theorem C14_return_reference_witness :
    sA1._dbPoolLock = false ∧ GetDriver envA hA1.Name = some (demoDriver 2 1 3 2) ∧
      sA1._dbPoolActive hA1.Name = some [(hA1.ID, hA1)] ∧
      sA1._dbPoolIdle hA1.Name = some [hA0] ∧
      (([(hA1.ID, hA1)] : Hmap).map Prod.fst).Nodup ∧
      hA1.ID ∈ ([(hA1.ID, hA1)] : Hmap).map Prod.fst ∧
      ((demoDriver 2 1 3 2).PoolMaxIdle ≤ Stack.Len [hA0] → hA1.Conn ≠ none) ∧
      (Return envA (some hA1) sA1 =
          Res.ret none (ReturnRef (demoDriver 2 1 3 2) [(hA1.ID, hA1)] [hA0] hA1 sA1) ∧
        (ReturnRef (demoDriver 2 1 3 2) [(hA1.ID, hA1)] [hA0] hA1 sA1)._dbPoolActive hA1.Name =
          some (Hmap.Delete [(hA1.ID, hA1)] hA1.ID) ∧
        Hmap.Get (Hmap.Delete [(hA1.ID, hA1)] hA1.ID) hA1.ID = none ∧
        Hmap.Len (Hmap.Delete [(hA1.ID, hA1)] hA1.ID) = Hmap.Len [(hA1.ID, hA1)] - 1 ∧
        (Stack.Len [hA0] < (demoDriver 2 1 3 2).PoolMaxIdle →
          (ReturnRef (demoDriver 2 1 3 2) [(hA1.ID, hA1)] [hA0] hA1 sA1)._dbPoolIdle hA1.Name =
            some (hA1 :: [hA0]) ∧
          (ReturnRef (demoDriver 2 1 3 2) [(hA1.ID, hA1)] [hA0] hA1 sA1).closed = sA1.closed) ∧
        ((demoDriver 2 1 3 2).PoolMaxIdle ≤ Stack.Len [hA0] →
          (ReturnRef (demoDriver 2 1 3 2) [(hA1.ID, hA1)] [hA0] hA1 sA1)._dbPoolIdle hA1.Name =
            some [hA0] ∧
          (ReturnRef (demoDriver 2 1 3 2) [(hA1.ID, hA1)] [hA0] hA1 sA1).closed =
            hA1 :: sA1.closed) ∧
        ∀ x, x ≠ hA1.Name →
          (ReturnRef (demoDriver 2 1 3 2) [(hA1.ID, hA1)] [hA0] hA1 sA1)._dbPoolIdle x =
            sA1._dbPoolIdle x ∧
          (ReturnRef (demoDriver 2 1 3 2) [(hA1.ID, hA1)] [hA0] hA1 sA1)._dbPoolActive x =
            sA1._dbPoolActive x) :=
  ⟨by rfl, by rfl, by rfl, by rfl, by simp, by simp, fun _ => by decide,
    C14_return_reference envA sA1 hA1 (demoDriver 2 1 3 2) [(hA1.ID, hA1)] [hA0] (by rfl)
      (by rfl) (by rfl) (by rfl) (by simp) (by simp) (fun _ => by decide)⟩

/-- C15 fails on the code: after the two `Fetch` calls of scenario A two handles are
idle, neither none nor one. -/
theorem C15_scenario_A_counterexample :
    envA.drivers = [("demo", demoDriver 2 1 3 2)] ∧
      Init envA Pool.zero = Res.ret none sA0 ∧
      Fetch envA "demo" sA0 = Res.ret (some hA1, none) sA1 ∧
      Fetch envA "demo" sA1 = Res.ret (some hA3, none) sA2 ∧
      activeCount sA2 "demo" = 2 ∧
      ¬ (idleCount sA2 "demo" = 0 ∨ idleCount sA2 "demo" = 1) := by
  refine ⟨by rfl, by rfl, by rfl, by rfl, by rfl, by decide⟩

/-- C15 as amended (scenario A): for the single class with initial 2, minimum idle 1,
maximum idle 3 and maximum active 2, `Init` leaves 2 idle handles and none active; the
first `Fetch` succeeds and leaves 1 idle and 1 active; the second finds the idle stack
at the minimum, tops it up to 3, succeeds and leaves 2 idle and 2 active; the third
returns the capacity error and leaves 2 idle and 2 active. -/
theorem C15_scenario_A :
    envA.drivers = [("demo", demoDriver 2 1 3 2)] ∧
      Init envA Pool.zero = Res.ret none sA0 ∧
      idleCount sA0 "demo" = 2 ∧ activeCount sA0 "demo" = 0 ∧
      Fetch envA "demo" sA0 = Res.ret (some hA1, none) sA1 ∧
      idleCount sA1 "demo" = 1 ∧ activeCount sA1 "demo" = 1 ∧
      Fetch envA "demo" sA1 = Res.ret (some hA3, none) sA2 ∧
      idleCount sA2 "demo" = 2 ∧ activeCount sA2 "demo" = 2 ∧
      Fetch envA "demo" sA2 = Res.ret (none, some "gdopool : max active limit") sA3 ∧
      idleCount sA3 "demo" = 2 ∧ activeCount sA3 "demo" = 2 := by
  refine ⟨by rfl, by rfl, by rfl, by rfl, by rfl, by rfl, by rfl, by rfl, by rfl, by rfl,
    by rfl, by rfl, by rfl⟩

/-- C16 fails on the code: with a failing `sql.Open`, one idle handle and the top-up
asking for two more, `Fetch` panics in `createDataSource`; it returns no handle. -/
theorem C16_creation_failure_counterexample :
    Reach envF sF1 ∧ GetDriver envF "demo" = some (demoDriver 0 1 3 2) ∧
      sF1._dbPoolLock = false ∧ sF1._dbPoolIdle "demo" = some [hA1] ∧
      sF1._dbPoolActive "demo" = some [] ∧
      topUpCount (demoDriver 0 1 3 2) [hA1] = 2 ∧
      envF.sqlOpen (dsnOf (demoDriver 0 1 3 2)) = false ∧
      Fetch envF "demo" sF1 = Res.panic "gdo> open db error" ∧
      ¬ ∃ h s1, Fetch envF "demo" sF1 = Res.ret (some h, none) s1 := by
  have hp : Fetch envF "demo" sF1 = Res.panic "gdo> open db error" := by rfl
  refine ⟨reach_sF1, by rfl, by rfl, by rfl, by rfl, by decide, by rfl, hp, ?_⟩
  rintro ⟨h, s1, hf⟩
  rw [hp] at hf
  cases hf

/-- C16 as amended: creation failure is not tolerated. On a free mutex, for a registered
class of type "mysql" below its active ceiling whose top-up runs and asks for at least
one handle, a failing `sql.Open` makes `Fetch` panic with "gdo> open db error"; the call
returns neither a handle nor an error. -/
theorem C16_creation_failure (env : Env) (s : Pool) (c : String) (d : Driver) (act : Hmap)
    (idle : Stack) (hl : s._dbPoolLock = false) (hd : GetDriver env c = some d)
    (ha : s._dbPoolActive c = some act) (hi : s._dbPoolIdle c = some idle)
    (hlt : Hmap.Len act < d.PoolMaxActive) (hmin : Stack.Len idle ≤ d.PoolMinIdle)
    (hpos : 0 < wrapInt64 (d.PoolMaxIdle - Stack.Len idle))
    (htype : d.DriverType = "mysql") (hfail : env.sqlOpen (dsnOf d) = false) :
    Fetch env c s = Res.panic "gdo> open db error" ∧
      ∀ r s1, Fetch env c s ≠ Res.ret r s1 := by
  have hp : Fetch env c s = Res.panic "gdo> open db error" := by
    obtain ⟨k, hk⟩ : ∃ k, (wrapInt64 (d.PoolMaxIdle - Stack.Len idle)).toNat = k + 1 :=
      ⟨(wrapInt64 (d.PoolMaxIdle - Stack.Len idle)).toNat - 1, by omega⟩
    unfold Fetch
    simp only [hl, hd, ha, not_le.mpr hlt, Bool.false_eq_true, if_false]
    unfold fetchAdd
    simp only [hi, ge_iff_le, hmin, if_true, hk]
    unfold pushLoop createDataSource
    simp [htype, hfail]
  refine ⟨hp, ?_⟩
  intro r s1 hf
  rw [hp] at hf
  cases hf

/-- Witness of C16 as amended: the `Fetch` of `envF` on one idle handle. -/
theorem C16_creation_failure_witness :
    sF1._dbPoolLock = false ∧ GetDriver envF "demo" = some (demoDriver 0 1 3 2) ∧
      sF1._dbPoolActive "demo" = some [] ∧ sF1._dbPoolIdle "demo" = some [hA1] ∧
      Hmap.Len [] < (demoDriver 0 1 3 2).PoolMaxActive ∧
      Stack.Len [hA1] ≤ (demoDriver 0 1 3 2).PoolMinIdle ∧
      0 < wrapInt64 ((demoDriver 0 1 3 2).PoolMaxIdle - Stack.Len [hA1]) ∧
      (demoDriver 0 1 3 2).DriverType = "mysql" ∧
      envF.sqlOpen (dsnOf (demoDriver 0 1 3 2)) = false ∧
      (Fetch envF "demo" sF1 = Res.panic "gdo> open db error" ∧
        ∀ r s1, Fetch envF "demo" sF1 ≠ Res.ret r s1) :=
  ⟨by rfl, by rfl, by rfl, by rfl, by decide, by decide, by decide, by rfl, by rfl,
    C16_creation_failure envF sF1 "demo" (demoDriver 0 1 3 2) [] [hA1] (by rfl) (by rfl)
      (by rfl) (by rfl) (by decide) (by decide) (by decide) (by rfl) (by rfl)⟩

/-- C17 (scenario D), evaluated where it fails: four callers of `Fetch` on scenario A
(maximum active 2), in the order in which the mutex admits them. The first two get
handles with different identifiers, the third gets the capacity error and leaves the
mutex held, and the fourth never returns: one capacity error instead of two. -/
theorem C17_concurrent_fetch_blocks :
    (demoDriver 2 1 3 2).PoolMaxActive = 2 ∧
      fetchCalls envA "demo" 4 sA0 =
        [some (some hA1, none), some (some hA3, none),
          some (none, some "gdopool : max active limit"), none] ∧
      hA1.ID ≠ hA3.ID ∧ sA3._dbPoolLock = true ∧ Fetch envA "demo" sA3 = Res.blocked := by
  refine ⟨by rfl, by rfl, by decide, by rfl, by rfl⟩

/-- C18 (exclusive ownership): under the release-once discipline, with identifiers that
never repeat, in every state reached from `Init` no handle lies twice on an idle stack,
no idle handle of a class is in the active map of the class or held by a caller, and a
`Fetch` that succeeds returns a handle no caller holds. -/
theorem C18_exclusive_ownership (env : Env) (s : Pool) (out : List DataSource)
    (hinj : Function.Injective env.uuid) (hr : ReachOut env s out) :
    (∀ c, (idleOf s c).Nodup ∧ ∀ v ∈ idleOf s c, v ∉ activeOf s c ∧ v ∉ out) ∧
      ∀ c h s1, Fetch env c s = Res.ret (some h, none) s1 → h ∉ out := by
  have hinv := reachOut_inv hr hinj
  constructor
  · intro c
    refine ⟨hinv.idleNodup c, fun v hv => ⟨fun ha => ?_, hinv.idleOut c v hv⟩⟩
    rcases hinv.activeOut c v ha with h1 | h1
    · exact hinv.idleOut c v hv h1
    · exact hinv.idleStale c v hv h1 c ha
  · intro c h s1 hf
    have h2 := Fetch_outInv_ok hf hinj hinv
    exact (List.nodup_cons.mp h2.outNodup).1

/-- Witness of C18: scenario A after the first `Fetch`, whose handle a caller holds. -/
theorem C18_exclusive_ownership_witness :
    Function.Injective envA.uuid ∧ ReachOut envA sA1 [hA1] ∧
      ((∀ c, (idleOf sA1 c).Nodup ∧ ∀ v ∈ idleOf sA1 c, v ∉ activeOf sA1 c ∧ v ∉ [hA1]) ∧
        ∀ c h s1, Fetch envA c sA1 = Res.ret (some h, none) s1 → h ∉ [hA1]) :=
  ⟨demoUuid_injective, reachOut_sA1,
    C18_exclusive_ownership envA sA1 [hA1] demoUuid_injective reachOut_sA1⟩

/-- C19 fails on the code: `createDataSource` names a handle after the `DbName` of the
descriptor, not after the class name of the registry. With the descriptor of database
"demo" registered as "main", the handle `Fetch("main")` returns is named "demo", and
`Return` of it looks for the collections of the unregistered class "demo" and panics. -/
theorem C19_handle_name_counterexample :
    envN.drivers = [("main", demoDriver 2 0 3 2)] ∧
      Init envN Pool.zero = Res.ret none sN0 ∧
      Fetch envN "main" sN0 = Res.ret (some hA1, none) sN1 ∧
      hA1.Name ≠ "main" ∧ GetDriver envN hA1.Name = none ∧
      Return envN (some hA1) sN1 = Res.panic nilDeref := by
  refine ⟨by rfl, by rfl, by rfl, by decide, by rfl, by rfl⟩

/-- C19 as amended: for a registry in which every descriptor is registered under its own
`DbName`, in every state reachable from a first `Init`, a handle returned by `Fetch(c)`
is named `c`; the class is registered and has its two collections, and the `Return` of
the handle (its connection not nil if it is to be closed) returns nil, deletes its
identifier from the active map of `c`, applies `PoolMaxIdle` of `c` to the idle stack of
`c`, and changes no collection of another class. -/
theorem C19_handle_name (env : Env) (s s1 : Pool) (c : String) (h : DataSource)
    (hn : NamesAgree env) (hr : Reach env s)
    (hf : Fetch env c s = Res.ret (some h, none) s1) :
    h.Name = c ∧
      ∃ d act idle, GetDriver env c = some d ∧ s1._dbPoolActive c = some act ∧
        s1._dbPoolIdle c = some idle ∧
        ((d.PoolMaxIdle ≤ Stack.Len idle → h.Conn ≠ none) →
          Return env (some h) s1 = Res.ret none (ReturnRef d act idle h s1)) ∧
        (ReturnRef d act idle h s1)._dbPoolActive c = some (Hmap.Delete act h.ID) ∧
        (Stack.Len idle < d.PoolMaxIdle →
          (ReturnRef d act idle h s1)._dbPoolIdle c = some (h :: idle)) ∧
        (d.PoolMaxIdle ≤ Stack.Len idle →
          (ReturnRef d act idle h s1)._dbPoolIdle c = some idle) ∧
        ∀ x, x ≠ c → (ReturnRef d act idle h s1)._dbPoolIdle x = s1._dbPoolIdle x ∧
          (ReturnRef d act idle h s1)._dbPoolActive x = s1._dbPoolActive x := by
  have hname : h.Name = c := (Fetch_names hf hn (reach_idle_names hr hn)).2 h rfl
  refine ⟨hname, ?_⟩
  obtain ⟨-, d, act, hd, ha, hcase⟩ := Fetch_ret hf
  rcases hcase with ⟨-, hr1, -⟩ | ⟨-, s2, hadd, hfront⟩
  · simp at hr1
  · rcases fetchFront_ret hfront with ⟨ds, rest, act2, hi2, ha2, hr1, hs1⟩ | ⟨-, hr1, -⟩
    · obtain rfl : h = ds := by simpa using hr1
      have hl1 : s1._dbPoolLock = false := by rw [hs1]
      have ha1 : s1._dbPoolActive c = some (Hmap.Set act2 h.ID h) := by
        rw [hs1]; exact mapSet_same _ _ _
      have hi1 : s1._dbPoolIdle c = some rest := by
        rw [hs1]; exact mapSet_same _ _ _
      subst hname
      refine ⟨d, _, rest, hd, ha1, hi1, fun hconn => Return_run hl1 hd ha1 hi1 hconn, ?_, ?_,
        ?_, ?_⟩
      · unfold ReturnRef
        split_ifs <;> exact mapSet_same _ _ _
      · intro hlt
        unfold ReturnRef
        rw [if_pos hlt]
        exact mapSet_same _ _ _
      · intro hle
        unfold ReturnRef
        rw [if_neg (not_lt.mpr hle)]
        exact hi1
      · intro x hx
        unfold ReturnRef
        split_ifs
        · exact ⟨mapSet_other _ _ hx, mapSet_other _ _ hx⟩
        · exact ⟨rfl, mapSet_other _ _ hx⟩
    · simp at hr1

/-- Witness of C19 as amended: the first `Fetch` of scenario A. -/
theorem C19_handle_name_witness :
    NamesAgree envA ∧ Reach envA sA0 ∧
      Fetch envA "demo" sA0 = Res.ret (some hA1, none) sA1 ∧
      (hA1.Name = "demo" ∧
        ∃ d act idle, GetDriver envA "demo" = some d ∧ sA1._dbPoolActive "demo" = some act ∧
          sA1._dbPoolIdle "demo" = some idle ∧
          ((d.PoolMaxIdle ≤ Stack.Len idle → hA1.Conn ≠ none) →
            Return envA (some hA1) sA1 = Res.ret none (ReturnRef d act idle hA1 sA1)) ∧
          (ReturnRef d act idle hA1 sA1)._dbPoolActive "demo" =
            some (Hmap.Delete act hA1.ID) ∧
          (Stack.Len idle < d.PoolMaxIdle →
            (ReturnRef d act idle hA1 sA1)._dbPoolIdle "demo" = some (hA1 :: idle)) ∧
          (d.PoolMaxIdle ≤ Stack.Len idle →
            (ReturnRef d act idle hA1 sA1)._dbPoolIdle "demo" = some idle) ∧
          ∀ x, x ≠ "demo" →
            (ReturnRef d act idle hA1 sA1)._dbPoolIdle x = sA1._dbPoolIdle x ∧
            (ReturnRef d act idle hA1 sA1)._dbPoolActive x = sA1._dbPoolActive x) :=
  ⟨namesAgree_envA, reach_sA0, by rfl,
    C19_handle_name envA sA0 sA1 "demo" hA1 namesAgree_envA reach_sA0 (by rfl)⟩

/-- C20 (bound on live handles): for a registered class whose `PoolMaxActive` is not
negative (`PoolMaxIdle` a Go `int`), every state reachable from a first `Init` by
`Fetch` and `Return` calls in which fewer than 2^62 handles have been built has at most
`max(PoolInitSize, PoolMaxIdle, 0)` idle handles, and idle and active handles together
are at most that number plus `PoolMaxActive`. -/
theorem C20_live_bound (env : Env) (s : Pool) (c : String) (d : Driver)
    (hr : Reach env s) (hd : GetDriver env c = some d) (h0 : 0 ≤ d.PoolMaxActive)
    (hrange : InInt64 d.PoolMaxIdle) (hfeas : Feasible s) :
    (idleCount s c : Int) ≤ max d.PoolInitSize (max d.PoolMaxIdle 0) ∧
      (idleCount s c : Int) + (activeCount s c : Int) ≤
        max d.PoolInitSize (max d.PoolMaxIdle 0) + d.PoolMaxActive := by
  obtain ⟨st, hi, -, hb⟩ := reach_live_idle hr c d hd hrange
  obtain ⟨act, ha, hb2⟩ := reach_active_bound hr c d hd
  have h1 : (idleCount s c : Int) ≤ max d.PoolInitSize (max d.PoolMaxIdle 0) := by
    simpa [idleCount, hi, Stack.Len] using hb hfeas
  have h2 : (activeCount s c : Int) ≤ d.PoolMaxActive := by
    simpa [activeCount, ha, Hmap.Len] using hb2 h0
  exact ⟨h1, by omega⟩

/-- Witness of C20: scenario A after two `Fetch` calls, four handles built, two idle and
two active against the bounds 3 and 5. -/
theorem C20_live_bound_witness :
    Reach envA sA2 ∧ GetDriver envA "demo" = some (demoDriver 2 1 3 2) ∧
      (0 : Int) ≤ (demoDriver 2 1 3 2).PoolMaxActive ∧
      InInt64 (demoDriver 2 1 3 2).PoolMaxIdle ∧ Feasible sA2 ∧
      ((idleCount sA2 "demo" : Int) ≤
          max (demoDriver 2 1 3 2).PoolInitSize (max (demoDriver 2 1 3 2).PoolMaxIdle 0) ∧
        (idleCount sA2 "demo" : Int) + (activeCount sA2 "demo" : Int) ≤
          max (demoDriver 2 1 3 2).PoolInitSize (max (demoDriver 2 1 3 2).PoolMaxIdle 0) +
            (demoDriver 2 1 3 2).PoolMaxActive) :=
  ⟨reach_sA2, by rfl, by decide, by decide, by unfold Feasible; decide,
    C20_live_bound envA sA2 "demo" (demoDriver 2 1 3 2) reach_sA2 (by rfl) (by decide)
      (by decide) (by unfold Feasible; decide)⟩
end GdoPool
